import Mathlib

/-!
Shallow embedding of the technical-analysis engine of `dxcharts-lite`
(`src/chart/chartscript/ta.ts`), together with proofs about the claims on its
specification.

Modelling conventions:
* A JavaScript `number` holding a finite value or `NaN` is modelled as
  `JSNum := Option ℚ`, with `none` playing the role of `NaN`.  The engine's
  arithmetic never relies on infinite values on the paths covered by the
  claims; divisions whose denominator is zero are modelled as `NaN`
  (faithful to JavaScript whenever the numerator is zero as well, which is
  the only case the modelled code paths can reach; guarded divisions are
  translated with their guards).
* Arithmetic on ℚ is implemented by kernel-reducible wrappers
  (`qadd`, `qsub`, `qmul`, `qdiv`, ...) built on `Rat.divInt`, so that
  concrete runs of the embedded functions can be evaluated by `decide`.
  Each wrapper is proved equal to the corresponding Mathlib operation.
* JavaScript array indexing `a[i]`, which yields `undefined` (and hence
  `NaN` in arithmetic) out of range, is modelled by `jget`, which yields
  `none` out of range.
* Comparisons on `NaN` are `false` in JavaScript; the boolean comparisons
  `jlt`, `jle`, `jgt`, `jge` return `false` whenever an operand is `none`.
* Lengths are taken as natural numbers, matching the claims' scope of
  positive integer length parameters (for which `Math.floor` is the
  identity).
-/

-- ============================================================
-- Kernel-reducible rational arithmetic
-- ============================================================

def qadd (a b : ℚ) : ℚ := Rat.divInt (a.num * b.den + b.num * a.den) (a.den * b.den)

def qsub (a b : ℚ) : ℚ := Rat.divInt (a.num * b.den - b.num * a.den) (a.den * b.den)

def qmul (a b : ℚ) : ℚ := Rat.divInt (a.num * b.num) (a.den * b.den)

def qinv (a : ℚ) : ℚ := Rat.divInt a.den a.num

def qdiv (a b : ℚ) : ℚ := qmul a (qinv b)

def qneg (a : ℚ) : ℚ := Rat.divInt (-a.num) a.den

def qltB (a b : ℚ) : Bool := decide (a.num * (b.den : ℤ) < b.num * (a.den : ℤ))

def qleB (a b : ℚ) : Bool := decide (a.num * (b.den : ℤ) ≤ b.num * (a.den : ℤ))

def qabs (a : ℚ) : ℚ := if qltB a 0 then qneg a else a

def qmaxQ (a b : ℚ) : ℚ := if qleB a b then b else a

def qminQ (a b : ℚ) : ℚ := if qleB a b then a else b

theorem qden_posQ (a : ℚ) : (0 : ℚ) < (a.den : ℚ) := by exact_mod_cast a.pos

theorem qmul_den (a : ℚ) : a * ((a.den : ℚ)) = ((a.num : ℚ)) := by
  have hd : ((a.den : ℚ)) ≠ 0 := ne_of_gt (qden_posQ a)
  calc a * ((a.den : ℚ)) = ((a.num : ℚ) / (a.den : ℚ)) * ((a.den : ℚ)) := by
        rw [Rat.num_div_den a]
  _ = ((a.num : ℚ)) := div_mul_cancel₀ _ hd

theorem qadd_eq (a b : ℚ) : qadd a b = a + b := by
  have ha := qden_posQ a
  have hb := qden_posQ b
  rw [qadd, Rat.divInt_eq_div]
  push_cast
  rw [div_eq_iff (by positivity)]
  linear_combination (-(b.den : ℚ)) * qmul_den a - ((a.den : ℚ)) * qmul_den b

theorem qsub_eq (a b : ℚ) : qsub a b = a - b := by
  have ha := qden_posQ a
  have hb := qden_posQ b
  rw [qsub, Rat.divInt_eq_div]
  push_cast
  rw [div_eq_iff (by positivity)]
  linear_combination (-(b.den : ℚ)) * qmul_den a + ((a.den : ℚ)) * qmul_den b

theorem qmul_eq (a b : ℚ) : qmul a b = a * b := by
  have ha := qden_posQ a
  have hb := qden_posQ b
  rw [qmul, Rat.divInt_eq_div]
  push_cast
  rw [div_eq_iff (by positivity)]
  linear_combination (-(b.num : ℚ)) * qmul_den a - (a * ((a.den : ℚ))) * qmul_den b

theorem qneg_eq (a : ℚ) : qneg a = -a := by
  have ha := qden_posQ a
  rw [qneg, Rat.divInt_eq_div]
  push_cast
  rw [div_eq_iff (ne_of_gt ha)]
  linear_combination qmul_den a

theorem qinv_eq (a : ℚ) : qinv a = a⁻¹ := by
  rcases eq_or_ne a 0 with rfl | h
  · simp [qinv]
  · have ha := qden_posQ a
    have hnum : ((a.num : ℚ)) ≠ 0 := by
      exact_mod_cast Rat.num_ne_zero.mpr h
    rw [qinv, Rat.divInt_eq_div, inv_eq_one_div, div_eq_div_iff hnum h, one_mul]
    linear_combination qmul_den a

theorem qdiv_eq (a b : ℚ) : qdiv a b = a / b := by
  rw [qdiv, qmul_eq, qinv_eq, div_eq_mul_inv]

theorem qltB_iff (a b : ℚ) : qltB a b = true ↔ a < b := by
  have ha := qden_posQ a
  have hb := qden_posQ b
  rw [qltB, decide_eq_true_eq]
  constructor
  · intro h
    have h2 : ((a.num : ℚ)) * (b.den : ℚ) < (b.num : ℚ) * (a.den : ℚ) := by exact_mod_cast h
    nlinarith [qmul_den a, qmul_den b, mul_pos ha hb]
  · intro h
    have h2 : ((a.num : ℚ)) * (b.den : ℚ) < (b.num : ℚ) * (a.den : ℚ) := by
      nlinarith [qmul_den a, qmul_den b, mul_pos ha hb]
    exact_mod_cast h2

theorem qleB_iff (a b : ℚ) : qleB a b = true ↔ a ≤ b := by
  have ha := qden_posQ a
  have hb := qden_posQ b
  rw [qleB, decide_eq_true_eq]
  constructor
  · intro h
    have h2 : ((a.num : ℚ)) * (b.den : ℚ) ≤ (b.num : ℚ) * (a.den : ℚ) := by exact_mod_cast h
    nlinarith [qmul_den a, qmul_den b, mul_pos ha hb]
  · intro h
    have h2 : ((a.num : ℚ)) * (b.den : ℚ) ≤ (b.num : ℚ) * (a.den : ℚ) := by
      nlinarith [qmul_den a, qmul_den b, mul_pos ha hb]
    exact_mod_cast h2

theorem qltB_eq_false (a b : ℚ) (h : ¬ a < b) : qltB a b = false := by
  rcases Bool.eq_false_or_eq_true (qltB a b) with ht | hf
  · exact absurd ((qltB_iff a b).mp ht) h
  · exact hf

theorem qleB_eq_false (a b : ℚ) (h : ¬ a ≤ b) : qleB a b = false := by
  rcases Bool.eq_false_or_eq_true (qleB a b) with ht | hf
  · exact absurd ((qleB_iff a b).mp ht) h
  · exact hf

theorem qabs_eq (a : ℚ) : qabs a = |a| := by
  rw [qabs]
  by_cases h : a < 0
  · rw [if_pos ((qltB_iff a 0).mpr h), qneg_eq, abs_of_neg h]
  · rw [if_neg (by simp [qltB_eq_false a 0 h]), abs_of_nonneg (not_lt.mp h)]

theorem qmaxQ_eq (a b : ℚ) : qmaxQ a b = max a b := by
  rw [qmaxQ, max_def]
  by_cases h : a ≤ b
  · rw [if_pos ((qleB_iff a b).mpr h), if_pos h]
  · rw [if_neg (by simp [qleB_eq_false a b h]), if_neg h]

theorem qminQ_eq (a b : ℚ) : qminQ a b = min a b := by
  rw [qminQ, min_def]
  by_cases h : a ≤ b
  · rw [if_pos ((qleB_iff a b).mpr h), if_pos h]
  · rw [if_neg (by simp [qleB_eq_false a b h]), if_neg h]

-- ============================================================
-- JavaScript numbers: finite rational or NaN
-- ============================================================

/-- A JavaScript number that is either a finite value (modelled exactly as a
rational) or `NaN` (modelled as `none`). -/
abbrev JSNum := Option ℚ

namespace ta

/-- Array indexing `a[i]`: out-of-range access yields `undefined`, which
behaves as `NaN` in arithmetic and comparisons, hence `none` here. -/
def jget (s : List JSNum) (i : ℕ) : JSNum := (s.get? i).getD none

def jadd : JSNum → JSNum → JSNum
  | some a, some b => some (qadd a b)
  | _, _ => none

def jsub : JSNum → JSNum → JSNum
  | some a, some b => some (qsub a b)
  | _, _ => none

def jmul : JSNum → JSNum → JSNum
  | some a, some b => some (qmul a b)
  | _, _ => none

/-- Division; a zero denominator is modelled as `NaN` (JavaScript yields
`NaN` for `0/0`, which is the only zero-denominator case reachable on the
modelled paths; guarded divisions keep their guards). -/
def jdiv : JSNum → JSNum → JSNum
  | some a, some b => if b = 0 then none else some (qdiv a b)
  | _, _ => none

def jlt : JSNum → JSNum → Bool
  | some a, some b => qltB a b
  | _, _ => false

def jle : JSNum → JSNum → Bool
  | some a, some b => qleB a b
  | _, _ => false

def jgt (a b : JSNum) : Bool := jlt b a

def jge (a b : JSNum) : Bool := jle b a

/-- Strict equality test against a number (`x === 0` patterns); `NaN === c`
is `false` in JavaScript. -/
def jeq : JSNum → JSNum → Bool
  | some a, some b => decide (a = b)
  | _, _ => false

def jabs : JSNum → JSNum
  | some a => some (qabs a)
  | none => none

def jmax : JSNum → JSNum → JSNum
  | some a, some b => some (qmaxQ a b)
  | _, _ => none

def jmin : JSNum → JSNum → JSNum
  | some a, some b => some (qminQ a b)
  | _, _ => none

@[simp] theorem jadd_some (a b : ℚ) : jadd (some a) (some b) = some (a + b) := by
  rw [jadd, qadd_eq]

@[simp] theorem jsub_some (a b : ℚ) : jsub (some a) (some b) = some (a - b) := by
  rw [jsub, qsub_eq]

@[simp] theorem jmul_some (a b : ℚ) : jmul (some a) (some b) = some (a * b) := by
  rw [jmul, qmul_eq]

theorem jdiv_some (a b : ℚ) : jdiv (some a) (some b) = if b = 0 then none else some (a / b) := by
  rw [jdiv, qdiv_eq]

@[simp] theorem jdiv_some_ne (a b : ℚ) (h : b ≠ 0) : jdiv (some a) (some b) = some (a / b) := by
  rw [jdiv_some, if_neg h]

@[simp] theorem jadd_none_left (b : JSNum) : jadd none b = none := rfl

@[simp] theorem jadd_none_right (a : JSNum) : jadd a none = none := by cases a <;> rfl

@[simp] theorem jsub_none_left (b : JSNum) : jsub none b = none := rfl

@[simp] theorem jsub_none_right (a : JSNum) : jsub a none = none := by cases a <;> rfl

@[simp] theorem jmul_none_left (b : JSNum) : jmul none b = none := rfl

@[simp] theorem jmul_none_right (a : JSNum) : jmul a none = none := by cases a <;> rfl

@[simp] theorem jdiv_none_left (b : JSNum) : jdiv none b = none := rfl

@[simp] theorem jdiv_none_right (a : JSNum) : jdiv a none = none := by cases a <;> rfl

@[simp] theorem jlt_some (a b : ℚ) : jlt (some a) (some b) = true ↔ a < b := by
  rw [jlt]; exact qltB_iff a b

@[simp] theorem jle_some (a b : ℚ) : jle (some a) (some b) = true ↔ a ≤ b := by
  rw [jle]; exact qleB_iff a b

@[simp] theorem jlt_none_left (b : JSNum) : jlt none b = false := rfl

@[simp] theorem jlt_none_right (a : JSNum) : jlt a none = false := by cases a <;> rfl

@[simp] theorem jle_none_left (b : JSNum) : jle none b = false := rfl

@[simp] theorem jle_none_right (a : JSNum) : jle a none = false := by cases a <;> rfl

@[simp] theorem jeq_some (a b : ℚ) : jeq (some a) (some b) = true ↔ a = b := by
  exact decide_eq_true_iff

@[simp] theorem jeq_none_left (b : JSNum) : jeq none b = false := rfl

@[simp] theorem jeq_none_right (a : JSNum) : jeq a none = false := by cases a <;> rfl

@[simp] theorem jabs_some (a : ℚ) : jabs (some a) = some |a| := by
  rw [jabs, qabs_eq]

@[simp] theorem jmax_some (a b : ℚ) : jmax (some a) (some b) = some (max a b) := by
  rw [jmax, qmaxQ_eq]

@[simp] theorem jmin_some (a b : ℚ) : jmin (some a) (some b) = some (min a b) := by
  rw [jmin, qminQ_eq]

@[simp] theorem jmax_none_left (b : JSNum) : jmax none b = none := rfl

@[simp] theorem jmax_none_right (a : JSNum) : jmax a none = none := by cases a <;> rfl

@[simp] theorem jmin_none_left (b : JSNum) : jmin none b = none := rfl

@[simp] theorem jmin_none_right (a : JSNum) : jmin a none = none := by cases a <;> rfl

-- ============================================================
-- Indexing helpers
-- ============================================================

theorem jget_eq_get? (s : List JSNum) (i : ℕ) (h : i < s.length) :
    some (jget s i) = s.get? i := by
  rw [jget]
  rcases List.get?_eq_get h with h2
  rw [h2]
  rfl

theorem jget_lt (s : List JSNum) (i : ℕ) (h : i < s.length) :
    jget s i = s.get ⟨i, h⟩ := by
  have h2 := jget_eq_get? s i h
  rw [List.get?_eq_get h] at h2
  exact Option.some.inj h2

theorem jget_of_ge (s : List JSNum) (i : ℕ) (h : s.length ≤ i) : jget s i = none := by
  rw [jget, List.get?_eq_none.mpr h]
  rfl

theorem jget_isSome (s : List JSNum) (hall : ∀ x ∈ s, x.isSome = true) (i : ℕ)
    (h : i < s.length) : (jget s i).isSome = true := by
  rw [jget_lt s i h]
  exact hall _ (s.get_mem _ _)

theorem jget_map_range (f : ℕ → JSNum) (n i : ℕ) (h : i < n) :
    jget ((List.range n).map f) i = f i := by
  rw [jget, List.get?_map, List.get?_range h]
  rfl

theorem get?_map_range (f : ℕ → JSNum) (n i : ℕ) (h : i < n) :
    ((List.range n).map f).get? i = some (f i) := by
  rw [List.get?_map, List.get?_range h]
  rfl

-- ============================================================
-- Fold helpers for windowed sums
-- ============================================================

theorem foldl_jadd_isSome (f : ℕ → JSNum) (l : List ℕ) :
    ∀ acc : JSNum, acc.isSome = true → (∀ j ∈ l, (f j).isSome = true) →
      (l.foldl (fun a j => jadd a (f j)) acc).isSome = true := by
  induction l with
  | nil => intro acc h _; exact h
  | cons x xs ih =>
    intro acc h hall
    rw [List.foldl_cons]
    rcases Option.isSome_iff_exists.mp h with ⟨a, ha⟩
    rcases Option.isSome_iff_exists.mp (hall x (by simp)) with ⟨b, hb⟩
    exact ih (jadd acc (f x)) (by rw [ha, hb, jadd_some]; rfl)
      (fun j hj => hall j (by simp [hj]))

theorem foldl_jadd_none (f : ℕ → JSNum) (l : List ℕ) :
    (l.foldl (fun a j => jadd a (f j)) none) = none := by
  induction l with
  | nil => rfl
  | cons x xs ih => rw [List.foldl_cons, jadd_none_left]; exact ih


-- ============================================================
-- Rolling extrema helpers (Math.max / Math.min over the non-NaN
-- values of a window, seeded with -Infinity / Infinity in the source)
-- ============================================================

/-- Maximum of a list of rationals, `none` when empty: this is exactly the
result of folding `Math.max` from `-Infinity` over the finite values. -/
def qmaxList : List ℚ → Option ℚ
  | [] => none
  | x :: xs =>
    some (match qmaxList xs with
      | none => x
      | some m => qmaxQ x m)

/-- Minimum of a list of rationals, `none` when empty (fold of `Math.min`
from `Infinity`). -/
def qminList : List ℚ → Option ℚ
  | [] => none
  | x :: xs =>
    some (match qminList xs with
      | none => x
      | some m => qminQ x m)

theorem qmaxList_isSome (l : List ℚ) (h : l ≠ []) : (qmaxList l).isSome = true := by
  cases l with
  | nil => exact absurd rfl h
  | cons x xs => rw [qmaxList]; rfl

theorem qminList_isSome (l : List ℚ) (h : l ≠ []) : (qminList l).isSome = true := by
  cases l with
  | nil => exact absurd rfl h
  | cons x xs => rw [qminList]; rfl

theorem qmaxList_cons_none (x : ℚ) (xs : List ℚ) (h : qmaxList xs = none) :
    qmaxList (x :: xs) = some x := by
  rw [qmaxList, h]

theorem qmaxList_cons_some (x : ℚ) (xs : List ℚ) (m : ℚ) (h : qmaxList xs = some m) :
    qmaxList (x :: xs) = some (qmaxQ x m) := by
  rw [qmaxList, h]

theorem qminList_cons_none (x : ℚ) (xs : List ℚ) (h : qminList xs = none) :
    qminList (x :: xs) = some x := by
  rw [qminList, h]

theorem qminList_cons_some (x : ℚ) (xs : List ℚ) (m : ℚ) (h : qminList xs = some m) :
    qminList (x :: xs) = some (qminQ x m) := by
  rw [qminList, h]

theorem le_qmaxList (l : List ℚ) : ∀ x ∈ l, ∀ m, qmaxList l = some m → x ≤ m := by
  induction l with
  | nil => intro x hx; exact absurd hx (by simp)
  | cons y ys ih =>
    intro x hx m hm
    cases hys : qmaxList ys with
    | none =>
      rw [qmaxList_cons_none y ys hys] at hm
      rcases List.mem_cons.mp hx with rfl | hxs
      · exact le_of_eq (Option.some.inj hm)
      · cases ys with
        | nil => exact absurd hxs (by simp)
        | cons z zs =>
          have h2 := qmaxList_isSome (z :: zs) (by simp)
          rw [hys] at h2
          exact absurd h2 (by simp)
    | some m2 =>
      rw [qmaxList_cons_some y ys m2 hys] at hm
      have hm2 := Option.some.inj hm
      rw [← hm2, qmaxQ_eq]
      rcases List.mem_cons.mp hx with rfl | hxs
      · exact le_max_left x m2
      · exact le_trans (ih x hxs m2 hys) (le_max_right y m2)

theorem qminList_le (l : List ℚ) : ∀ x ∈ l, ∀ m, qminList l = some m → m ≤ x := by
  induction l with
  | nil => intro x hx; exact absurd hx (by simp)
  | cons y ys ih =>
    intro x hx m hm
    cases hys : qminList ys with
    | none =>
      rw [qminList_cons_none y ys hys] at hm
      rcases List.mem_cons.mp hx with rfl | hxs
      · exact ge_of_eq (Option.some.inj hm)
      · cases ys with
        | nil => exact absurd hxs (by simp)
        | cons z zs =>
          have h2 := qminList_isSome (z :: zs) (by simp)
          rw [hys] at h2
          exact absurd h2 (by simp)
    | some m2 =>
      rw [qminList_cons_some y ys m2 hys] at hm
      have hm2 := Option.some.inj hm
      rw [← hm2, qminQ_eq]
      rcases List.mem_cons.mp hx with rfl | hxs
      · exact min_le_left x m2
      · exact le_trans (min_le_right y m2) (ih x hxs m2 hys)

-- ============================================================
-- Core moving averages (ta.ts lines 18-181)
-- ============================================================

/-- Body of `sma` at index `i`: NaN during the warm-up `i < len - 1`, else
the window sum divided by the length. -/
def smaAt (source : List JSNum) (len : ℕ) (i : ℕ) : JSNum :=
  if i + 1 < len then none
  else jdiv ((List.range len).foldl (fun acc j => jadd acc (jget source (i - j))) (some 0))
    (some ((len : ℚ)))

/-- Simple Moving Average (`sma`). -/
def sma (source : List JSNum) (len : ℕ) : List JSNum :=
  (List.range source.length).map (smaAt source len)

/-- Recurrence of `ema`: each output is
`(x - prev) * multiplier + prev` for the previous output `prev`. -/
def emaRun (m : ℚ) : JSNum → List JSNum → List JSNum
  | _, [] => []
  | prev, x :: xs =>
    (jadd (jmul (jsub x prev) (some m)) prev) ::
      emaRun m (jadd (jmul (jsub x prev) (some m)) prev) xs

/-- Exponential Moving Average (`ema`): seeded with the first input,
multiplier `2 / (len + 1)`. -/
def ema (source : List JSNum) (len : ℕ) : List JSNum :=
  match source with
  | [] => []
  | x :: xs => x :: emaRun (qdiv 2 (qadd (len : ℚ) 1)) x xs

/-- Seeding scan of `rma`: walks the input accumulating non-NaN values until
`len` of them have been seen; returns the index of the `len`-th valid value
together with the mean of the valid values so far, or `none` when the input
has fewer than `len` valid values (mirrors the first loop of `rma`). -/
def rmaSeed (len : ℕ) : List JSNum → ℕ → ℕ → ℚ → Option (ℕ × ℚ)
  | [], _, _, _ => none
  | x :: xs, i, c, acc =>
    match x with
    | none => rmaSeed len xs (i + 1) c acc
    | some q =>
      if c + 1 = len then some (i, qdiv (qadd acc q) ((len : ℚ)))
      else rmaSeed len xs (i + 1) (c + 1) (qadd acc q)

/-- One step of the Wilder recurrence: a non-NaN input advances the value by
`alpha * x + (1 - alpha) * prev`; a NaN input holds the previous value. -/
def rmaStep (a prev : ℚ) : JSNum → ℚ
  | none => prev
  | some q => qadd (qmul a q) (qmul (qsub 1 a) prev)

/-- Recurrence of `rma` past the seed. -/
def rmaRun (a : ℚ) : ℚ → List JSNum → List ℚ
  | _, [] => []
  | prev, x :: xs => rmaStep a prev x :: rmaRun a (rmaStep a prev x) xs

/-- Relative Moving Average / Wilder smoothing (`rma`): NaN before the
`len`-th valid sample, seeded with the mean of the first `len` valid
samples, then the Wilder recurrence with `alpha = 1 / len`, holding the
previous value on NaN inputs. -/
def rma (source : List JSNum) (len : ℕ) : List JSNum :=
  match rmaSeed len source 0 0 0 with
  | none => source.map (fun _ => none)
  | some (fi, seed) =>
    ((List.range fi).map (fun _ => none)) ++
      (some seed) :: (rmaRun (qdiv 1 ((len : ℚ))) seed (source.drop (fi + 1))).map some

/-- Body of `wma` at index `i`. -/
def wmaAt (source : List JSNum) (len : ℕ) (i : ℕ) : JSNum :=
  if i + 1 < len then none
  else
    jdiv ((List.range len).foldl
        (fun acc j => jadd acc (jmul (jget source (i - j)) (some (qsub ((len : ℚ)) ((j : ℚ)))))) (some 0))
      (some ((List.range len).foldl (fun acc (j : ℕ) => qadd acc (qsub ((len : ℚ)) ((j : ℚ)))) 0))

/-- Weighted Moving Average (`wma`): weights `len - j` over the window. -/
def wma (source : List JSNum) (len : ℕ) : List JSNum :=
  (List.range source.length).map (wmaAt source len)

/-- Symmetrically Weighted Moving Average (`swma`, fixed length 4). -/
def swma (source : List JSNum) : List JSNum :=
  (List.range source.length).map (fun i =>
    if i < 3 then none
    else if (jget source i).isNone || (jget source (i - 1)).isNone ||
        (jget source (i - 2)).isNone || (jget source (i - 3)).isNone then none
    else jadd (jadd (jadd (jdiv (jget source (i - 3)) (some 6))
        (jdiv (jmul (jget source (i - 2)) (some 2)) (some 6)))
        (jdiv (jmul (jget source (i - 1)) (some 2)) (some 6)))
        (jdiv (jget source i) (some 6)))

/-- Volume Weighted Moving Average (`vwma`). -/
def vwma (source : List JSNum) (len : ℕ) (volume : List JSNum) : List JSNum :=
  (List.range (sma ((List.range source.length).map
      (fun i => jmul (jget source i) (jget volume i))) len).length).map
    (fun i =>
      if jeq (jget (sma volume len) i) (some 0) then none
      else jdiv (jget (sma ((List.range source.length).map
          (fun k => jmul (jget source k) (jget volume k))) len) i) (jget (sma volume len) i))

/-- Hull Moving Average (`hma`). -/
def hma (source : List JSNum) (len : ℕ) : List JSNum :=
  wma ((List.range (wma source (len / 2)).length).map
    (fun i => jsub (jmul (some 2) (jget (wma source (len / 2)) i)) (jget (wma source len) i)))
    (Nat.sqrt len)

/-- Gaussian weights of `alma`; `E` models `Math.exp` (a strictly positive
function on the rationals, matching the real exponential on the reachable
arguments). -/
def almaWeights (E : ℚ → ℚ) (len : ℕ) (offset sigma : ℚ) : List ℚ :=
  (List.range len).map (fun (j : ℕ) =>
    E (qdiv (qneg (qmul (qsub ((j : ℚ)) (qmul offset (qsub ((len : ℚ)) 1)))
        (qsub ((j : ℚ)) (qmul offset (qsub ((len : ℚ)) 1)))))
      (qmul 2 (qmul (qdiv ((len : ℚ)) sigma) (qdiv ((len : ℚ)) sigma)))))

/-- Arnaud Legoux Moving Average (`alma`), parameterised by the exponential
model `E`. -/
def alma (E : ℚ → ℚ) (source : List JSNum) (len : ℕ) (offset sigma : ℚ) : List JSNum :=
  (List.range source.length).map (fun i =>
    if i + 1 < len then none
    else jdiv ((List.range len).foldl
        (fun acc j => jadd acc (jmul (jget source (i - j))
          (some ((almaWeights E len offset sigma).getD (len - 1 - j) 0)))) (some 0))
      (some ((almaWeights E len offset sigma).foldl (fun acc w => qadd acc w) 0)))


-- ============================================================
-- Rolling window extrema (ta.ts lines 627-661)
-- ============================================================

/-- Highest value over the trailing window, ignoring NaN entries; NaN when
the window contains no finite value (mirrors the `-Infinity` seeded
`Math.max` loop). -/
def highest (source : List JSNum) (len : ℕ) : List JSNum :=
  (List.range source.length).map (fun i =>
    if i + 1 < len then none
    else qmaxList ((List.range len).filterMap (fun j => jget source (i - j))))

/-- Lowest value over the trailing window, ignoring NaN entries. -/
def lowest (source : List JSNum) (len : ℕ) : List JSNum :=
  (List.range source.length).map (fun i =>
    if i + 1 < len then none
    else qminList ((List.range len).filterMap (fun j => jget source (i - j))))

-- ============================================================
-- Momentum indicators (ta.ts lines 183-340)
-- ============================================================

/-- Per-bar changes of `rsi`: `source[i] - source[i-1]` for `i = 1 .. n-1`. -/
def rsiChanges (source : List JSNum) : List JSNum :=
  (List.range (source.length - 1)).map (fun k => jsub (jget source (k + 1)) (jget source k))

/-- Positive changes (`c > 0 ? c : 0`); a NaN change yields `0` because the
comparison is false on NaN. -/
def rsiGains (source : List JSNum) : List JSNum :=
  (rsiChanges source).map (fun c => if jgt c (some 0) then c else some 0)

/-- Negated negative changes (`c < 0 ? -c : 0`). -/
def rsiLosses (source : List JSNum) : List JSNum :=
  (rsiChanges source).map (fun c => if jlt c (some 0) then jsub (some 0) c else some 0)

/-- Relative Strength Index (`rsi`): Wilder-smoothed gains and losses,
combined as `100 - 100 / (1 + rs)`, with sentinel `100` when the smoothed
loss is exactly `0`. -/
def rsi (source : List JSNum) (len : ℕ) : List JSNum :=
  none :: (List.range (source.length - 1)).map (fun i =>
    if jeq (jget (rma (rsiLosses source) len) i) (some 0) then some 100
    else jsub (some 100) (jdiv (some 100) (jadd (some 1)
      (jdiv (jget (rma (rsiGains source) len) i) (jget (rma (rsiLosses source) len) i)))))

/-- MACD line, signal line, histogram. -/
def macd (source : List JSNum) (fastLen slowLen signalLen : ℕ) :
    List JSNum × List JSNum × List JSNum :=
  ((List.range (ema source fastLen).length).map (fun i =>
      jsub (jget (ema source fastLen) i) (jget (ema source slowLen) i)),
   ema ((List.range (ema source fastLen).length).map (fun i =>
      jsub (jget (ema source fastLen) i) (jget (ema source slowLen) i))) signalLen,
   (List.range (ema source fastLen).length).map (fun i =>
      jsub (jsub (jget (ema source fastLen) i) (jget (ema source slowLen) i))
        (jget (ema ((List.range (ema source fastLen).length).map (fun k =>
          jsub (jget (ema source fastLen) k) (jget (ema source slowLen) k))) signalLen) i)))

/-- Raw %K of the stochastic oscillator, with sentinel `50` on a zero
`highestHigh - lowestLow` range. -/
def stochRawK (close high low : List JSNum) (kPeriod : ℕ) : List JSNum :=
  (List.range close.length).map (fun i =>
    if jeq (jsub (jget (highest high kPeriod) i) (jget (lowest low kPeriod) i)) (some 0)
    then some 50
    else jmul (jdiv (jsub (jget close i) (jget (lowest low kPeriod) i))
      (jsub (jget (highest high kPeriod) i) (jget (lowest low kPeriod) i))) (some 100))

/-- Stochastic oscillator: %K and %D smoothings of the raw %K. -/
def stoch (close high low : List JSNum) (kPeriod kSmooth dSmooth : ℕ) :
    List JSNum × List JSNum :=
  (sma (stochRawK close high low kPeriod) kSmooth,
   sma (sma (stochRawK close high low kPeriod) kSmooth) dSmooth)

/-- Typical price `(high + low + close) / 3`, shared by `cci`, `mfi`, `vwap`. -/
def tpSeq (high low close : List JSNum) : List JSNum :=
  (List.range high.length).map (fun i =>
    jdiv (jadd (jadd (jget high i) (jget low i)) (jget close i)) (some 3))

/-- Mean absolute deviation over the trailing window (`dev`). -/
def dev (source : List JSNum) (len : ℕ) : List JSNum :=
  (List.range source.length).map (fun i =>
    if i + 1 < len then none
    else jdiv ((List.range len).foldl (fun acc j =>
        jadd acc (jabs (jsub (jget source (i - j)) (jget (sma source len) i)))) (some 0))
      (some ((len : ℚ))))

/-- Commodity Channel Index (`cci`), with sentinel `0` on a zero windowed
mean absolute deviation. -/
def cci (high low close : List JSNum) (len : ℕ) : List JSNum :=
  (List.range (tpSeq high low close).length).map (fun i =>
    if jeq (jget (dev (tpSeq high low close) len) i) (some 0) then some 0
    else jdiv (jsub (jget (tpSeq high low close) i) (jget (sma (tpSeq high low close) len) i))
      (jmul (some (mkRat 3 200)) (jget (dev (tpSeq high low close) len) i)))

/-- Windowed up/down sums of `cmo` at index `i` (defined for `i ≥ len`). -/
def cmoSums (source : List JSNum) (len i : ℕ) : JSNum × JSNum :=
  (List.range len).foldl (fun acc j =>
    if jgt (jsub (jget source (i - j)) (jget source (i - j - 1))) (some 0)
    then (jadd acc.1 (jsub (jget source (i - j)) (jget source (i - j - 1))), acc.2)
    else (acc.1, jsub acc.2 (jsub (jget source (i - j)) (jget source (i - j - 1)))))
    (some 0, some 0)

/-- Chande Momentum Oscillator (`cmo`), with sentinel `0` on a zero total. -/
def cmo (source : List JSNum) (len : ℕ) : List JSNum :=
  (List.range source.length).map (fun i =>
    if i < len then none
    else
      if jeq (jadd (cmoSums source len i).1 (cmoSums source len i).2) (some 0) then some 0
      else jmul (jdiv (jsub (cmoSums source len i).1 (cmoSums source len i).2)
        (jadd (cmoSums source len i).1 (cmoSums source len i).2)) (some 100))

/-- Money flow `tp * volume` of `mfi`. -/
def mfiFlow (high low close volume : List JSNum) : List JSNum :=
  (List.range (tpSeq high low close).length).map (fun i =>
    jmul (jget (tpSeq high low close) i) (jget volume i))

/-- Windowed positive/negative money-flow sums of `mfi` at index `i`. -/
def mfiSums (high low close volume : List JSNum) (len i : ℕ) : JSNum × JSNum :=
  (List.range len).foldl (fun acc j =>
    if jgt (jget (tpSeq high low close) (i - j)) (jget (tpSeq high low close) (i - j - 1))
    then (jadd acc.1 (jget (mfiFlow high low close volume) (i - j)), acc.2)
    else (acc.1, jadd acc.2 (jget (mfiFlow high low close volume) (i - j))))
    (some 0, some 0)

/-- Money Flow Index (`mfi`), with sentinel `100` on zero negative flow. -/
def mfi (high low close volume : List JSNum) (len : ℕ) : List JSNum :=
  (List.range close.length).map (fun i =>
    if i < len then none
    else
      if jeq (mfiSums high low close volume len i).2 (some 0) then some 100
      else jsub (some 100) (jdiv (some 100) (jadd (some 1)
        (jdiv (mfiSums high low close volume len i).1
          (mfiSums high low close volume len i).2))))

/-- Williams %R (`wpr`), with sentinel `-50` on a zero range. -/
def wpr (high low close : List JSNum) (len : ℕ) : List JSNum :=
  (List.range close.length).map (fun i =>
    if jeq (jsub (jget (highest high len) i) (jget (lowest low len) i)) (some 0)
    then some (-50)
    else jmul (jdiv (jsub (jget (highest high len) i) (jget close i))
      (jsub (jget (highest high len) i) (jget (lowest low len) i))) (some (-100)))

/-- Per-bar changes of `tsi`, seeded with a literal `0` at index 0. -/
def tsiChanges (source : List JSNum) : List JSNum :=
  some 0 :: (List.range (source.length - 1)).map (fun k =>
    jsub (jget source (k + 1)) (jget source k))

/-- Denominator series of `tsi`: double exponential smoothing of the
absolute changes. -/
def tsiDenom (source : List JSNum) (shortLen longLen : ℕ) : List JSNum :=
  ema (ema ((tsiChanges source).map jabs) longLen) shortLen

/-- True Strength Index (`tsi`), with sentinel `0` on a zero denominator. -/
def tsi (source : List JSNum) (shortLen longLen : ℕ) : List JSNum :=
  (List.range (ema (ema (tsiChanges source) longLen) shortLen).length).map (fun i =>
    if jeq (jget (tsiDenom source shortLen longLen) i) (some 0) then some 0
    else jmul (jdiv (jget (ema (ema (tsiChanges source) longLen) shortLen) i)
      (jget (tsiDenom source shortLen longLen) i)) (some 100))

/-- Rate of Change (`roc`); NaN during warm-up and on a zero reference. -/
def roc (source : List JSNum) (len : ℕ) : List JSNum :=
  (List.range source.length).map (fun i =>
    if i < len then none
    else if jeq (jget source (i - len)) (some 0) then none
    else jmul (jdiv (jsub (jget source i) (jget source (i - len))) (jget source (i - len)))
      (some 100))

/-- Momentum (`mom`). -/
def mom (source : List JSNum) (len : ℕ) : List JSNum :=
  (List.range source.length).map (fun i =>
    if i < len then none else jsub (jget source i) (jget source (i - len)))

-- ============================================================
-- Volatility indicators (ta.ts lines 342-464)
-- ============================================================

/-- True Range (`tr`): unconditionally emits `high[0] - low[0]` first (note:
this makes the output one element long even on empty inputs). -/
def tr (high low close : List JSNum) : List JSNum :=
  jsub (jget high 0) (jget low 0) ::
    (List.range (high.length - 1)).map (fun k =>
      jmax (jmax (jsub (jget high (k + 1)) (jget low (k + 1)))
          (jabs (jsub (jget high (k + 1)) (jget close k))))
        (jabs (jsub (jget low (k + 1)) (jget close k))))

/-- Average True Range (`atr`): Wilder smoothing of the true range. -/
def atr (high low close : List JSNum) (len : ℕ) : List JSNum :=
  rma (tr high low close) len

/-- Standard deviation over the trailing window (`stdev`); `S` models
`Math.sqrt` on the nonnegative rationals (the only reachable arguments,
since the radicand is a mean of squares). -/
def stdev (S : ℚ → ℚ) (source : List JSNum) (len : ℕ) : List JSNum :=
  (List.range source.length).map (fun i =>
    if i + 1 < len then none
    else Option.map S (jdiv ((List.range len).foldl (fun acc j =>
        jadd acc (jmul (jsub (jget source (i - j)) (jget (sma source len) i))
          (jsub (jget source (i - j)) (jget (sma source len) i)))) (some 0))
      (some ((len : ℚ)))))

/-- Windowed variance (`variance`), biased (`/len`) or unbiased (`/(len-1)`). -/
def variance (source : List JSNum) (len : ℕ) (biased : Bool) : List JSNum :=
  (List.range source.length).map (fun i =>
    if i + 1 < len then none
    else jdiv ((List.range len).foldl (fun acc j =>
        jadd acc (jmul (jsub (jget source (i - j)) (jget (sma source len) i))
          (jsub (jget source (i - j)) (jget (sma source len) i)))) (some 0))
      (some (if biased then ((len : ℚ)) else qsub ((len : ℚ)) 1)))

/-- Bollinger bands (`bb`): basis, upper, lower. -/
def bb (S : ℚ → ℚ) (source : List JSNum) (len : ℕ) (mult : ℚ) :
    List JSNum × List JSNum × List JSNum :=
  (sma source len,
   (List.range (sma source len).length).map (fun i =>
     jadd (jget (sma source len) i) (jmul (some mult) (jget (stdev S source len) i))),
   (List.range (sma source len).length).map (fun i =>
     jsub (jget (sma source len) i) (jmul (some mult) (jget (stdev S source len) i))))

/-- Bollinger Bands Width (`bbw`), with sentinel `0` on a zero basis. -/
def bbw (S : ℚ → ℚ) (source : List JSNum) (len : ℕ) (mult : ℚ) : List JSNum :=
  (List.range (bb S source len mult).2.1.length).map (fun i =>
    if jeq (jget (bb S source len mult).1 i) (some 0) then some 0
    else jdiv (jsub (jget (bb S source len mult).2.1 i) (jget (bb S source len mult).2.2 i))
      (jget (bb S source len mult).1 i))

/-- Keltner Channels (`kc`): basis, upper, lower. -/
def kc (high low close : List JSNum) (len : ℕ) (mult : ℚ) (atrLen : ℕ) :
    List JSNum × List JSNum × List JSNum :=
  (ema close len,
   (List.range (ema close len).length).map (fun i =>
     jadd (jget (ema close len) i) (jmul (some mult) (jget (atr high low close atrLen) i))),
   (List.range (ema close len).length).map (fun i =>
     jsub (jget (ema close len) i) (jmul (some mult) (jget (atr high low close atrLen) i))))

/-- Keltner Channels Width (`kcw`), with sentinel `0` on a zero basis. -/
def kcw (high low close : List JSNum) (len : ℕ) (mult : ℚ) (atrLen : ℕ) : List JSNum :=
  (List.range (kc high low close len mult atrLen).2.1.length).map (fun i =>
    if jeq (jget (kc high low close len mult atrLen).1 i) (some 0) then some 0
    else jdiv (jsub (jget (kc high low close len mult atrLen).2.1 i)
        (jget (kc high low close len mult atrLen).2.2 i))
      (jget (kc high low close len mult atrLen).1 i))


/-- Unary minus. -/
def jneg : JSNum → JSNum
  | some a => some (qneg a)
  | none => none

@[simp] theorem jneg_some (a : ℚ) : jneg (some a) = some (-a) := by
  rw [jneg, qneg_eq]

@[simp] theorem jneg_none : jneg none = none := rfl

-- ============================================================
-- SuperTrend (ta.ts lines 470-509)
-- ============================================================

/-- Per-bar record of the SuperTrend loop: emitted value, direction, and the
hysteresis-adjusted bands (all `none`/direction `1` on warm-up bars). -/
structure STRow where
  value : JSNum
  dir : ℤ
  upper : JSNum
  lower : JSNum
deriving DecidableEq

/-- Loop state of SuperTrend: previous adjusted bands and previous emitted
value. -/
structure STState where
  prevLower : JSNum
  prevUpper : JSNum
  prevST : JSNum
deriving DecidableEq

def stInit : STState := { prevLower := none, prevUpper := none, prevST := none }

/-- Hysteresis-adjusted upper band of one SuperTrend iteration: the
candidate `hl2 + factor * atr` replaces the previous upper band only when it
is lower or when the previous close broke above the previous band. -/
def stUpper1 (factor : ℚ) (hl2i atri prevClosei : JSNum) (s : STState) : JSNum :=
  if s.prevLower.isSome && s.prevUpper.isSome then
    (if jlt (jadd hl2i (jmul (some factor) atri)) s.prevUpper ||
        jgt prevClosei s.prevUpper
     then jadd hl2i (jmul (some factor) atri) else s.prevUpper)
  else jadd hl2i (jmul (some factor) atri)

/-- Hysteresis-adjusted lower band of one SuperTrend iteration. -/
def stLower1 (factor : ℚ) (hl2i atri prevClosei : JSNum) (s : STState) : JSNum :=
  if s.prevLower.isSome && s.prevUpper.isSome then
    (if jgt (jsub hl2i (jmul (some factor) atri)) s.prevLower ||
        jlt prevClosei s.prevLower
     then jsub hl2i (jmul (some factor) atri) else s.prevLower)
  else jsub hl2i (jmul (some factor) atri)

/-- Direction of one SuperTrend iteration: 1 while the previous trend value
sat on the upper band (or no previous trend exists), flipping to -1 on a
close above the adjusted upper band; symmetric in the lower-band regime. -/
def stDirV (closei : JSNum) (s : STState) (upper1 lower1 : JSNum) : ℤ :=
  match s.prevST with
  | none => 1
  | some _ =>
    if s.prevST = s.prevUpper then (if jgt closei upper1 then -1 else 1)
    else (if jlt closei lower1 then 1 else -1)

/-- One iteration of the SuperTrend loop (ta.ts lines 480-507): on a NaN ATR
the row is NaN with direction 1 and the state is unchanged; otherwise the
candidate bands are hysteresis-adjusted, the direction is decided against
the band opposite the previous trend value, and the emitted value is the
band selected by the direction. -/
def stStep (factor : ℚ) (hl2i atri closei prevClosei : JSNum) (s : STState) :
    STRow × STState :=
  match atri with
  | none => ({ value := none, dir := 1, upper := none, lower := none }, s)
  | some _ =>
    ({ value := if stDirV closei s (stUpper1 factor hl2i atri prevClosei s)
          (stLower1 factor hl2i atri prevClosei s) = -1
        then stLower1 factor hl2i atri prevClosei s
        else stUpper1 factor hl2i atri prevClosei s,
       dir := stDirV closei s (stUpper1 factor hl2i atri prevClosei s)
          (stLower1 factor hl2i atri prevClosei s),
       upper := stUpper1 factor hl2i atri prevClosei s,
       lower := stLower1 factor hl2i atri prevClosei s },
     { prevLower := stLower1 factor hl2i atri prevClosei s,
       prevUpper := stUpper1 factor hl2i atri prevClosei s,
       prevST := if stDirV closei s (stUpper1 factor hl2i atri prevClosei s)
          (stLower1 factor hl2i atri prevClosei s) = -1
        then stLower1 factor hl2i atri prevClosei s
        else stUpper1 factor hl2i atri prevClosei s })

/-- Forward pass of the SuperTrend loop from bar `i` with `fuel` bars left. -/
def stGo (factor : ℚ) (hl2 atrVal close : List JSNum) : ℕ → ℕ → STState → List STRow
  | _, 0, _ => []
  | i, fuel + 1, s =>
    (stStep factor (jget hl2 i) (jget atrVal i) (jget close i)
        (if i = 0 then none else jget close (i - 1)) s).1 ::
      stGo factor hl2 atrVal close (i + 1) fuel
        (stStep factor (jget hl2 i) (jget atrVal i) (jget close i)
          (if i = 0 then none else jget close (i - 1)) s).2

/-- Midpoint `(high + low) / 2` series. -/
def hl2Seq (high low : List JSNum) : List JSNum :=
  (List.range high.length).map (fun i => jdiv (jadd (jget high i) (jget low i)) (some 2))

/-- Trace of the SuperTrend loop, one row per bar. -/
def supertrendRows (high low close : List JSNum) (factor : ℚ) (atrPeriod : ℕ) : List STRow :=
  stGo factor (hl2Seq high low) (atr high low close atrPeriod) close 0 high.length stInit

/-- SuperTrend (`supertrend`): values and directions. -/
def supertrend (high low close : List JSNum) (factor : ℚ) (atrPeriod : ℕ) :
    List JSNum × List ℤ :=
  ((supertrendRows high low close factor atrPeriod).map (fun r => r.value),
   (supertrendRows high low close factor atrPeriod).map (fun r => r.dir))

-- ============================================================
-- Parabolic SAR (ta.ts lines 511-556)
-- ============================================================

/-- Loop state of the parabolic SAR: acceleration factor, extreme point,
regime flag and current SAR value. -/
structure SarState where
  af : ℚ
  ep : JSNum
  isLong : Bool
  sarVal : JSNum
deriving DecidableEq

/-- One iteration of the SAR loop (ta.ts lines 524-553) for bar `i ≥ 1`:
the value recurses toward the extreme point, is clamped against the prior
one or two bars' opposite extreme (`lo1`,`lo2` are `low[i-1]` and
`low[i>1 ? i-2 : i-1]`, similarly `hi1`,`hi2`), and flips regime when price
crosses it. -/
def sarStep (start inc maxAF : ℚ) (hi lo hi1 lo1 hi2 lo2 : JSNum) (s : SarState) : SarState :=
  let rec1 := jadd s.sarVal (jmul (some s.af) (jsub s.ep s.sarVal))
  if s.isLong then
    let clamped := jmin (jmin rec1 lo1) lo2
    if jlt lo clamped then
      { af := start, ep := lo, isLong := false, sarVal := s.ep }
    else if jgt hi s.ep then
      { af := qminQ (qadd s.af inc) maxAF, ep := hi, isLong := true, sarVal := clamped }
    else
      { af := s.af, ep := s.ep, isLong := true, sarVal := clamped }
  else
    let clamped := jmax (jmax rec1 hi1) hi2
    if jgt hi clamped then
      { af := start, ep := hi, isLong := true, sarVal := s.ep }
    else if jlt lo s.ep then
      { af := qminQ (qadd s.af inc) maxAF, ep := lo, isLong := false, sarVal := clamped }
    else
      { af := s.af, ep := s.ep, isLong := false, sarVal := clamped }

/-- Forward pass of the SAR loop from bar `i` with `fuel` bars left; emits
the state after each bar. -/
def sarGo (start inc maxAF : ℚ) (high low : List JSNum) : ℕ → ℕ → SarState → List SarState
  | _, 0, _ => []
  | i, fuel + 1, s =>
    sarStep start inc maxAF (jget high i) (jget low i) (jget high (i - 1)) (jget low (i - 1))
        (jget high (if 1 < i then i - 2 else i - 1)) (jget low (if 1 < i then i - 2 else i - 1))
        s ::
      sarGo start inc maxAF high low (i + 1) fuel
        (sarStep start inc maxAF (jget high i) (jget low i) (jget high (i - 1))
          (jget low (i - 1)) (jget high (if 1 < i then i - 2 else i - 1))
          (jget low (if 1 < i then i - 2 else i - 1)) s)

/-- Initial SAR state: long regime, extreme point and value at `low[0]`. -/
def sarInit (start : ℚ) (low : List JSNum) : SarState :=
  { af := start, ep := jget low 0, isLong := true, sarVal := jget low 0 }

/-- Parabolic SAR (`sar`). -/
def sar (high low : List JSNum) (start inc maxAF : ℚ) : List JSNum :=
  match high.length with
  | 0 => []
  | n + 1 =>
    jget low 0 :: (sarGo start inc maxAF high low 1 n (sarInit start low)).map
      (fun s => s.sarVal)

-- ============================================================
-- DMI / ADX (ta.ts lines 558-586)
-- ============================================================

/-- Positive directional movement series (`plusDM`), seeded with `0`. -/
def dmiPlusDM (high low : List JSNum) : List JSNum :=
  some 0 :: (List.range (high.length - 1)).map (fun k =>
    if jgt (jsub (jget high (k + 1)) (jget high k)) (jsub (jget low k) (jget low (k + 1))) &&
        jgt (jsub (jget high (k + 1)) (jget high k)) (some 0)
    then jsub (jget high (k + 1)) (jget high k) else some 0)

/-- Negative directional movement series (`minusDM`), seeded with `0`. -/
def dmiMinusDM (high low : List JSNum) : List JSNum :=
  some 0 :: (List.range (high.length - 1)).map (fun k =>
    if jgt (jsub (jget low k) (jget low (k + 1))) (jsub (jget high (k + 1)) (jget high k)) &&
        jgt (jsub (jget low k) (jget low (k + 1))) (some 0)
    then jsub (jget low k) (jget low (k + 1)) else some 0)

/-- Directional Movement Index (`dmi`): `+DI`, `-DI`, `ADX`, each with
sentinel `0` on a zero denominator. -/
def dmi (high low close : List JSNum) (len : ℕ) : List JSNum × List JSNum × List JSNum :=
  let smoothTR := rma (tr high low close) len
  let plusDI := (List.range (rma (dmiPlusDM high low) len).length).map (fun i =>
    if jeq (jget smoothTR i) (some 0) then some 0
    else jmul (jdiv (jget (rma (dmiPlusDM high low) len) i) (jget smoothTR i)) (some 100))
  let minusDI := (List.range (rma (dmiMinusDM high low) len).length).map (fun i =>
    if jeq (jget smoothTR i) (some 0) then some 0
    else jmul (jdiv (jget (rma (dmiMinusDM high low) len) i) (jget smoothTR i)) (some 100))
  let dx := (List.range plusDI.length).map (fun i =>
    if jeq (jadd (jget plusDI i) (jget minusDI i)) (some 0) then some 0
    else jmul (jdiv (jabs (jsub (jget plusDI i) (jget minusDI i)))
      (jadd (jget plusDI i) (jget minusDI i))) (some 100))
  (plusDI, minusDI, rma dx len)

-- ============================================================
-- Ichimoku (ta.ts lines 588-621)
-- ============================================================

/-- Donchian midpoint: average of rolling highest high and lowest low. -/
def donchian (h l : List JSNum) (len : ℕ) : List JSNum :=
  (List.range (highest h len).length).map (fun i =>
    jdiv (jadd (jget (highest h len) i) (jget (lowest l len) i)) (some 2))

/-- Result record of `ichimoku`. -/
structure IchimokuResult where
  tenkan : List JSNum
  kijun : List JSNum
  senkouA : List JSNum
  senkouB : List JSNum
  chikou : List JSNum

/-- Ichimoku cloud (`ichimoku`): the lagging span is the close shifted back
by `displacement` with the vacated tail filled with NaN. -/
def ichimoku (high low close : List JSNum)
    (conversionPeriods basePeriods laggingSpan2Periods displacement : ℕ) : IchimokuResult :=
  { tenkan := donchian high low conversionPeriods
    kijun := donchian high low basePeriods
    senkouA := (List.range (donchian high low conversionPeriods).length).map (fun i =>
      jdiv (jadd (jget (donchian high low conversionPeriods) i)
        (jget (donchian high low basePeriods) i)) (some 2))
    senkouB := donchian high low laggingSpan2Periods
    chikou := close.drop displacement ++ (List.range displacement).map (fun _ => none) }


-- ============================================================
-- Utility functions (ta.ts lines 623-1005)
-- ============================================================

/-- Fold of `barssince`: the counter starts as NaN, resets to 0 on a true
condition and otherwise increments unless still NaN. -/
def barssinceGo : JSNum → List Bool → List JSNum
  | _, [] => []
  | count, b :: rest =>
    (if b then some 0 else (match count with | none => none | some q => some (qadd q 1))) ::
      barssinceGo
        (if b then some 0 else (match count with | none => none | some q => some (qadd q 1)))
        rest

/-- Bars since the condition was last true (`barssince`). -/
def barssince (condition : List Bool) : List JSNum := barssinceGo none condition

/-- Value of `source` at the `occurrence`-th most recent true condition
(`valuewhen`); the recorded true indices at step `i` are exactly the true
positions among the first `i + 1` conditions. -/
def valuewhen (condition : List Bool) (source : List JSNum) (occurrence : ℕ) : List JSNum :=
  (List.range condition.length).map (fun i =>
    if occurrence < ((List.range (i + 1)).filter (fun j => condition.getD j false)).length
    then jget source (((List.range (i + 1)).filter (fun j => condition.getD j false)).getD
      (((List.range (i + 1)).filter (fun j => condition.getD j false)).length - 1 - occurrence) 0)
    else none)

/-- Crossover detection (`crossover`). -/
def crossover (s1 s2 : List JSNum) : List Bool :=
  (List.range s1.length).map (fun i =>
    if i = 0 then false
    else jgt (jget s1 i) (jget s2 i) && jle (jget s1 (i - 1)) (jget s2 (i - 1)))

/-- Crossunder detection (`crossunder`). -/
def crossunder (s1 s2 : List JSNum) : List Bool :=
  (List.range s1.length).map (fun i =>
    if i = 0 then false
    else jlt (jget s1 i) (jget s2 i) && jge (jget s1 (i - 1)) (jget s2 (i - 1)))

/-- Cross in either direction (`cross`). -/
def cross (s1 s2 : List JSNum) : List Bool :=
  (List.range (crossover s1 s2).length).map (fun i =>
    (crossover s1 s2).getD i false || (crossunder s1 s2).getD i false)

/-- Rising for `len` bars (`rising`). -/
def rising (source : List JSNum) (len : ℕ) : List Bool :=
  (List.range source.length).map (fun i =>
    if i < len then false
    else (List.range len).all (fun j =>
      !(jle (jget source (i - (j + 1) + 1)) (jget source (i - (j + 1))))))

/-- Falling for `len` bars (`falling`). -/
def falling (source : List JSNum) (len : ℕ) : List Bool :=
  (List.range source.length).map (fun i =>
    if i < len then false
    else (List.range len).all (fun j =>
      !(jge (jget source (i - (j + 1) + 1)) (jget source (i - (j + 1))))))

/-- Change from `len` bars ago (`change`). -/
def change (source : List JSNum) (len : ℕ) : List JSNum :=
  (List.range source.length).map (fun i =>
    if i < len then none else jsub (jget source i) (jget source (i - len)))

/-- Fold of `cum`: the running sum starts at 0 (and is NaN forever after a
NaN input). -/
def cumGo : JSNum → List JSNum → List JSNum
  | _, [] => []
  | acc, x :: xs => jadd acc x :: cumGo (jadd acc x) xs

/-- Cumulative sum (`cum`). -/
def cum (source : List JSNum) : List JSNum := cumGo (some 0) source

/-- Volume weighted average price (`vwap`), NaN on zero cumulative volume. -/
def vwap (high low close volume : List JSNum) : List JSNum :=
  (List.range (cum ((List.range (tpSeq high low close).length).map (fun k =>
      jmul (jget (tpSeq high low close) k) (jget volume k)))).length).map (fun i =>
    if jeq (jget (cum volume) i) (some 0) then none
    else jdiv (jget (cum ((List.range (tpSeq high low close).length).map (fun k =>
        jmul (jget (tpSeq high low close) k) (jget volume k)))) i) (jget (cum volume) i))

/-- Pure sums `Σ x` and `Σ x²` over `x = 0 .. len-1` used by `linreg`. -/
def linregSumX (len : ℕ) : ℚ := (List.range len).foldl (fun a (j : ℕ) => qadd a ((j : ℚ))) 0

def linregSumX2 (len : ℕ) : ℚ :=
  (List.range len).foldl (fun a (j : ℕ) => qadd a (qmul ((j : ℚ)) ((j : ℚ)))) 0

/-- Windowed `Σ y` of `linreg` at index `i`. -/
def linregSumY (source : List JSNum) (len i : ℕ) : JSNum :=
  (List.range len).foldl (fun a j => jadd a (jget source (i - (len - 1 - j)))) (some 0)

/-- Windowed `Σ x·y` of `linreg` at index `i`. -/
def linregSumXY (source : List JSNum) (len i : ℕ) : JSNum :=
  (List.range len).foldl (fun a (j : ℕ) =>
    jadd a (jmul (some ((j : ℚ))) (jget source (i - (len - 1 - j))))) (some 0)

/-- Linear regression value (`linreg`): closed-form least-squares line over
the trailing window, evaluated at `len - 1 - offset`. -/
def linreg (source : List JSNum) (len : ℕ) (offset : ℚ) : List JSNum :=
  (List.range source.length).map (fun i =>
    if i + 1 < len then none
    else
      jadd
        (jdiv (jsub (linregSumY source len i)
            (jmul (jdiv (jsub (jmul (some ((len : ℚ))) (linregSumXY source len i))
                (jmul (some (linregSumX len)) (linregSumY source len i)))
              (some (qsub (qmul ((len : ℚ)) (linregSumX2 len))
                (qmul (linregSumX len) (linregSumX len)))))
              (some (linregSumX len))))
          (some ((len : ℚ))))
        (jmul (jdiv (jsub (jmul (some ((len : ℚ))) (linregSumXY source len i))
            (jmul (some (linregSumX len)) (linregSumY source len i)))
          (some (qsub (qmul ((len : ℚ)) (linregSumX2 len))
            (qmul (linregSumX len) (linregSumX len)))))
          (some (qsub (qsub ((len : ℚ)) 1) offset))))

/-- Windowed sums of `correlation` at index `i`: `(num, den1, den2)` of the
Pearson coefficient. -/
def corrSums (s1 s2 : List JSNum) (len i : ℕ) : JSNum × JSNum × JSNum :=
  let mean1 := jdiv ((List.range len).foldl (fun a (k : ℕ) =>
    jadd a (jget s1 (i - k))) (some 0)) (some ((len : ℚ)))
  let mean2 := jdiv ((List.range len).foldl (fun a (k : ℕ) =>
    jadd a (jget s2 (i - k))) (some 0)) (some ((len : ℚ)))
  (List.range len).foldl (fun acc (j : ℕ) =>
    (jadd acc.1 (jmul (jsub (jget s1 (i - j)) mean1) (jsub (jget s2 (i - j)) mean2)),
     jadd acc.2.1 (jmul (jsub (jget s1 (i - j)) mean1) (jsub (jget s1 (i - j)) mean1)),
     jadd acc.2.2 (jmul (jsub (jget s2 (i - j)) mean2) (jsub (jget s2 (i - j)) mean2))))
    (some 0, some 0, some 0)

/-- Pearson correlation over the trailing window (`correlation`); `S` models
`Math.sqrt`; NaN when the computed denominator is zero. -/
def correlation (S : ℚ → ℚ) (s1 s2 : List JSNum) (len : ℕ) : List JSNum :=
  (List.range s1.length).map (fun i =>
    if i + 1 < len then none
    else
      if jeq (Option.map S (jmul (corrSums s1 s2 len i).2.1 (corrSums s1 s2 len i).2.2))
        (some 0) then none
      else jdiv (corrSums s1 s2 len i).1
        (Option.map S (jmul (corrSums s1 s2 len i).2.1 (corrSums s1 s2 len i).2.2)))

/-- Percent rank (`percentrank`). -/
def percentrank (source : List JSNum) (len : ℕ) : List JSNum :=
  (List.range source.length).map (fun i =>
    if i + 1 < len then none
    else jmul (jdiv (some ((((List.range (len - 1)).filter (fun j =>
        jle (jget source (i - (j + 1))) (jget source i))).length : ℚ)))
      (some (qsub ((len : ℚ)) 1))) (some 100))

/-- Insertion into a sorted list of rationals. -/
def insertSorted (x : ℚ) : List ℚ → List ℚ
  | [] => [x]
  | y :: ys => if qleB x y then x :: y :: ys else y :: insertSorted x ys

/-- Ascending sort, the result of the JavaScript numeric sort on finite
values. -/
def sortAsc (l : List ℚ) : List ℚ := l.foldr insertSorted []

/-- Windowed median (`median`).  The JavaScript comparator `a - b` sorts
finite values ascending; a window containing NaN feeds NaN to the
comparator, whose behaviour `Array.sort` leaves unspecified — that case is
modelled as NaN and is unreachable for the finite inputs of the claims. -/
def median (source : List JSNum) (len : ℕ) : List JSNum :=
  (List.range source.length).map (fun i =>
    if i + 1 < len then none
    else
      if ((List.range len).map (fun j => jget source (i - j))).all (fun v => v.isSome) then
        (if len % 2 = 0 then
          jdiv (jadd (some ((sortAsc (((List.range len).map (fun j =>
              jget source (i - j))).filterMap id)).getD (len / 2 - 1) 0))
            (some ((sortAsc (((List.range len).map (fun j =>
              jget source (i - j))).filterMap id)).getD (len / 2) 0))) (some 2)
        else some ((sortAsc (((List.range len).map (fun j =>
          jget source (i - j))).filterMap id)).getD (len / 2) 0))
      else none)

/-- Pivot high (`pivothigh`): strict inequality against `leftBars` bars on
the left and `rightBars` bars on the right, reported `rightBars` bars late.
Each loop iteration writes a distinct output slot `i + rightBars`, so the
result is equivalently given per index. -/
def pivothigh (source : List JSNum) (leftBars rightBars : ℕ) : List JSNum :=
  (List.range source.length).map (fun k =>
    if rightBars ≤ k ∧ leftBars ≤ k - rightBars ∧ k - rightBars + rightBars < source.length ∧
        ((List.range leftBars).all (fun j =>
          !(jge (jget source (k - rightBars - (j + 1))) (jget source (k - rightBars)))) ∧
         (List.range rightBars).all (fun j =>
          !(jge (jget source (k - rightBars + (j + 1))) (jget source (k - rightBars)))))
    then jget source (k - rightBars) else none)

/-- Pivot low (`pivotlow`). -/
def pivotlow (source : List JSNum) (leftBars rightBars : ℕ) : List JSNum :=
  (List.range source.length).map (fun k =>
    if rightBars ≤ k ∧ leftBars ≤ k - rightBars ∧ k - rightBars + rightBars < source.length ∧
        ((List.range leftBars).all (fun j =>
          !(jle (jget source (k - rightBars - (j + 1))) (jget source (k - rightBars)))) ∧
         (List.range rightBars).all (fun j =>
          !(jle (jget source (k - rightBars + (j + 1))) (jget source (k - rightBars)))))
    then jget source (k - rightBars) else none)

/-- Offset to the highest value in the window (`highestbars`); emits
`-maxIdx`, always finite past the warm-up. -/
def highestbars (source : List JSNum) (len : ℕ) : List JSNum :=
  (List.range source.length).map (fun i =>
    if i + 1 < len then none
    else some (qneg ((((List.range (len - 1)).foldl (fun acc j =>
      if jgt (jget source (i - (j + 1))) acc.2 then (j + 1, jget source (i - (j + 1))) else acc)
      ((0 : ℕ), jget source i)).1 : ℚ))))

/-- Offset to the lowest value in the window (`lowestbars`). -/
def lowestbars (source : List JSNum) (len : ℕ) : List JSNum :=
  (List.range source.length).map (fun i =>
    if i + 1 < len then none
    else some (qneg ((((List.range (len - 1)).foldl (fun acc j =>
      if jlt (jget source (i - (j + 1))) acc.2 then (j + 1, jget source (i - (j + 1))) else acc)
      ((0 : ℕ), jget source i)).1 : ℚ))))

/-- Bar range `high - low` (`range`). -/
def range (high low : List JSNum) : List JSNum :=
  (List.range high.length).map (fun i => jsub (jget high i) (jget low i))

/-- Elementwise max of two series (the series case of `ta.max`). -/
def max (a b : List JSNum) : List JSNum :=
  (List.range a.length).map (fun i => jmax (jget a i) (jget b i))

/-- Elementwise min of two series (the series case of `ta.min`). -/
def min (a b : List JSNum) : List JSNum :=
  (List.range a.length).map (fun i => jmin (jget a i) (jget b i))

/-- Center of gravity (`cog`), with sentinel `0` on a zero window sum. -/
def cog (source : List JSNum) (len : ℕ) : List JSNum :=
  (List.range source.length).map (fun i =>
    if i + 1 < len then none
    else
      if jeq ((List.range len).foldl (fun a j => jadd a (jget source (i - j))) (some 0))
        (some 0) then some 0
      else jdiv (jneg ((List.range len).foldl (fun a j =>
          jadd a (jmul (jget source (i - j)) (some (((j + 1 : ℕ) : ℚ))))) (some 0)))
        ((List.range len).foldl (fun a j => jadd a (jget source (i - j))) (some 0)))

/-- Distinct keys in first-occurrence order (the iteration order of the
JavaScript `Map` used by `mode`). -/
def dedupKeys : List JSNum → List JSNum → List JSNum
  | _, [] => []
  | seen, x :: xs =>
    if x ∈ seen then dedupKeys seen xs else x :: dedupKeys (x :: seen) xs

/-- Windowed mode (`mode`): the first value (in first-occurrence order of
the window scanned newest-first) with strictly maximal multiplicity. -/
def mode (source : List JSNum) (len : ℕ) : List JSNum :=
  (List.range source.length).map (fun i =>
    if i + 1 < len then none
    else
      ((dedupKeys [] (((List.range len).map (fun j => jget source (i - j))))).foldl
        (fun acc v =>
          if acc.1 < (((List.range len).map (fun j => jget source (i - j))).count v)
          then ((((List.range len).map (fun j => jget source (i - j))).count v), v) else acc)
        ((0 : ℕ), (none : JSNum))).2)

end ta


namespace ta

-- ============================================================
-- Structure lemmas about `rma`
-- ============================================================

theorem rmaRun_length (a : ℚ) : ∀ (l : List JSNum) (prev : ℚ),
    (rmaRun a prev l).length = l.length := by
  intro l
  induction l with
  | nil => intro prev; rfl
  | cons x xs ih => intro prev; rw [rmaRun]; simp [ih]

theorem rmaSeed_cons_none (len : ℕ) (xs : List JSNum) (i0 c : ℕ) (acc : ℚ) :
    rmaSeed len (none :: xs) i0 c acc = rmaSeed len xs (i0 + 1) c acc := rfl

theorem rmaSeed_cons_some (len : ℕ) (q : ℚ) (xs : List JSNum) (i0 c : ℕ) (acc : ℚ) :
    rmaSeed len (some q :: xs) i0 c acc =
      if c + 1 = len then some (i0, qdiv (qadd acc q) ((len : ℚ)))
      else rmaSeed len xs (i0 + 1) (c + 1) (qadd acc q) := rfl

theorem rmaSeed_nil (len : ℕ) (i0 c : ℕ) (acc : ℚ) :
    rmaSeed len [] i0 c acc = none := rfl

theorem rmaSeed_bounds (len : ℕ) : ∀ (l : List JSNum) (i0 c : ℕ) (acc : ℚ) (fi : ℕ) (seed : ℚ),
    rmaSeed len l i0 c acc = some (fi, seed) → i0 ≤ fi ∧ fi < i0 + l.length := by
  intro l
  induction l with
  | nil => intro i0 c acc fi seed h; rw [rmaSeed_nil] at h; exact absurd h (by simp)
  | cons x xs ih =>
    intro i0 c acc fi seed h
    cases x with
    | none =>
      rw [rmaSeed_cons_none] at h
      have h2 := ih (i0 + 1) c acc fi seed h
      constructor
      · omega
      · simp only [List.length_cons]; omega
    | some q =>
      rw [rmaSeed_cons_some] at h
      by_cases hc : c + 1 = len
      · rw [if_pos hc] at h
        have h2 : i0 = fi := congrArg Prod.fst (Option.some.inj h)
        constructor
        · omega
        · simp only [List.length_cons]; omega
      · rw [if_neg hc] at h
        have h2 := ih (i0 + 1) (c + 1) (qadd acc q) fi seed h
        constructor
        · omega
        · simp only [List.length_cons]; omega

theorem rma_length (source : List JSNum) (len : ℕ) :
    (rma source len).length = source.length := by
  rw [rma]
  cases hseed : rmaSeed len source 0 0 0 with
  | none => simp
  | some p =>
    rcases p with ⟨fi, seed⟩
    have hb := rmaSeed_bounds len source 0 0 0 fi seed hseed
    simp only [List.length_append, List.length_map, List.length_range, List.length_cons,
      rmaRun_length, List.length_drop]
    omega

theorem rmaSeed_none_of_short (len : ℕ) : ∀ (l : List JSNum) (i0 c : ℕ) (acc : ℚ),
    (l.filterMap id).length + c < len → rmaSeed len l i0 c acc = none := by
  intro l
  induction l with
  | nil => intro i0 c acc _; rfl
  | cons x xs ih =>
    intro i0 c acc h
    cases x with
    | none =>
      rw [rmaSeed_cons_none]
      apply ih
      simpa using h
    | some q =>
      rw [rmaSeed_cons_some]
      have h2 : (xs.filterMap id).length + (c + 1) < len := by
        simp only [List.filterMap_cons, id] at h ⊢
        simp at h
        omega
      rw [if_neg (by omega)]
      exact ih (i0 + 1) (c + 1) (qadd acc q) h2

theorem mem_take_of_get? (l : List JSNum) (k m : ℕ) (x : JSNum) (hk : k < m)
    (h : l.get? k = some x) : x ∈ l.take m := by
  have h2 : (l.take m).get? k = some x := by
    rw [List.get?_take hk]; exact h
  exact List.get?_mem h2

theorem rmaSeed_correct (len : ℕ) : ∀ (l : List JSNum) (fi : ℕ) (i0 c : ℕ) (acc : ℚ),
    c < len →
    ((l.take (fi + 1)).filterMap id).length + c = len →
    (∃ q, l.get? fi = some (some q)) →
    rmaSeed len l i0 c acc =
      some (i0 + fi, qdiv (qadd acc (((l.filterMap id).take (len - c)).sum) ) ((len : ℚ))) := by
  intro l
  induction l with
  | nil =>
    intro fi i0 c acc _ _ hq
    rcases hq with ⟨q, hq⟩
    exact absurd hq (by simp)
  | cons x xs ih =>
    intro fi i0 c acc hc hcount hq
    cases x with
    | none =>
      cases fi with
      | zero =>
        rcases hq with ⟨q, hq⟩
        exact absurd hq (by simp)
      | succ k =>
        rw [rmaSeed_cons_none]
        have hcount2 : ((xs.take (k + 1)).filterMap id).length + c = len := by
          simpa using hcount
        have hq2 : ∃ q, xs.get? k = some (some q) := by
          rcases hq with ⟨q, hq⟩
          exact ⟨q, by simpa using hq⟩
        rw [ih k (i0 + 1) c acc hc hcount2 hq2]
        have hfi : i0 + 1 + k = i0 + (k + 1) := by omega
        rw [hfi]
        simp
    | some q =>
      cases fi with
      | zero =>
        have hc1 : c + 1 = len := by
          simp at hcount
          omega
        rw [rmaSeed_cons_some, if_pos hc1]
        have hlen1 : len - c = 1 := by omega
        rw [hlen1]
        simp
      | succ k =>
        have hq2 : ∃ q2, xs.get? k = some (some q2) := by
          rcases hq with ⟨q2, hq⟩
          exact ⟨q2, by simpa using hq⟩
        have hcount2 : ((xs.take (k + 1)).filterMap id).length + (c + 1) = len := by
          simp at hcount
          omega
        have hcnt_pos : 1 ≤ ((xs.take (k + 1)).filterMap id).length := by
          rcases hq2 with ⟨q2, hq2⟩
          have hmem : (some q2 : JSNum) ∈ xs.take (k + 1) :=
            mem_take_of_get? xs k (k + 1) (some q2) (by omega) hq2
          have hmem2 : q2 ∈ (xs.take (k + 1)).filterMap id :=
            List.mem_filterMap.mpr ⟨some q2, hmem, rfl⟩
          exact List.length_pos.mpr (List.ne_nil_of_mem hmem2)
        have hc2 : c + 1 < len := by omega
        rw [rmaSeed_cons_some, if_neg (by omega)]
        rw [ih k (i0 + 1) (c + 1) (qadd acc q) hc2 hcount2 hq2]
        have hfi : i0 + 1 + k = i0 + (k + 1) := by omega
        rw [hfi]
        have htake : len - c = (len - (c + 1)) + 1 := by omega
        rw [htake]
        simp only [List.filterMap_cons, id, List.take_succ_cons, List.sum_cons]
        have harith : qadd (qadd acc q) ((xs.filterMap id).take (len - (c + 1))).sum =
            qadd acc (q + ((xs.filterMap id).take (len - (c + 1))).sum) := by
          rw [qadd_eq, qadd_eq, qadd_eq]
          ring
        rw [harith]


theorem get?_some_of_all (s : List JSNum) (hall : ∀ x ∈ s, x.isSome = true) (i : ℕ)
    (h : i < s.length) : ∃ q, s.get? i = some (some q) := by
  rw [List.get?_eq_get h]
  rcases Option.isSome_iff_exists.mp (hall _ (s.get_mem _ _)) with ⟨q, hq⟩
  exact ⟨q, by rw [hq]⟩

theorem filterMap_id_length (l : List JSNum) (h : ∀ x ∈ l, x.isSome = true) :
    (l.filterMap id).length = l.length := by
  induction l with
  | nil => rfl
  | cons x xs ih =>
    cases x with
    | none => exact absurd (h none (by simp)) (by simp)
    | some q =>
      simp only [List.filterMap_cons, id, List.length_cons]
      rw [ih (fun y hy => h y (by simp [hy]))]

theorem rma_eq_of_seed (source : List JSNum) (len fi : ℕ) (seed : ℚ)
    (h : rmaSeed len source 0 0 0 = some (fi, seed)) :
    rma source len = ((List.range fi).map (fun _ => none)) ++
      (some seed) :: (rmaRun (qdiv 1 ((len : ℚ))) seed (source.drop (fi + 1))).map some := by
  rw [rma, h]

theorem rma_get?_before (source : List JSNum) (len fi : ℕ) (seed : ℚ)
    (h : rmaSeed len source 0 0 0 = some (fi, seed)) (i : ℕ) (hi : i < fi) :
    (rma source len).get? i = some none := by
  rw [rma_eq_of_seed source len fi seed h,
    List.get?_append (by simp [hi]), get?_map_range _ _ _ hi]

theorem rma_get?_seed (source : List JSNum) (len fi : ℕ) (seed : ℚ)
    (h : rmaSeed len source 0 0 0 = some (fi, seed)) :
    (rma source len).get? fi = some (some seed) := by
  rw [rma_eq_of_seed source len fi seed h, List.get?_append_right (by simp)]
  simp

theorem rma_get?_after (source : List JSNum) (len fi : ℕ) (seed : ℚ)
    (h : rmaSeed len source 0 0 0 = some (fi, seed)) (k : ℕ) :
    (rma source len).get? (fi + 1 + k) =
      ((rmaRun (qdiv 1 ((len : ℚ))) seed (source.drop (fi + 1))).get? k).map some := by
  rw [rma_eq_of_seed source len fi seed h, List.get?_append_right (by simp; omega)]
  have h2 : fi + 1 + k - fi = k + 1 := by omega
  simp only [List.length_map, List.length_range, h2, List.get?_cons_succ, List.get?_map]

theorem rmaRun_get?_zero (a prev : ℚ) (x : JSNum) (xs : List JSNum) :
    (rmaRun a prev (x :: xs)).get? 0 = some (rmaStep a prev x) := rfl

theorem rmaRun_get?_succ (a : ℚ) : ∀ (l : List JSNum) (prev : ℚ) (k : ℕ),
    k + 1 < l.length →
    ∃ p y, (rmaRun a prev l).get? k = some p ∧ l.get? (k + 1) = some y ∧
      (rmaRun a prev l).get? (k + 1) = some (rmaStep a p y) := by
  intro l
  induction l with
  | nil => intro prev k h; exact absurd h (by simp)
  | cons x xs ih =>
    intro prev k h
    cases k with
    | zero =>
      cases xs with
      | nil => exact absurd h (by simp)
      | cons y ys =>
        exact ⟨rmaStep a prev x, y, rfl, rfl, rfl⟩
    | succ k2 =>
      rcases ih (rmaStep a prev x) k2 (by simpa using h) with ⟨p, y, h1, h2, h3⟩
      exact ⟨p, y, h1, by simpa using h2, h3⟩

theorem rmaStep_nonneg (a prev : ℚ) (x : JSNum) (ha0 : 0 ≤ a) (ha1 : a ≤ 1)
    (hp : 0 ≤ prev) (hx : ∀ q, x = some q → 0 ≤ q) : 0 ≤ rmaStep a prev x := by
  cases x with
  | none => exact hp
  | some q =>
    have hq := hx q rfl
    rw [rmaStep, qadd_eq, qmul_eq, qmul_eq, qsub_eq]
    nlinarith

theorem rmaRun_get?_nonneg (a : ℚ) (ha0 : 0 ≤ a) (ha1 : a ≤ 1) :
    ∀ (l : List JSNum) (prev : ℚ), 0 ≤ prev →
      (∀ x ∈ l, ∀ q, x = some q → 0 ≤ q) →
      ∀ (k : ℕ) (p : ℚ), (rmaRun a prev l).get? k = some p → 0 ≤ p := by
  intro l
  induction l with
  | nil => intro prev _ _ k p h; exact absurd h (by simp [rmaRun])
  | cons x xs ih =>
    intro prev hp hall k p h
    have hstep : 0 ≤ rmaStep a prev x :=
      rmaStep_nonneg a prev x ha0 ha1 hp (fun q hq => hall x (by simp) q hq)
    cases k with
    | zero =>
      rw [rmaRun_get?_zero] at h
      exact (Option.some.inj h) ▸ hstep
    | succ k2 =>
      have h2 : (rmaRun a (rmaStep a prev x) xs).get? k2 = some p := by
        rw [rmaRun] at h
        simpa using h
      exact ih (rmaStep a prev x) hstep (fun y hy => hall y (by simp [hy])) k2 p h2

theorem rmaSeed_nonneg (len : ℕ) (hlen : 0 < len) : ∀ (l : List JSNum) (i0 c : ℕ) (acc : ℚ)
    (fi : ℕ) (seed : ℚ), 0 ≤ acc → (∀ x ∈ l, ∀ q, x = some q → 0 ≤ q) →
    rmaSeed len l i0 c acc = some (fi, seed) → 0 ≤ seed := by
  intro l
  induction l with
  | nil => intro i0 c acc fi seed _ _ h; rw [rmaSeed_nil] at h; exact absurd h (by simp)
  | cons x xs ih =>
    intro i0 c acc fi seed hacc hall h
    cases x with
    | none =>
      rw [rmaSeed_cons_none] at h
      exact ih (i0 + 1) c acc fi seed hacc (fun y hy => hall y (by simp [hy])) h
    | some q =>
      have hq : 0 ≤ q := hall (some q) (by simp) q rfl
      rw [rmaSeed_cons_some] at h
      by_cases hc : c + 1 = len
      · rw [if_pos hc] at h
        have h2 : qdiv (qadd acc q) ((len : ℚ)) = seed := congrArg Prod.snd (Option.some.inj h)
        rw [← h2, qdiv_eq, qadd_eq]
        have hlenq : (0 : ℚ) < ((len : ℚ)) := by exact_mod_cast hlen
        positivity
      · rw [if_neg hc] at h
        exact ih (i0 + 1) (c + 1) (qadd acc q) fi seed (by rw [qadd_eq]; linarith)
          (fun y hy => hall y (by simp [hy])) h

theorem rma_get?_nonneg (source : List JSNum) (len : ℕ) (hlen : 0 < len)
    (hall : ∀ x ∈ source, ∀ q, x = some q → 0 ≤ q) (i : ℕ) (q : ℚ)
    (h : (rma source len).get? i = some (some q)) : 0 ≤ q := by
  cases hseed : rmaSeed len source 0 0 0 with
  | none =>
    rw [rma, hseed] at h
    rcases Nat.lt_or_ge i source.length with hi | hi
    · rw [List.get?_map, List.get?_eq_get hi] at h
      simp at h
    · rw [List.get?_map, List.get?_eq_none.mpr (by simpa using hi)] at h
      simp at h
  | some p =>
    rcases p with ⟨fi, seed⟩
    have hseednn : 0 ≤ seed :=
      rmaSeed_nonneg len hlen source 0 0 0 fi seed le_rfl hall hseed
    have ha0 : 0 ≤ qdiv 1 ((len : ℚ)) := by
      rw [qdiv_eq]
      positivity
    have ha1 : qdiv 1 ((len : ℚ)) ≤ 1 := by
      rw [qdiv_eq]
      have hlenq : (1 : ℚ) ≤ ((len : ℚ)) := by exact_mod_cast hlen
      rw [div_le_one (by linarith)]
      exact hlenq
    rcases Nat.lt_trichotomy i fi with hi | hi | hi
    · rw [rma_get?_before source len fi seed hseed i hi] at h
      simp at h
    · rw [hi, rma_get?_seed source len fi seed hseed] at h
      have := Option.some.inj (Option.some.inj h)
      rw [← this]
      exact hseednn
    · have hk : i = fi + 1 + (i - fi - 1) := by omega
      rw [hk, rma_get?_after source len fi seed hseed] at h
      cases hrun : (rmaRun (qdiv 1 ((len : ℚ))) seed (source.drop (fi + 1))).get? (i - fi - 1) with
      | none => rw [hrun] at h; simp at h
      | some p2 =>
        rw [hrun] at h
        have hp2 : p2 = q := by
          have := Option.some.inj h
          simpa using this
        rw [← hp2]
        exact rmaRun_get?_nonneg (qdiv 1 ((len : ℚ))) ha0 ha1 (source.drop (fi + 1)) seed hseednn
          (fun x hx => hall x (List.mem_of_mem_drop hx)) (i - fi - 1) p2 hrun


theorem rma_step_pair (source : List JSNum) (len fi : ℕ) (seed : ℚ)
    (hseed : rmaSeed len source 0 0 0 = some (fi, seed)) (i : ℕ)
    (hfi : fi < i) (hin : i < source.length) :
    ∃ p y, (rma source len).get? (i - 1) = some (some p) ∧ source.get? i = some y ∧
      (rma source len).get? i = some (some (rmaStep (qdiv 1 ((len : ℚ))) p y)) := by
  have hrget : ∀ k2, (source.drop (fi + 1)).get? k2 = source.get? (fi + 1 + k2) := by
    intro k2
    rw [List.get?_drop]
  have hrestlen : (source.drop (fi + 1)).length = source.length - (fi + 1) := by
    simp
  cases hio : i - fi - 1 with
  | zero =>
    have hi1 : i = fi + 1 := by omega
    cases hrestc : source.drop (fi + 1) with
    | nil =>
      have h0 : source.length - (fi + 1) = 0 := by rw [← hrestlen, hrestc]; rfl
      omega
    | cons y ys =>
      have hy : source.get? i = some y := by
        have := hrget 0
        rw [hrestc] at this
        rw [hi1]
        exact this.symm
      have hprev : (rma source len).get? (i - 1) = some (some seed) := by
        have h2 : i - 1 = fi := by omega
        rw [h2]
        exact rma_get?_seed source len fi seed hseed
      have hcur : (rma source len).get? i = some (some (rmaStep (qdiv 1 ((len : ℚ))) seed y)) := by
        have h3 := rma_get?_after source len fi seed hseed 0
        rw [hrestc, rmaRun_get?_zero] at h3
        rw [hi1]
        exact h3
      exact ⟨seed, y, hprev, hy, hcur⟩
  | succ k2 =>
    have hk : i = fi + 1 + (k2 + 1) := by omega
    have hlt : k2 + 1 < (source.drop (fi + 1)).length := by omega
    rcases rmaRun_get?_succ (qdiv 1 ((len : ℚ))) (source.drop (fi + 1)) seed k2 hlt with
      ⟨p, y, h1, h2, h3⟩
    refine ⟨p, y, ?_, ?_, ?_⟩
    · have hprev := rma_get?_after source len fi seed hseed k2
      rw [h1] at hprev
      have h4 : i - 1 = fi + 1 + k2 := by omega
      rw [h4, hprev]
      rfl
    · rw [hk, ← hrget (k2 + 1)]
      exact h2
    · have hcur := rma_get?_after source len fi seed hseed (k2 + 1)
      rw [h3] at hcur
      rw [hk, hcur]
      rfl

-- ============================================================
-- Claim C1: Wilder smoothing (rma)
-- ============================================================

/-- Number of non-NaN values among the first `k` entries (used to state
where the `len`-th valid sample occurs). -/
def validPrefixCount (source : List JSNum) (k : ℕ) : ℕ :=
  ((source.take k).filterMap id).length

/-- The finite values of a sequence, in order. -/
def valids (source : List JSNum) : List ℚ := source.filterMap id

/-- C1: Wilder smoothing (`rma`) with positive integer `len`.  If the input
holds fewer than `len` non-NaN values, every output is NaN.  Otherwise, at
the index `fi` of the `len`-th non-NaN input value: every output strictly
before `fi` is NaN; the output at `fi` is the arithmetic mean of the first
`len` non-NaN inputs; and at every later in-range index, a non-NaN input
`q` yields `(1/len) * q + (1 - 1/len) * previous`, while a NaN input
repeats the previous output. -/
theorem C1_rma (source : List JSNum) (len : ℕ) (hlen : 0 < len) :
    ((valids source).length < len → rma source len = source.map (fun _ => none)) ∧
    (∀ fi : ℕ, validPrefixCount source (fi + 1) = len →
      (∃ q, source.get? fi = some (some q)) →
      (∀ i, i < fi → (rma source len).get? i = some none) ∧
      (rma source len).get? fi =
        some (some ((((valids source).take len).sum) / ((len : ℚ)))) ∧
      (∀ i, fi < i → i < source.length →
        (source.get? i = some none →
          (rma source len).get? i = (rma source len).get? (i - 1)) ∧
        (∀ q, source.get? i = some (some q) →
          ∃ p, (rma source len).get? (i - 1) = some (some p) ∧
            (rma source len).get? i =
              some (some ((1 / ((len : ℚ))) * q + (1 - 1 / ((len : ℚ))) * p))))) := by
  constructor
  · intro hshort
    have hseed : rmaSeed len source 0 0 0 = none := by
      apply rmaSeed_none_of_short
      rw [valids] at hshort
      omega
    rw [rma, hseed]
  · intro fi hcount hq
    have hseed : rmaSeed len source 0 0 0 =
        some (0 + fi, qdiv (qadd 0 (((source.filterMap id).take (len - 0)).sum)) ((len : ℚ))) := by
      apply rmaSeed_correct len source fi 0 0 0 hlen _ hq
      rw [validPrefixCount] at hcount
      omega
    rw [Nat.zero_add, Nat.sub_zero] at hseed
    have hseedval : qdiv (qadd 0 (((source.filterMap id).take len).sum)) ((len : ℚ)) =
        (((valids source).take len).sum) / ((len : ℚ)) := by
      rw [qdiv_eq, qadd_eq, zero_add, valids]
    refine ⟨?_, ?_, ?_⟩
    · intro i hi
      exact rma_get?_before source len fi _ hseed i hi
    · rw [rma_get?_seed source len fi _ hseed, hseedval]
    · intro i hfi hin
      rcases rma_step_pair source len fi _ hseed i hfi hin with ⟨p, y, hprev, hy, hcur⟩
      constructor
      · intro hnone
        have hyn : y = none := by
          rw [hy] at hnone
          exact Option.some.inj hnone
        rw [hyn] at hcur
        rw [hcur, hprev]
        rfl
      · intro q hq2
        have hyq : y = some q := by
          rw [hy] at hq2
          exact Option.some.inj hq2
        rw [hyq] at hcur
        refine ⟨p, hprev, ?_⟩
        rw [hcur]
        have hstep : rmaStep (qdiv 1 ((len : ℚ))) p (some q) =
            (1 / ((len : ℚ))) * q + (1 - 1 / ((len : ℚ))) * p := by
          rw [rmaStep, qadd_eq, qmul_eq, qmul_eq, qsub_eq, qdiv_eq]
        rw [hstep]

/-- Witness for C1 on concrete inputs: a short input is all NaN; an input
with NaNs seeds at index 2 with the mean of the first two valid values and
then follows the recurrence, holding through the NaN at index 3. -/
theorem C1_rma_wit :
    rma [some 1, none] 2 = ([some 1, none] : List JSNum).map (fun _ => none) ∧
    (rma [none, some 1, some 3, none, some 5] 2).get? 0 = some none ∧
    (rma [none, some 1, some 3, none, some 5] 2).get? 2 =
      some (some ((((valids [none, some 1, some 3, none, some 5]).take 2).sum) / ((2 : ℕ) : ℚ))) ∧
    ((rma [none, some 1, some 3, none, some 5] 2).get? 3 =
      (rma [none, some 1, some 3, none, some 5] 2).get? 2) ∧
    (∃ p, (rma [none, some 1, some 3, none, some 5] 2).get? 3 = some (some p) ∧
      (rma [none, some 1, some 3, none, some 5] 2).get? 4 =
        some (some ((1 / (((2 : ℕ) : ℚ))) * 5 + (1 - 1 / (((2 : ℕ) : ℚ))) * p))) := by
  refine ⟨(C1_rma [some 1, none] 2 (by decide)).1 (by decide),
    ((C1_rma [none, some 1, some 3, none, some 5] 2 (by decide)).2 2 (by decide)
      ⟨3, by decide⟩).1 0 (by decide),
    ((C1_rma [none, some 1, some 3, none, some 5] 2 (by decide)).2 2 (by decide)
      ⟨3, by decide⟩).2.1,
    (((C1_rma [none, some 1, some 3, none, some 5] 2 (by decide)).2 2 (by decide)
      ⟨3, by decide⟩).2.2 3 (by decide) (by decide)).1 (by decide),
    (((C1_rma [none, some 1, some 3, none, some 5] 2 (by decide)).2 2 (by decide)
      ⟨3, by decide⟩).2.2 4 (by decide) (by decide)).2 5 (by decide)⟩


theorem get?_map_rangeG {α : Type} (f : ℕ → α) (n i : ℕ) (h : i < n) :
    ((List.range n).map f).get? i = some (f i) := by
  rw [List.get?_map, List.get?_range h]
  rfl

theorem getD_map_rangeB (f : ℕ → Bool) (n i : ℕ) :
    ((List.range n).map f).getD i false = if i < n then f i else false := by
  by_cases h : i < n
  · rw [if_pos h, List.getD_eq_get?, get?_map_rangeG f n i h]
    rfl
  · rw [if_neg h, List.getD_eq_get?, List.get?_eq_none.mpr (by simp; omega)]
    rfl

theorem jlt_asymm (a b : JSNum) (h1 : jlt a b = true) (h2 : jlt b a = true) : False := by
  cases a with
  | none => rw [jlt_none_left] at h1; exact absurd h1 (by simp)
  | some x =>
    cases b with
    | none => rw [jlt_none_left] at h2; exact absurd h2 (by simp)
    | some y =>
      exact absurd ((jlt_some y x).mp h2) (not_lt.mpr (le_of_lt ((jlt_some x y).mp h1)))

theorem emaRun_length (m : ℚ) : ∀ (l : List JSNum) (prev : JSNum),
    (emaRun m prev l).length = l.length := by
  intro l
  induction l with
  | nil => intro prev; rfl
  | cons x xs ih => intro prev; rw [emaRun]; simp [ih]

theorem ema_length (source : List JSNum) (len : ℕ) :
    (ema source len).length = source.length := by
  cases source with
  | nil => rfl
  | cons x xs => rw [ema]; simp [emaRun_length]

-- ============================================================
-- Claim C9: crossover / crossunder
-- ============================================================

/-- C9: crossover and crossunder are never both true at an index, both are
false at index 0, and for `i > 0` crossover holds exactly when the first
series was at or below the second on the previous bar and strictly above it
now; in particular `crossover [1,3] [2,2] = [false, true]`. -/
theorem C9_cross (s1 s2 : List JSNum) :
    (∀ i, ((crossover s1 s2).getD i false && (crossunder s1 s2).getD i false) = false) ∧
    ((crossover s1 s2).getD 0 false = false ∧ (crossunder s1 s2).getD 0 false = false) ∧
    (∀ i, 0 < i → i < s1.length →
      ((crossover s1 s2).get? i = some true ↔
        jle (jget s1 (i - 1)) (jget s2 (i - 1)) = true ∧ jgt (jget s1 i) (jget s2 i) = true)) ∧
    crossover [some 1, some 3] [some 2, some 2] = [false, true] := by
  refine ⟨?_, ⟨?_, ?_⟩, ?_, by decide⟩
  · intro i
    rw [crossover, crossunder, getD_map_rangeB, getD_map_rangeB]
    by_cases h : i < s1.length
    · rw [if_pos h, if_pos h]
      by_cases h0 : i = 0
      · rw [if_pos h0]
        simp
      · rw [if_neg h0, if_neg h0]
        rcases Bool.eq_false_or_eq_true (jlt (jget s1 i) (jget s2 i)) with h1 | h1
        · rcases Bool.eq_false_or_eq_true (jlt (jget s2 i) (jget s1 i)) with h2 | h2
          · exact (jlt_asymm _ _ h1 h2).elim
          · rw [jgt, h2]
            simp
        · rw [h1]
          simp
    · rw [if_neg h, if_neg h]
      simp
  · rw [crossover, getD_map_rangeB]
    by_cases h : 0 < s1.length
    · rw [if_pos h, if_pos rfl]
    · rw [if_neg (by omega)]
  · rw [crossunder, getD_map_rangeB]
    by_cases h : 0 < s1.length
    · rw [if_pos h, if_pos rfl]
    · rw [if_neg (by omega)]
  · intro i h0 hn
    rw [crossover, get?_map_rangeG _ _ _ hn, if_neg (by omega)]
    constructor
    · intro h
      have h2 := Option.some.inj h
      have h3 : jgt (jget s1 i) (jget s2 i) = true ∧
          jle (jget s1 (i - 1)) (jget s2 (i - 1)) = true := by
        simpa using h2
      exact ⟨h3.2, h3.1⟩
    · intro h
      rw [jgt] at h
      rw [jgt, h.2, h.1]
      rfl

/-- Witness for C9 at `s1 = [1,3]`, `s2 = [2,2]`, index 1. -/
theorem C9_cross_wit :
    ((crossover [some 1, some 3] [some 2, some 2]).getD 1 false &&
      (crossunder [some 1, some 3] [some 2, some 2]).getD 1 false) = false ∧
    (crossover [some 1, some 3] [some 2, some 2]).getD 0 false = false ∧
    ((crossover [some 1, some 3] [some 2, some 2]).get? 1 = some true ↔
      jle (jget [some 1, some 3] 0) (jget [some 2, some 2] 0) = true ∧
      jgt (jget [some 1, some 3] 1) (jget [some 2, some 2] 1) = true) ∧
    crossover [some 1, some 3] [some 2, some 2] = [false, true] :=
  ⟨(C9_cross [some 1, some 3] [some 2, some 2]).1 1,
   (C9_cross [some 1, some 3] [some 2, some 2]).2.1.1,
   (C9_cross [some 1, some 3] [some 2, some 2]).2.2.1 1 (by decide) (by decide),
   (C9_cross [some 1, some 3] [some 2, some 2]).2.2.2⟩


theorem lt_length_of_jget_some (s : List JSNum) (i : ℕ) (q : ℚ) (h : jget s i = some q) :
    i < s.length := by
  by_contra hge
  rw [jget_of_ge s i (by omega)] at h
  exact absurd h (by simp)

-- ============================================================
-- Claim C10: Williams %R sentinel and bounds
-- ============================================================

/-- C10: `wpr` returns exactly `-50` wherever the rolling highest of `high`
minus the rolling lowest of `low` is exactly zero; and at every in-range
index past the warm-up whose bar has finite `high`, `low`, `close` with
`low ≤ close ≤ high`, the output is a finite value in `[-100, 0]`. -/
theorem C10_wpr (high low close : List JSNum) (len : ℕ) :
    (∀ i, i < close.length →
      jsub (jget (highest high len) i) (jget (lowest low len) i) = some 0 →
      (wpr high low close len).get? i = some (some (-50))) ∧
    (∀ (i : ℕ) (h l c : ℚ), 0 < len → len ≤ i + 1 → i < close.length →
      jget high i = some h → jget low i = some l → jget close i = some c →
      l ≤ c → c ≤ h →
      ∃ v, (wpr high low close len).get? i = some (some v) ∧ -100 ≤ v ∧ v ≤ 0) := by
  constructor
  · intro i hi hz
    rw [wpr, get?_map_rangeG _ _ _ hi, hz, if_pos (by decide)]
  · intro i h l c hlen hwarm hi hh hl hc hlc hch
    have hihigh : i < high.length := lt_length_of_jget_some high i h hh
    have hilow : i < low.length := lt_length_of_jget_some low i l hl
    have hhh : jget (highest high len) i =
        qmaxList ((List.range len).filterMap (fun j => jget high (i - j))) := by
      rw [highest, jget_map_range _ _ _ hihigh, if_neg (by omega)]
    have hll : jget (lowest low len) i =
        qminList ((List.range len).filterMap (fun j => jget low (i - j))) := by
      rw [lowest, jget_map_range _ _ _ hilow, if_neg (by omega)]
    have hmemh : h ∈ (List.range len).filterMap (fun j => jget high (i - j)) := by
      apply List.mem_filterMap.mpr
      exact ⟨0, List.mem_range.mpr hlen, by simpa using hh⟩
    have hmeml : l ∈ (List.range len).filterMap (fun j => jget low (i - j)) := by
      apply List.mem_filterMap.mpr
      exact ⟨0, List.mem_range.mpr hlen, by simpa using hl⟩
    cases hqm : qmaxList ((List.range len).filterMap (fun j => jget high (i - j))) with
    | none =>
      have h2 := qmaxList_isSome _ (List.ne_nil_of_mem hmemh)
      rw [hqm] at h2
      exact absurd h2 (by simp)
    | some hhv =>
      cases hqn : qminList ((List.range len).filterMap (fun j => jget low (i - j))) with
      | none =>
        have h2 := qminList_isSome _ (List.ne_nil_of_mem hmeml)
        rw [hqn] at h2
        exact absurd h2 (by simp)
      | some llv =>
        have hhb : h ≤ hhv := le_qmaxList _ h hmemh hhv hqm
        have hlb : llv ≤ l := qminList_le _ l hmeml llv hqn
        rw [wpr, get?_map_rangeG _ _ _ hi, hhh, hqm, hll, hqn, hc, jsub_some, jsub_some]
        by_cases hz : hhv - llv = 0
        · rw [if_pos (by rw [hz]; decide)]
          exact ⟨-50, rfl, by norm_num, by norm_num⟩
        · have hd : 0 < hhv - llv := lt_of_le_of_ne (by linarith) (Ne.symm hz)
          rw [if_neg (by simp only [jeq_some]; exact hz), jdiv_some_ne _ _ hz, jmul_some]
          have ht0 : 0 ≤ hhv - c := by linarith
          have ht1 : hhv - c ≤ hhv - llv := by linarith
          have hr0 : 0 ≤ (hhv - c) / (hhv - llv) := div_nonneg ht0 (le_of_lt hd)
          have hr1 : (hhv - c) / (hhv - llv) ≤ 1 := (div_le_one hd).mpr ht1
          exact ⟨_, rfl, by nlinarith, by nlinarith⟩

/-- Witness for C10: a flat bar yields exactly `-50`; a normal bar yields a
value in `[-100, 0]`. -/
theorem C10_wpr_wit :
    (wpr [some 5, some 5] [some 5, some 5] [some 5, some 5] 1).get? 0 = some (some (-50)) ∧
    (∃ v, (wpr [some 3] [some 1] [some 2] 1).get? 0 = some (some v) ∧ -100 ≤ v ∧ v ≤ 0) :=
  ⟨(C10_wpr [some 5, some 5] [some 5, some 5] [some 5, some 5] 1).1 0 (by decide) (by decide),
   (C10_wpr [some 3] [some 1] [some 2] 1).2 0 3 1 2 (by decide) (by decide) (by decide)
     (by decide) (by decide) (by decide) (by decide) (by decide)⟩


-- ============================================================
-- Claim C4: degenerate-denominator sentinels
-- ============================================================

/-- C4: every guarded zero denominator yields its documented finite
sentinel: `rsi` emits exactly 100 on a zero smoothed loss, the stochastic
raw %K emits 50 on a zero window range, `cci` emits 0 on a zero windowed
mean absolute deviation, `bbw` and `kcw` emit 0 on a zero basis, and `cmo`
and `tsi` emit 0 on a zero total/denominator. -/
theorem C4_sentinels :
    (∀ (source : List JSNum) (len i : ℕ), i < source.length - 1 →
      (rma (rsiLosses source) len).get? i = some (some 0) →
      (rsi source len).get? (i + 1) = some (some 100)) ∧
    (∀ (close high low : List JSNum) (k i : ℕ), i < close.length →
      jsub (jget (highest high k) i) (jget (lowest low k) i) = some 0 →
      (stochRawK close high low k).get? i = some (some 50)) ∧
    (∀ (high low close : List JSNum) (len i : ℕ), i < high.length →
      jget (dev (tpSeq high low close) len) i = some 0 →
      (cci high low close len).get? i = some (some 0)) ∧
    (∀ (S : ℚ → ℚ) (source : List JSNum) (len : ℕ) (mult : ℚ) (i : ℕ), i < source.length →
      jget (sma source len) i = some 0 →
      (bbw S source len mult).get? i = some (some 0)) ∧
    (∀ (high low close : List JSNum) (len : ℕ) (mult : ℚ) (atrLen : ℕ) (i : ℕ),
      i < close.length → jget (ema close len) i = some 0 →
      (kcw high low close len mult atrLen).get? i = some (some 0)) ∧
    (∀ (source : List JSNum) (len i : ℕ), len ≤ i → i < source.length →
      jadd (cmoSums source len i).1 (cmoSums source len i).2 = some 0 →
      (cmo source len).get? i = some (some 0)) ∧
    (∀ (source : List JSNum) (shortLen longLen i : ℕ), i < source.length →
      jget (tsiDenom source shortLen longLen) i = some 0 →
      (tsi source shortLen longLen).get? i = some (some 0)) := by
  refine ⟨?_, ?_, ?_, ?_, ?_, ?_, ?_⟩
  · intro source len i hi hz
    have hz2 : jget (rma (rsiLosses source) len) i = some 0 := by
      rw [jget, hz]
      rfl
    rw [rsi, List.get?_cons_succ, get?_map_rangeG _ _ _ hi, hz2, if_pos (by decide)]
  · intro close high low k i hi hz
    rw [stochRawK, get?_map_rangeG _ _ _ hi, hz, if_pos (by decide)]
  · intro high low close len i hi hz
    have hlen : i < (tpSeq high low close).length := by
      rw [tpSeq]
      simpa using hi
    rw [cci, get?_map_rangeG _ _ _ hlen, hz, if_pos (by decide)]
  · intro S source len mult i hi hz
    have hb1 : (bb S source len mult).1 = sma source len := rfl
    have hlen : i < (bb S source len mult).2.1.length := by
      rw [bb]
      simp [sma]
      omega
    rw [bbw, get?_map_rangeG _ _ _ hlen, hb1, hz, if_pos (by decide)]
  · intro high low close len mult atrLen i hi hz
    have hb1 : (kc high low close len mult atrLen).1 = ema close len := rfl
    have hlen : i < (kc high low close len mult atrLen).2.1.length := by
      rw [kc]
      simp [ema_length]
      omega
    rw [kcw, get?_map_rangeG _ _ _ hlen, hb1, hz, if_pos (by decide)]
  · intro source len i hwarm hi hz
    rw [cmo, get?_map_rangeG _ _ _ hi, if_neg (by omega), hz, if_pos (by decide)]
  · intro source shortLen longLen i hi hz
    have hlen : i < (ema (ema (tsiChanges source) longLen) shortLen).length := by
      rw [ema_length, ema_length, tsiChanges]
      simp
      omega
    rw [tsi, get?_map_rangeG _ _ _ hlen, hz, if_pos (by decide)]

/-- Witness for C4 on concrete degenerate inputs (constant or zero
series). -/
theorem C4_sentinels_wit :
    (rsi [some 1, some 2, some 3] 1).get? 1 = some (some 100) ∧
    (stochRawK [some 5, some 5] [some 5, some 5] [some 5, some 5] 1).get? 0 = some (some 50) ∧
    (cci [some 3, some 3] [some 3, some 3] [some 3, some 3] 1).get? 0 = some (some 0) ∧
    (bbw (fun q => q) [some 0, some 0] 1 2).get? 0 = some (some 0) ∧
    (kcw [some 0, some 0] [some 0, some 0] [some 0, some 0] 1 2 1).get? 0 = some (some 0) ∧
    (cmo [some 2, some 2] 1).get? 1 = some (some 0) ∧
    (tsi [some 4, some 4] 1 1).get? 1 = some (some 0) :=
  ⟨C4_sentinels.1 [some 1, some 2, some 3] 1 0 (by decide) (by decide),
   C4_sentinels.2.1 [some 5, some 5] [some 5, some 5] [some 5, some 5] 1 0 (by decide)
     (by decide),
   C4_sentinels.2.2.1 [some 3, some 3] [some 3, some 3] [some 3, some 3] 1 0 (by decide)
     (by decide),
   C4_sentinels.2.2.2.1 (fun q => q) [some 0, some 0] 1 2 0 (by decide) (by decide),
   C4_sentinels.2.2.2.2.1 [some 0, some 0] [some 0, some 0] [some 0, some 0] 1 2 1 0
     (by decide) (by decide),
   C4_sentinels.2.2.2.2.2.1 [some 2, some 2] 1 1 (by decide) (by decide) (by decide),
   C4_sentinels.2.2.2.2.2.2 [some 4, some 4] 1 1 1 (by decide) (by decide)⟩


-- ============================================================
-- Claim C3: RSI bounds and saturation
-- ============================================================

theorem rsiLosses_mem (source : List JSNum) :
    ∀ x ∈ rsiLosses source, ∃ q, x = some q ∧ 0 ≤ q := by
  intro x hx
  rcases List.mem_map.mp hx with ⟨c, _, hc⟩
  cases c with
  | none =>
    rw [← hc]
    exact ⟨0, by rw [if_neg (by simp)], le_refl 0⟩
  | some q =>
    by_cases hq : q < 0
    · refine ⟨-q, ?_, by linarith⟩
      rw [← hc, if_pos (by rw [jlt]; exact (qltB_iff q 0).mpr hq), jsub_some]
      rw [zero_sub]
    · refine ⟨0, ?_, le_refl 0⟩
      rw [← hc, if_neg (by rw [jlt]; simp [qltB_eq_false q 0 hq])]

theorem rsiGains_mem (source : List JSNum) :
    ∀ x ∈ rsiGains source, ∃ q, x = some q ∧ 0 ≤ q := by
  intro x hx
  rcases List.mem_map.mp hx with ⟨c, _, hc⟩
  cases c with
  | none =>
    rw [← hc]
    exact ⟨0, by rw [if_neg (by simp [jgt])], le_refl 0⟩
  | some q =>
    by_cases hq : 0 < q
    · refine ⟨q, ?_, by linarith⟩
      rw [← hc, if_pos (by rw [jgt, jlt]; exact (qltB_iff 0 q).mpr hq)]
    · refine ⟨0, ?_, le_refl 0⟩
      rw [← hc, if_neg (by rw [jgt, jlt]; simp [qltB_eq_false 0 q hq])]

theorem rsiLosses_nonneg (source : List JSNum) :
    ∀ x ∈ rsiLosses source, ∀ q, x = some q → 0 ≤ q := by
  intro x hx q hq
  rcases rsiLosses_mem source x hx with ⟨p, hp, hp0⟩
  rw [hq] at hp
  exact (Option.some.inj hp) ▸ hp0

theorem rsiGains_nonneg (source : List JSNum) :
    ∀ x ∈ rsiGains source, ∀ q, x = some q → 0 ≤ q := by
  intro x hx q hq
  rcases rsiGains_mem source x hx with ⟨p, hp, hp0⟩
  rw [hq] at hp
  exact (Option.some.inj hp) ▸ hp0

theorem rsiLosses_length (source : List JSNum) :
    (rsiLosses source).length = source.length - 1 := by
  rw [rsiLosses, rsiChanges]
  simp

theorem rmaStep_zero (a : ℚ) : rmaStep a 0 (some 0) = 0 := by
  rw [rmaStep, qadd_eq, qmul_eq, qmul_eq, qsub_eq]
  ring

theorem rmaRun_get?_zeros (a : ℚ) : ∀ (l : List JSNum) (k : ℕ),
    (∀ j, j ≤ k → ∀ y, l.get? j = some y → y = some 0) → k < l.length →
    (rmaRun a 0 l).get? k = some 0 := by
  intro l
  induction l with
  | nil => intro k _ hk; exact absurd hk (by simp)
  | cons x xs ih =>
    intro k hz hk
    have hx : x = some 0 := hz 0 (by omega) x rfl
    cases k with
    | zero =>
      rw [rmaRun_get?_zero, hx, rmaStep_zero]
    | succ k2 =>
      have hstep : rmaStep a 0 x = 0 := by rw [hx, rmaStep_zero]
      rw [rmaRun, List.get?_cons_succ, hstep]
      exact ih k2 (fun j hj y hy => hz (j + 1) (by omega) y (by simpa using hy))
        (by simpa using hk)

theorem filterMap_take_zeros : ∀ (l : List JSNum) (m : ℕ), m ≤ l.length →
    (∀ j, j < m → l.get? j = some (some 0)) → ((l.filterMap id).take m).sum = 0 := by
  intro l
  induction l with
  | nil =>
    intro m hm _
    have : m = 0 := by simpa using hm
    rw [this]
    rfl
  | cons x xs ih =>
    intro m hm hz
    cases m with
    | zero => rfl
    | succ m2 =>
      have hx : x = some 0 := Option.some.inj (hz 0 (by omega) )
      rw [hx]
      simp only [List.filterMap_cons, id, List.take_succ_cons, List.sum_cons]
      rw [ih m2 (by simpa using hm) (fun j hj => by simpa using hz (j + 1) (by omega))]
      ring

theorem take_zeros_filterMap : ∀ (l : List JSNum) (m : ℕ), m ≤ l.length →
    (∀ j, j < m → l.get? j = some (some 0)) →
    (l.take m).filterMap id = List.replicate m (0 : ℚ) := by
  intro l
  induction l with
  | nil =>
    intro m hm _
    have h0 : m = 0 := by simpa using hm
    rw [h0]
    rfl
  | cons x xs ih =>
    intro m hm hz
    cases m with
    | zero => rfl
    | succ m2 =>
      have hx : x = some 0 := Option.some.inj (hz 0 (by omega))
      rw [hx, List.take_succ_cons, List.filterMap_cons, List.replicate_succ]
      rw [ih m2 (by simpa using hm) (fun j hj => by simpa using hz (j + 1) (by omega))]
      rfl

theorem omap_some {α β : Type} (f : α → β) (x : α) : Option.map f (some x) = some (f x) := rfl

theorem get?_of_jget_some (s : List JSNum) (i : ℕ) (q : ℚ) (h : jget s i = some q) :
    s.get? i = some (some q) := by
  rw [jget] at h
  cases hg : s.get? i with
  | none => rw [hg] at h; exact absurd h (by simp)
  | some v =>
    rw [hg] at h
    have hv : v = some q := h
    rw [hv]

theorem rma_zero_prefix (l : List JSNum) (len t : ℕ) (hlen : 0 < len) (hlt : len ≤ t)
    (htl : t ≤ l.length) (hz : ∀ j, j < t → l.get? j = some (some 0)) :
    ∀ i, len - 1 ≤ i → i < t → (rma l len).get? i = some (some 0) := by
  have hcount : ((l.take (len - 1 + 1)).filterMap id).length + 0 = len := by
    have h1 : len - 1 + 1 = len := by omega
    rw [h1, take_zeros_filterMap l len (by omega) (fun j hj => hz j (by omega))]
    simp
  have hq : ∃ q, l.get? (len - 1) = some (some q) :=
    ⟨0, hz (len - 1) (by omega)⟩
  have hseed := rmaSeed_correct len l (len - 1) 0 0 0 hlen hcount hq
  have hsum : (((l.filterMap id).take (len - 0)).sum) = 0 := by
    rw [Nat.sub_zero]
    have h2 := take_zeros_filterMap l len (by omega) (fun j hj => hz j (by omega))
    have h3 : (l.filterMap id).take len = (l.take len).filterMap id := by
      rw [h2]
      have h4 : ∀ (l2 : List JSNum) (m : ℕ), m ≤ l2.length →
          (∀ j, j < m → l2.get? j = some (some 0)) →
          (l2.filterMap id).take m = List.replicate m (0 : ℚ) := by
        intro l2
        induction l2 with
        | nil =>
          intro m hm _
          have h0 : m = 0 := by simpa using hm
          rw [h0]
          rfl
        | cons x xs ih =>
          intro m hm hz2
          cases m with
          | zero => rfl
          | succ m2 =>
            have hx : x = some 0 := Option.some.inj (hz2 0 (by omega))
            rw [hx, List.filterMap_cons]
            have h5 : (id (some (0 : ℚ))) = some (0 : ℚ) := rfl
            rw [List.replicate_succ]
            simp only [id]
            rw [List.take_succ_cons,
              ih m2 (by simpa using hm) (fun j hj => by simpa using hz2 (j + 1) (by omega))]
      exact h4 l len (by omega) (fun j hj => hz j (by omega))
    rw [h3, h2]
    simp
  rw [hsum] at hseed
  have hseedval : qdiv (qadd 0 0) ((len : ℚ)) = 0 := by
    rw [qadd_eq, qdiv_eq]
    norm_num
  rw [hseedval, Nat.zero_add] at hseed
  intro i hi1 hi2
  rcases Nat.lt_or_ge i len with hilt | hige
  · have hieq : i = len - 1 := by omega
    rw [hieq]
    exact rma_get?_seed l len (len - 1) 0 hseed
  · have hk : i = (len - 1) + 1 + (i - len) := by omega
    rw [hk, rma_get?_after l len (len - 1) 0 hseed (i - len)]
    have hdrop : (len - 1) + 1 = len := by omega
    rw [hdrop]
    have hrun := rmaRun_get?_zeros (qdiv 1 ((len : ℚ))) (l.drop len) (i - len)
      (fun j hj y hy => by
        rw [List.get?_drop] at hy
        have hzj := hz (len + j) (by omega)
        rw [hzj] at hy
        exact (Option.some.inj hy).symm)
      (by simp; omega)
    rw [hrun]
    rfl

/-- C3 counterexample: `rsi([2,1,2,3,4], 2)` at index 4 has a trailing
window that is monotonically non-decreasing (source[2] ≤ source[3] ≤
source[4]), yet the output is 87.5, not 100 — the early loss at index 1
keeps the smoothed loss positive forever. -/
theorem C3_cex :
    (rsi [some 2, some 1, some 2, some 3, some 4] 2).get? 4 = some (some (mkRat 175 2)) ∧
    jle (jget [some 2, some 1, some 2, some 3, some 4] 2)
      (jget [some 2, some 1, some 2, some 3, some 4] 3) = true ∧
    jle (jget [some 2, some 1, some 2, some 3, some 4] 3)
      (jget [some 2, some 1, some 2, some 3, some 4] 4) = true ∧
    ¬ ((mkRat 175 2 : ℚ) = 100) := by
  refine ⟨by decide, by decide, by decide, by decide⟩

/-- C3 (amended): every non-NaN `rsi` output lies in `[0, 100]` (for any
input); and for finite inputs, the output is exactly 100 at every index `t`
(past the warm-up) such that the source is non-decreasing on the whole
prefix `0..t` — in particular at every defined index of a strictly
increasing source.  (The original claim, asserting 100 whenever only the
trailing `len`-bar window is non-decreasing, is refuted by `C3_cex`.) -/
theorem C3_rsi (source : List JSNum) (len : ℕ) (hlen : 0 < len) :
    (∀ t q, (rsi source len).get? t = some (some q) → 0 ≤ q ∧ q ≤ 100) ∧
    (∀ t, (∀ x ∈ source, x.isSome = true) → len ≤ t → t < source.length →
      (∀ k, k + 1 ≤ t → jle (jget source k) (jget source (k + 1)) = true) →
      (rsi source len).get? t = some (some 100)) := by
  constructor
  · intro t q hq
    cases t with
    | zero =>
      rw [rsi, List.get?_cons_zero] at hq
      exact absurd (Option.some.inj hq) (by simp)
    | succ t0 =>
      rcases Nat.lt_or_ge t0 (source.length - 1) with ht | ht
      · rw [rsi, List.get?_cons_succ, get?_map_rangeG _ _ _ ht] at hq
        have hbody := Option.some.inj hq
        cases hLj : jget (rma (rsiLosses source) len) t0 with
        | none =>
          rw [hLj] at hbody
          rw [if_neg (by simp), jdiv_none_right, jadd_none_right, jdiv_none_right,
            jsub_none_right] at hbody
          exact absurd hbody (by simp)
        | some l =>
          have hlnn : 0 ≤ l :=
            rma_get?_nonneg (rsiLosses source) len hlen (rsiLosses_nonneg source) t0 l
              (get?_of_jget_some _ _ _ hLj)
          rw [hLj] at hbody
          by_cases hl0 : l = 0
          · rw [if_pos (by rw [jeq_some]; exact hl0)] at hbody
            have : (100 : ℚ) = q := Option.some.inj hbody
            rw [← this]
            norm_num
          · rw [if_neg (by rw [jeq_some]; exact hl0)] at hbody
            cases hGj : jget (rma (rsiGains source) len) t0 with
            | none =>
              rw [hGj, jdiv_none_left, jadd_none_right, jdiv_none_right,
                jsub_none_right] at hbody
              exact absurd hbody (by simp)
            | some g =>
              have hgnn : 0 ≤ g :=
                rma_get?_nonneg (rsiGains source) len hlen (rsiGains_nonneg source) t0 g
                  (get?_of_jget_some _ _ _ hGj)
              have hl : 0 < l := lt_of_le_of_ne hlnn (Ne.symm hl0)
              have hr : 0 ≤ g / l := div_nonneg hgnn (le_of_lt hl)
              rw [hGj, jdiv_some_ne _ _ hl0, jadd_some,
                jdiv_some_ne _ _ (by positivity), jsub_some] at hbody
              have hqv := Option.some.inj hbody
              rw [← hqv]
              have hfrac_pos : 0 < 100 / (1 + g / l) := by positivity
              have hfrac_le : 100 / (1 + g / l) ≤ 100 := by
                rw [div_le_iff (by linarith)]
                nlinarith
              constructor
              · linarith
              · linarith
      · rw [rsi, List.get?_cons_succ, List.get?_eq_none.mpr (by simp; omega)] at hq
        exact absurd hq (by simp)
  · intro t hall hlt htn hmono
    have hlz : ∀ j, j < t → (rsiLosses source).get? j = some (some 0) := by
      intro j hj
      have hj1 : j < source.length - 1 := by omega
      rcases get?_some_of_all source hall j (by omega) with ⟨a, ha⟩
      rcases get?_some_of_all source hall (j + 1) (by omega) with ⟨b, hb⟩
      have hja : jget source j = some a := by rw [jget, ha]; rfl
      have hjb : jget source (j + 1) = some b := by rw [jget, hb]; rfl
      have hab : a ≤ b := by
        have := hmono j (by omega)
        rw [hja, hjb] at this
        exact (jle_some a b).mp this
      rw [rsiLosses, List.get?_map, rsiChanges, get?_map_rangeG _ _ _ hj1]
      rw [omap_some]
      have hc : jsub (jget source (j + 1)) (jget source j) = some (b - a) := by
        rw [hja, hjb, jsub_some]
      rw [hc, if_neg (by rw [jlt]; simp [qltB_eq_false (b - a) 0 (by linarith)])]
    have ht0 : t - 1 < source.length - 1 := by omega
    have hzero := rma_zero_prefix (rsiLosses source) len t hlen hlt
      (by rw [rsiLosses_length]; omega) hlz (t - 1) (by omega) (by omega)
    have hLj : jget (rma (rsiLosses source) len) (t - 1) = some 0 := by
      rw [jget, hzero]
      rfl
    have hteq : t = (t - 1) + 1 := by omega
    rw [hteq, rsi, List.get?_cons_succ, get?_map_rangeG _ _ _ ht0, hLj,
      if_pos (by decide)]

/-- Witness for C3: on the strictly increasing source `[1,2,3]` with
`len = 1`, the output at index 2 is exactly 100, which lies in `[0, 100]`. -/
theorem C3_rsi_wit :
    (rsi [some 1, some 2, some 3] 1).get? 2 = some (some 100) ∧
    (0 ≤ (100 : ℚ) ∧ (100 : ℚ) ≤ 100) := by
  have hb := (C3_rsi [some 1, some 2, some 3] 1 (by decide)).2 2 (by decide) (by decide)
    (by decide) (by
      intro k hk
      have hk2 : k = 0 ∨ k = 1 := by omega
      rcases hk2 with rfl | rfl <;> decide)
  exact ⟨hb, (C3_rsi [some 1, some 2, some 3] 1 (by decide)).1 2 100 hb⟩


-- ============================================================
-- SuperTrend trace lemmas
-- ============================================================

theorem stDirV_eq_none (c u l : JSNum) (s : STState) (h : s.prevST = none) :
    stDirV c s u l = 1 := by
  unfold stDirV
  rw [h]

theorem stDirV_eq_some (c u l : JSNum) (s : STState) (q : ℚ) (h : s.prevST = some q) :
    stDirV c s u l = if some q = s.prevUpper then (if jgt c u then -1 else 1)
      else (if jlt c l then 1 else -1) := by
  unfold stDirV
  rw [h]

theorem stDirV_cases (c u l : JSNum) (s : STState) :
    stDirV c s u l = 1 ∨ stDirV c s u l = -1 := by
  cases hst : s.prevST with
  | none => exact Or.inl (stDirV_eq_none c u l s hst)
  | some q =>
    rw [stDirV_eq_some c u l s q hst]
    by_cases h1 : some q = s.prevUpper
    · rw [if_pos h1]
      by_cases h2 : jgt c u = true
      · rw [if_pos h2]; exact Or.inr rfl
      · rw [if_neg h2]; exact Or.inl rfl
    · rw [if_neg h1]
      by_cases h2 : jlt c l = true
      · rw [if_pos h2]; exact Or.inl rfl
      · rw [if_neg h2]; exact Or.inr rfl

theorem stStep_none (factor : ℚ) (hl2i closei pc : JSNum) (s : STState) :
    stStep factor hl2i none closei pc s =
      ({ value := none, dir := 1, upper := none, lower := none }, s) := rfl

theorem stStep_some (factor : ℚ) (hl2i closei pc : JSNum) (a : ℚ) (s : STState) :
    stStep factor hl2i (some a) closei pc s =
      ({ value := if stDirV closei s (stUpper1 factor hl2i (some a) pc s)
            (stLower1 factor hl2i (some a) pc s) = -1
          then stLower1 factor hl2i (some a) pc s
          else stUpper1 factor hl2i (some a) pc s,
         dir := stDirV closei s (stUpper1 factor hl2i (some a) pc s)
            (stLower1 factor hl2i (some a) pc s),
         upper := stUpper1 factor hl2i (some a) pc s,
         lower := stLower1 factor hl2i (some a) pc s },
       { prevLower := stLower1 factor hl2i (some a) pc s,
         prevUpper := stUpper1 factor hl2i (some a) pc s,
         prevST := if stDirV closei s (stUpper1 factor hl2i (some a) pc s)
            (stLower1 factor hl2i (some a) pc s) = -1
          then stLower1 factor hl2i (some a) pc s
          else stUpper1 factor hl2i (some a) pc s }) := rfl

theorem stRow_value (factor : ℚ) (hl2i atri closei pc : JSNum) (s : STState) :
    (stStep factor hl2i atri closei pc s).1.value =
      (if (stStep factor hl2i atri closei pc s).1.dir = -1
       then (stStep factor hl2i atri closei pc s).1.lower
       else (stStep factor hl2i atri closei pc s).1.upper) := by
  cases atri with
  | none =>
    rw [stStep_none]
    by_cases h : (1 : ℤ) = -1
    · exact absurd h (by decide)
    · simp only [if_neg h]
  | some a => rfl

/-- Invariant carried along the SuperTrend loop: the previous trend value
is one of the two previous bands, and the state is either still the initial
one or was produced by a computed bar (in which case both stored bands are
finite, given that the midpoint is finite wherever the ATR is). -/
def STInv (atrv hl2 : List JSNum) (p : ℕ) (s : STState) : Prop :=
  (s.prevST = s.prevUpper ∨ s.prevST = s.prevLower) ∧
  (s = stInit ∨ ((∃ j, j < p ∧ (jget atrv j).isSome = true) ∧
    s.prevLower.isSome = true ∧ s.prevUpper.isSome = true))

theorem stInv_init (atrv hl2 : List JSNum) (p : ℕ) : STInv atrv hl2 p stInit :=
  ⟨Or.inl rfl, Or.inl rfl⟩

theorem stStep_inv (factor : ℚ) (hl2 atrv close : List JSNum)
    (hfin : ∀ j, (jget atrv j).isSome = true → (jget hl2 j).isSome = true)
    (p : ℕ) (s : STState) (h : STInv atrv hl2 p s) :
    STInv atrv hl2 (p + 1)
      (stStep factor (jget hl2 p) (jget atrv p) (jget close p)
        (if p = 0 then none else jget close (p - 1)) s).2 := by
  cases hatr : jget atrv p with
  | none =>
    rw [stStep_none]
    refine ⟨h.1, ?_⟩
    rcases h.2 with hinit | ⟨⟨j, hj, hjs⟩, hb⟩
    · exact Or.inl hinit
    · exact Or.inr ⟨⟨j, by omega, hjs⟩, hb⟩
  | some a =>
    rw [stStep_some]
    have hhl2 : (jget hl2 p).isSome = true := by
      apply hfin
      rw [hatr]
      rfl
    rcases Option.isSome_iff_exists.mp hhl2 with ⟨hv, hhv⟩
    have hcand_u : (jadd (jget hl2 p) (jmul (some factor) (some a))).isSome = true := by
      rw [hhv, jmul_some, jadd_some]
      rfl
    have hcand_l : (jsub (jget hl2 p) (jmul (some factor) (some a))).isSome = true := by
      rw [hhv, jmul_some, jsub_some]
      rfl
    have hu1 : (stUpper1 factor (jget hl2 p) (some a)
        (if p = 0 then none else jget close (p - 1)) s).isSome = true := by
      rw [stUpper1]
      by_cases hg : (s.prevLower.isSome && s.prevUpper.isSome) = true
      · rw [if_pos hg]
        by_cases h2 : (jlt (jadd (jget hl2 p) (jmul (some factor) (some a))) s.prevUpper ||
            jgt (if p = 0 then none else jget close (p - 1)) s.prevUpper) = true
        · rw [if_pos h2]
          exact hcand_u
        · rw [if_neg h2]
          exact (Bool.and_eq_true _ _ ▸ hg).2
      · rw [if_neg hg]
        exact hcand_u
    have hl1 : (stLower1 factor (jget hl2 p) (some a)
        (if p = 0 then none else jget close (p - 1)) s).isSome = true := by
      rw [stLower1]
      by_cases hg : (s.prevLower.isSome && s.prevUpper.isSome) = true
      · rw [if_pos hg]
        by_cases h2 : (jgt (jsub (jget hl2 p) (jmul (some factor) (some a))) s.prevLower ||
            jlt (if p = 0 then none else jget close (p - 1)) s.prevLower) = true
        · rw [if_pos h2]
          exact hcand_l
        · rw [if_neg h2]
          exact (Bool.and_eq_true _ _ ▸ hg).1
      · rw [if_neg hg]
        exact hcand_l
    constructor
    · by_cases hd : stDirV (jget close p) s
          (stUpper1 factor (jget hl2 p) (some a) (if p = 0 then none else jget close (p - 1)) s)
          (stLower1 factor (jget hl2 p) (some a)
            (if p = 0 then none else jget close (p - 1)) s) = -1
      · rw [if_pos hd]
        exact Or.inr rfl
      · rw [if_neg hd]
        exact Or.inl rfl
    · exact Or.inr ⟨⟨p, by omega, by rw [hatr]; rfl⟩, hl1, hu1⟩

theorem stGo_succ (factor : ℚ) (hl2 atrv close : List JSNum) (i0 fuel : ℕ) (s : STState) :
    stGo factor hl2 atrv close i0 (fuel + 1) s =
      (stStep factor (jget hl2 i0) (jget atrv i0) (jget close i0)
          (if i0 = 0 then none else jget close (i0 - 1)) s).1 ::
        stGo factor hl2 atrv close (i0 + 1) fuel
          (stStep factor (jget hl2 i0) (jget atrv i0) (jget close i0)
            (if i0 = 0 then none else jget close (i0 - 1)) s).2 := rfl

theorem stGo_length (factor : ℚ) (hl2 atrv close : List JSNum) :
    ∀ (fuel i0 : ℕ) (s : STState), (stGo factor hl2 atrv close i0 fuel s).length = fuel := by
  intro fuel
  induction fuel with
  | zero => intro i0 s; rfl
  | succ f ih =>
    intro i0 s
    rw [stGo_succ, List.length_cons, ih]

theorem stGo_pair (factor : ℚ) (hl2 atrv close : List JSNum)
    (hfin : ∀ j, (jget atrv j).isSome = true → (jget hl2 j).isSome = true) :
    ∀ (fuel i0 : ℕ) (s : STState) (k : ℕ) (r : STRow), STInv atrv hl2 i0 s →
    (stGo factor hl2 atrv close i0 fuel s).get? k = some r →
    ∃ s1, STInv atrv hl2 (i0 + k) s1 ∧
      r = (stStep factor (jget hl2 (i0 + k)) (jget atrv (i0 + k)) (jget close (i0 + k))
        (if i0 + k = 0 then none else jget close (i0 + k - 1)) s1).1 ∧
      (∀ r2, (stGo factor hl2 atrv close i0 fuel s).get? (k + 1) = some r2 →
        r2 = (stStep factor (jget hl2 (i0 + k + 1)) (jget atrv (i0 + k + 1))
          (jget close (i0 + k + 1)) (jget close (i0 + k))
          (stStep factor (jget hl2 (i0 + k)) (jget atrv (i0 + k)) (jget close (i0 + k))
            (if i0 + k = 0 then none else jget close (i0 + k - 1)) s1).2).1) := by
  intro fuel
  induction fuel with
  | zero => intro i0 s k r _ hr; exact absurd hr (by simp [stGo])
  | succ f ih =>
    intro i0 s k r hinv hr
    cases k with
    | zero =>
      rw [stGo_succ, List.get?_cons_zero] at hr
      refine ⟨s, by simpa using hinv, by simpa using (Option.some.inj hr).symm, ?_⟩
      intro r2 hr2
      rw [stGo_succ, List.get?_cons_succ] at hr2
      cases f with
      | zero => exact absurd hr2 (by simp [stGo])
      | succ f2 =>
        rw [stGo_succ, List.get?_cons_zero] at hr2
        have h2 := (Option.some.inj hr2).symm
        rw [h2]
        have he : i0 + 1 - 1 = i0 := by omega
        have he2 : i0 + 0 = i0 := by omega
        rw [he2]
        by_cases hz : i0 + 1 = 0
        · omega
        · rw [if_neg hz, he]
    | succ k2 =>
      rw [stGo_succ, List.get?_cons_succ] at hr
      have hinv2 := stStep_inv factor hl2 atrv close hfin i0 s hinv
      rcases ih (i0 + 1)
          ((stStep factor (jget hl2 i0) (jget atrv i0) (jget close i0)
            (if i0 = 0 then none else jget close (i0 - 1)) s).2) k2 r hinv2 hr with
        ⟨s1, hs1inv, hs1r, hs1next⟩
      have harith : i0 + 1 + k2 = i0 + (k2 + 1) := by omega
      rw [harith] at hs1inv hs1r hs1next
      refine ⟨s1, hs1inv, hs1r, ?_⟩
      intro r2 hr2
      rw [stGo_succ, List.get?_cons_succ] at hr2
      have := hs1next r2 hr2
      rw [this]


theorem jget_isSome_get? (s : List JSNum) (i : ℕ) :
    (jget s i).isSome = true ↔ ∃ q, s.get? i = some (some q) := by
  constructor
  · intro h
    rcases Option.isSome_iff_exists.mp h with ⟨q, hq⟩
    exact ⟨q, get?_of_jget_some s i q hq⟩
  · intro h
    rcases h with ⟨q, hq⟩
    rw [jget, hq]
    rfl

theorem rma_some_mono (source : List JSNum) (len : ℕ) :
    ∀ i j, i ≤ j → j < (rma source len).length →
    ∀ q, (rma source len).get? i = some (some q) →
    ∃ p, (rma source len).get? j = some (some p) := by
  intro i j hij hj q hq
  cases hseed : rmaSeed len source 0 0 0 with
  | none =>
    rw [rma, hseed] at hq
    rcases Nat.lt_or_ge i source.length with hi | hi
    · rw [List.get?_map, List.get?_eq_get hi] at hq
      simp at hq
    · rw [List.get?_map, List.get?_eq_none.mpr (by simpa using hi)] at hq
      simp at hq
  | some pr =>
    rcases pr with ⟨fi, seed⟩
    have hfi_le : fi ≤ i := by
      by_contra hlt
      rw [rma_get?_before source len fi seed hseed i (by omega)] at hq
      simp at hq
    rcases Nat.lt_or_ge fi j with hfj | hfj
    · have hk : j = fi + 1 + (j - fi - 1) := by omega
      rw [hk, rma_get?_after source len fi seed hseed]
      have hn := rma_length source len
      have hklen : j - fi - 1 <
          (rmaRun (qdiv 1 ((len : ℚ))) seed (source.drop (fi + 1))).length := by
        rw [rmaRun_length]
        simp only [List.length_drop]
        omega
      rw [List.get?_eq_get hklen]
      exact ⟨_, rfl⟩
    · have hje : j = fi := by omega
      rw [hje, rma_get?_seed source len fi seed hseed]
      exact ⟨seed, rfl⟩

theorem rma_jget_mono (source : List JSNum) (len i j : ℕ) (hij : i ≤ j)
    (hj : j < (rma source len).length)
    (h : (jget (rma source len) i).isSome = true) :
    (jget (rma source len) j).isSome = true := by
  rcases (jget_isSome_get? _ i).mp h with ⟨q, hq⟩
  rcases rma_some_mono source len i j hij hj q hq with ⟨p, hp⟩
  exact (jget_isSome_get? _ j).mpr ⟨p, hp⟩

theorem tr_length (high low close : List JSNum) :
    (tr high low close).length = high.length - 1 + 1 := by
  rw [tr]
  simp

theorem atr_length (high low close : List JSNum) (len : ℕ) :
    (atr high low close len).length = high.length - 1 + 1 := by
  rw [atr, rma_length, tr_length]

theorem supertrendRows_length (high low close : List JSNum) (factor : ℚ) (atrPeriod : ℕ) :
    (supertrendRows high low close factor atrPeriod).length = high.length := by
  rw [supertrendRows, stGo_length]

theorem get?_lt_length {α : Type} (l : List α) (i : ℕ) (a : α) (h : l.get? i = some a) :
    i < l.length := by
  by_contra hge
  rw [List.get?_eq_none.mpr (by omega)] at h
  exact absurd h (by simp)


-- ============================================================
-- Claim C5: SuperTrend direction discipline
-- ============================================================

/-- C5 counterexample: on the strictly monotonic series `high = low =
close = [1,2,3]` with `factor = 100`, `atrPeriod = 1`, the emitted
directions are `[1, -1, 1]` — two flips, and the flip at bar 2 (from -1
back to 1) happens although the close 3 is neither below the adjusted
lower band 1 nor above the adjusted upper band 103.  The zero-width
channel of bar 1 (`upper = lower = 1`) makes the regime test
`prevST === prevUpper` misread the short regime as long. -/
theorem C5_cex :
    (supertrend [some 1, some 2, some 3] [some 1, some 2, some 3] [some 1, some 2, some 3]
      100 1).2 = [1, -1, 1] ∧
    (supertrendRows [some 1, some 2, some 3] [some 1, some 2, some 3] [some 1, some 2, some 3]
      100 1).get? 2 =
      some { value := some 103, dir := 1, upper := some 103, lower := some 1 } ∧
    jlt (jget [some 1, some 2, some 3] 2) (some 1) = false ∧
    jgt (jget [some 1, some 2, some 3] 2) (some 103) = false :=
  ⟨by decide, by decide, by decide, by decide⟩

/-- C5 (amended): with equal-length finite `high`/`low`, whenever two
consecutive SuperTrend rows disagree in direction and the earlier row's
adjusted bands are distinct (nonzero channel width), the flip is justified
by a close strictly beyond the opposite band: a 1 → -1 flip has the close
above the current adjusted upper band, a -1 → 1 flip has it below the
current adjusted lower band.  (With coinciding bands the regime test
`prevST === prevUpper` can misfire, see `C5_cex`.)  Unconditionally, the
emitted value is the band selected by the current direction, and the two
returned sequences are the per-row values and directions. -/
theorem C5_supertrend (high low close : List JSNum) (factor : ℚ) (atrPeriod : ℕ)
    (hlh : low.length = high.length) (hfh : ∀ x ∈ high, x.isSome = true)
    (hfl : ∀ x ∈ low, x.isSome = true) (i : ℕ) (r1 r2 : STRow)
    (hr1 : (supertrendRows high low close factor atrPeriod).get? (i - 1) = some r1)
    (hr2 : (supertrendRows high low close factor atrPeriod).get? i = some r2)
    (hi : 1 ≤ i) (hflip : r2.dir ≠ r1.dir) (hband : r1.upper ≠ r1.lower) :
    ((r1.dir = 1 ∧ jgt (jget close i) r2.upper = true) ∨
     (r1.dir = -1 ∧ jlt (jget close i) r2.lower = true)) ∧
    r2.value = (if r2.dir = -1 then r2.lower else r2.upper) ∧
    (supertrend high low close factor atrPeriod).1 =
      (supertrendRows high low close factor atrPeriod).map (fun r => r.value) ∧
    (supertrend high low close factor atrPeriod).2 =
      (supertrendRows high low close factor atrPeriod).map (fun r => r.dir) := by
  have hn2 : i < high.length := by
    have h := get?_lt_length _ i r2 hr2
    rw [supertrendRows_length] at h
    exact h
  have hatrlen : (atr high low close atrPeriod).length = high.length := by
    rw [atr_length]
    omega
  have hfin : ∀ j, (jget (atr high low close atrPeriod) j).isSome = true →
      (jget (hl2Seq high low) j).isSome = true := by
    intro j hj
    rcases (jget_isSome_get? _ j).mp hj with ⟨q, hq⟩
    have hjlt : j < (atr high low close atrPeriod).length := get?_lt_length _ j _ hq
    rw [hatrlen] at hjlt
    rcases get?_some_of_all high hfh j hjlt with ⟨hv, hhv⟩
    rcases get?_some_of_all low hfl j (by omega) with ⟨lv, hlv⟩
    have hjh : jget high j = some hv := by rw [jget, hhv]; rfl
    have hjl : jget low j = some lv := by rw [jget, hlv]; rfl
    rw [hl2Seq, jget_map_range _ _ _ hjlt, hjh, hjl, jadd_some,
      jdiv_some_ne _ _ (by norm_num)]
    rfl
  have hrows : supertrendRows high low close factor atrPeriod =
      stGo factor (hl2Seq high low) (atr high low close atrPeriod) close 0
        high.length stInit := rfl
  rcases stGo_pair factor (hl2Seq high low) (atr high low close atrPeriod) close hfin
      high.length 0 stInit (i - 1) r1 (stInv_init _ _ _) (by rw [← hrows]; exact hr1) with
    ⟨s1, hinv, hr1eq, hnext⟩
  have hzi : 0 + (i - 1) = i - 1 := by omega
  rw [hzi] at hinv hr1eq hnext
  have hi1 : i - 1 + 1 = i := by omega
  have hr2eq := hnext r2 (by rw [← hrows, hi1]; exact hr2)
  rw [hi1] at hr2eq
  have hvalueconj : r2.value = (if r2.dir = -1 then r2.lower else r2.upper) := by
    rw [hr2eq]
    exact stRow_value _ _ _ _ _ _
  refine ⟨?_, hvalueconj, rfl, rfl⟩
  cases hA2 : jget (atr high low close atrPeriod) i with
  | none =>
    exfalso
    rw [hA2, stStep_none] at hr2eq
    have hA1 : jget (atr high low close atrPeriod) (i - 1) = none := by
      cases hA1s : jget (atr high low close atrPeriod) (i - 1) with
      | none => rfl
      | some a1 =>
        exfalso
        rw [atr] at hA1s hA2
        have hmono := rma_jget_mono (tr high low close) atrPeriod (i - 1) i (by omega)
          (by rw [rma_length, tr_length]; omega) (by rw [hA1s]; rfl)
        rw [hA2] at hmono
        exact absurd hmono (by simp)
    rw [hA1, stStep_none] at hr1eq
    apply hflip
    rw [hr1eq, hr2eq]
  | some a2 =>
    cases hA1 : jget (atr high low close atrPeriod) (i - 1) with
    | none =>
      exfalso
      rw [hA1, stStep_none] at hr1eq
      have hs2eq : (stStep factor (jget (hl2Seq high low) (i - 1))
          (jget (atr high low close atrPeriod) (i - 1)) (jget close (i - 1))
          (if i - 1 = 0 then none else jget close (i - 1 - 1)) s1).2 = s1 := by
        rw [hA1, stStep_none]
      rw [hs2eq] at hr2eq
      have hs1init : s1 = stInit := by
        rcases hinv.2 with h | ⟨⟨j, hj, hjs⟩, _⟩
        · exact h
        · exfalso
          rcases (jget_isSome_get? _ j).mp hjs with ⟨q, hq⟩
          rw [atr] at hq hA1
          rcases rma_some_mono (tr high low close) atrPeriod j (i - 1) (by omega)
            (by rw [rma_length, tr_length]; omega) q hq with ⟨p, hp⟩
          have h2 : jget (rma (tr high low close) atrPeriod) (i - 1) = some p := by
            rw [jget, hp]
            rfl
          rw [hA1] at h2
          exact absurd h2 (by simp)
      rw [hs1init, hA2, stStep_some] at hr2eq
      apply hflip
      rw [hr1eq, hr2eq]
      show stDirV (jget close i) stInit
          (stUpper1 factor (jget (hl2Seq high low) i) (some a2) (jget close (i - 1)) stInit)
          (stLower1 factor (jget (hl2Seq high low) i) (some a2) (jget close (i - 1)) stInit) = 1
      exact stDirV_eq_none (jget close i)
        (stUpper1 factor (jget (hl2Seq high low) i) (some a2) (jget close (i - 1)) stInit)
        (stLower1 factor (jget (hl2Seq high low) i) (some a2) (jget close (i - 1)) stInit)
        stInit rfl
    | some a1 =>
      rw [hA1] at hr1eq hr2eq
      rw [hA2] at hr2eq
      set S2 := (stStep factor (jget (hl2Seq high low) (i - 1)) (some a1)
        (jget close (i - 1)) (if i - 1 = 0 then none else jget close (i - 1 - 1)) s1).2
        with hS2
      have hinv2 := stStep_inv factor (hl2Seq high low) (atr high low close atrPeriod)
        close hfin (i - 1) s1 hinv
      rw [hA1] at hinv2
      rw [← hS2] at hinv2
      rw [hi1] at hinv2
      have hS2L : S2.prevLower = r1.lower := by
        rw [hS2, hr1eq, stStep_some]
      have hS2U : S2.prevUpper = r1.upper := by
        rw [hS2, hr1eq, stStep_some]
      have hS2ST : S2.prevST = r1.value := by
        rw [hS2, hr1eq, stStep_some]
      have hval1 : r1.value = (if r1.dir = -1 then r1.lower else r1.upper) := by
        rw [hr1eq]
        exact stRow_value _ _ _ _ _ _
      have hdir1 : r1.dir = 1 ∨ r1.dir = -1 := by
        rw [hr1eq, stStep_some]
        exact stDirV_cases _ _ _ _
      have hbands : S2.prevLower.isSome = true ∧ S2.prevUpper.isSome = true := by
        rcases hinv2.2 with hinit | ⟨_, hb1, hb2⟩
        · exfalso
          apply hband
          rw [← hS2U, ← hS2L, hinit]
          rfl
        · exact ⟨hb1, hb2⟩
      rw [stStep_some] at hr2eq
      set U2 := stUpper1 factor (jget (hl2Seq high low) i) (some a2)
        (jget close (i - 1)) S2 with hU2
      set L2 := stLower1 factor (jget (hl2Seq high low) i) (some a2)
        (jget close (i - 1)) S2 with hL2
      have hr2upper : r2.upper = U2 := by rw [hr2eq]
      have hr2lower : r2.lower = L2 := by rw [hr2eq]
      have hr2dir0 : r2.dir = stDirV (jget close i) S2 U2 L2 := by rw [hr2eq]
      rcases hdir1 with hd1 | hd1
      · left
        refine ⟨hd1, ?_⟩
        have hst : S2.prevST = r1.upper := by
          rw [hS2ST, hval1, hd1, if_neg (by decide)]
        rcases Option.isSome_iff_exists.mp hbands.2 with ⟨u1, hu1⟩
        have hr1u : r1.upper = some u1 := by
          rw [← hS2U]
          exact hu1
        have hstq : S2.prevST = some u1 := hst.trans hr1u
        have hdirv := stDirV_eq_some (jget close i) U2 L2 S2 u1 hstq
        rw [if_pos hu1.symm] at hdirv
        by_cases hgt : jgt (jget close i) U2 = true
        · rw [hr2upper]
          exact hgt
        · exfalso
          apply hflip
          rw [hr2dir0, hdirv, if_neg hgt, hd1]
      · right
        refine ⟨hd1, ?_⟩
        have hst : S2.prevST = r1.lower := by
          rw [hS2ST, hval1, hd1, if_pos rfl]
        rcases Option.isSome_iff_exists.mp hbands.1 with ⟨l1, hl1⟩
        have hr1l : r1.lower = some l1 := by
          rw [← hS2L]
          exact hl1
        have hstq : S2.prevST = some l1 := hst.trans hr1l
        have hdirv := stDirV_eq_some (jget close i) U2 L2 S2 l1 hstq
        have hne : ¬ (some l1 = S2.prevUpper) := by
          intro hcontra
          apply hband
          rw [← hS2U, ← hcontra, hr1l]
        rw [if_neg hne] at hdirv
        by_cases hlt : jlt (jget close i) L2 = true
        · rw [hr2lower]
          exact hlt
        · exfalso
          apply hflip
          rw [hr2dir0, hdirv, if_neg hlt, hd1]

/-- Witness for C5: on `high = [2,3,10]`, `low = [0,1,2]`, `close =
[1,2,9]` with `factor = 1`, `atrPeriod = 1`, the flip at bar 2 is justified
by the close 9 above the adjusted upper band 3. -/
theorem C5_supertrend_wit :
    ((({ value := some 3, dir := 1, upper := some 3, lower := some 0 } : STRow).dir = 1 ∧
      jgt (jget [some 1, some 2, some 9] 2)
        ({ value := some 0, dir := -1, upper := some 3, lower := some 0 } : STRow).upper
          = true) ∨
     (({ value := some 3, dir := 1, upper := some 3, lower := some 0 } : STRow).dir = -1 ∧
      jlt (jget [some 1, some 2, some 9] 2)
        ({ value := some 0, dir := -1, upper := some 3, lower := some 0 } : STRow).lower
          = true)) ∧
    ({ value := some 0, dir := -1, upper := some 3, lower := some 0 } : STRow).value =
      (if ({ value := some 0, dir := -1, upper := some 3, lower := some 0 } : STRow).dir = -1
       then ({ value := some 0, dir := -1, upper := some 3, lower := some 0 } : STRow).lower
       else ({ value := some 0, dir := -1, upper := some 3, lower := some 0 } : STRow).upper) ∧
    (supertrend [some 2, some 3, some 10] [some 0, some 1, some 2] [some 1, some 2, some 9]
      1 1).1 =
      (supertrendRows [some 2, some 3, some 10] [some 0, some 1, some 2]
        [some 1, some 2, some 9] 1 1).map (fun r => r.value) ∧
    (supertrend [some 2, some 3, some 10] [some 0, some 1, some 2] [some 1, some 2, some 9]
      1 1).2 =
      (supertrendRows [some 2, some 3, some 10] [some 0, some 1, some 2]
        [some 1, some 2, some 9] 1 1).map (fun r => r.dir) :=
  C5_supertrend [some 2, some 3, some 10] [some 0, some 1, some 2] [some 1, some 2, some 9]
    1 1 (by decide) (by decide) (by decide) 2
    { value := some 3, dir := 1, upper := some 3, lower := some 0 }
    { value := some 0, dir := -1, upper := some 3, lower := some 0 }
    (by decide) (by decide) (by decide) (by decide) (by decide)

end ta

namespace ta

-- ============================================================
-- C6: Parabolic SAR clamp against prior extremes
-- ============================================================

/-- Finiteness of a SAR loop state: both the extreme point and the current
SAR value are finite numbers. -/
def SarFin (s : SarState) : Prop := s.ep.isSome = true ∧ s.sarVal.isSome = true

theorem sarStep_fin (start inc maxAF : ℚ) (hi lo hi1 lo1 hi2 lo2 : JSNum) (s : SarState)
    (hhi : hi.isSome = true) (hlo : lo.isSome = true) (hhi1 : hi1.isSome = true)
    (hlo1 : lo1.isSome = true) (hhi2 : hi2.isSome = true) (hlo2 : lo2.isSome = true)
    (hfs : SarFin s) : SarFin (sarStep start inc maxAF hi lo hi1 lo1 hi2 lo2 s) := by
  rcases hfs with ⟨hep, hsv⟩
  rcases Option.isSome_iff_exists.mp hep with ⟨e, he⟩
  rcases Option.isSome_iff_exists.mp hsv with ⟨v, hv⟩
  rcases Option.isSome_iff_exists.mp hhi with ⟨a, ha⟩
  rcases Option.isSome_iff_exists.mp hlo with ⟨b, hb⟩
  rcases Option.isSome_iff_exists.mp hhi1 with ⟨c, hc⟩
  rcases Option.isSome_iff_exists.mp hlo1 with ⟨d, hd⟩
  rcases Option.isSome_iff_exists.mp hhi2 with ⟨f, hf⟩
  rcases Option.isSome_iff_exists.mp hlo2 with ⟨g, hg⟩
  simp only [sarStep, he, hv, ha, hb, hc, hd, hf, hg, jsub_some, jmul_some, jadd_some,
    jmin_some, jmax_some]
  split_ifs <;> exact ⟨rfl, rfl⟩

theorem sarGo_succ (start inc maxAF : ℚ) (high low : List JSNum) (i fuel : ℕ)
    (s : SarState) :
    sarGo start inc maxAF high low i (fuel + 1) s =
      sarStep start inc maxAF (jget high i) (jget low i) (jget high (i - 1))
          (jget low (i - 1)) (jget high (if 1 < i then i - 2 else i - 1))
          (jget low (if 1 < i then i - 2 else i - 1)) s ::
        sarGo start inc maxAF high low (i + 1) fuel
          (sarStep start inc maxAF (jget high i) (jget low i) (jget high (i - 1))
            (jget low (i - 1)) (jget high (if 1 < i then i - 2 else i - 1))
            (jget low (if 1 < i then i - 2 else i - 1)) s) := rfl

theorem sarGo_length (start inc maxAF : ℚ) (high low : List JSNum) :
    ∀ (fuel i0 : ℕ) (s : SarState),
    (sarGo start inc maxAF high low i0 fuel s).length = fuel := by
  intro fuel
  induction fuel with
  | zero => intro i0 s; rfl
  | succ f ih => intro i0 s; rw [sarGo_succ, List.length_cons, ih]

theorem sarGo_pair (start inc maxAF : ℚ) (high low : List JSNum)
    (hfh : ∀ x ∈ high, x.isSome = true) (hfl : ∀ x ∈ low, x.isSome = true)
    (hlh : low.length = high.length) :
    ∀ (fuel i0 : ℕ) (s : SarState) (k : ℕ) (s2 : SarState),
    i0 + fuel ≤ high.length → SarFin s →
    (sarGo start inc maxAF high low i0 fuel s).get? k = some s2 →
    ∃ s1, SarFin s1 ∧
      s2 = sarStep start inc maxAF (jget high (i0 + k)) (jget low (i0 + k))
        (jget high (i0 + k - 1)) (jget low (i0 + k - 1))
        (jget high (if 1 < i0 + k then i0 + k - 2 else i0 + k - 1))
        (jget low (if 1 < i0 + k then i0 + k - 2 else i0 + k - 1)) s1 ∧
      ((k = 0 ∧ s1 = s) ∨
        (1 ≤ k ∧ (sarGo start inc maxAF high low i0 fuel s).get? (k - 1) = some s1)) := by
  intro fuel
  induction fuel with
  | zero => intro i0 s k s2 _ _ hr; exact absurd hr (by simp [sarGo])
  | succ f ih =>
    intro i0 s k s2 hle hfs hr
    cases k with
    | zero =>
      rw [sarGo_succ, List.get?_cons_zero] at hr
      refine ⟨s, hfs, ?_, Or.inl ⟨rfl, rfl⟩⟩
      have h0 : i0 + 0 = i0 := by omega
      rw [h0]
      exact (Option.some.inj hr).symm
    | succ k2 =>
      rw [sarGo_succ, List.get?_cons_succ] at hr
      have hfs2 : SarFin (sarStep start inc maxAF (jget high i0) (jget low i0)
          (jget high (i0 - 1)) (jget low (i0 - 1))
          (jget high (if 1 < i0 then i0 - 2 else i0 - 1))
          (jget low (if 1 < i0 then i0 - 2 else i0 - 1)) s) := by
        apply sarStep_fin
        · exact jget_isSome high hfh i0 (by omega)
        · exact jget_isSome low hfl i0 (by omega)
        · exact jget_isSome high hfh (i0 - 1) (by omega)
        · exact jget_isSome low hfl (i0 - 1) (by omega)
        · by_cases h1 : 1 < i0
          · rw [if_pos h1]; exact jget_isSome high hfh (i0 - 2) (by omega)
          · rw [if_neg h1]; exact jget_isSome high hfh (i0 - 1) (by omega)
        · by_cases h1 : 1 < i0
          · rw [if_pos h1]; exact jget_isSome low hfl (i0 - 2) (by omega)
          · rw [if_neg h1]; exact jget_isSome low hfl (i0 - 1) (by omega)
        · exact hfs
      rcases ih (i0 + 1) _ k2 s2 (by omega) hfs2 hr with ⟨s1, hfin1, heq, hlink⟩
      have harith : i0 + 1 + k2 = i0 + (k2 + 1) := by omega
      rw [harith] at heq
      refine ⟨s1, hfin1, heq, ?_⟩
      rcases hlink with ⟨hk0, hs1s⟩ | ⟨hk1, hrest⟩
      · subst hk0
        refine Or.inr ⟨by omega, ?_⟩
        rw [sarGo_succ, hs1s]
        rfl
      · refine Or.inr ⟨by omega, ?_⟩
        rw [sarGo_succ]
        have hk2 : k2 + 1 - 1 = (k2 - 1) + 1 := by omega
        rw [hk2, List.get?_cons_succ]
        exact hrest

theorem sar_cons (high low : List JSNum) (start inc maxAF : ℚ) (n : ℕ)
    (hlen : high.length = n + 1) :
    sar high low start inc maxAF =
      jget low 0 :: (sarGo start inc maxAF high low 1 n (sarInit start low)).map
        (fun s => s.sarVal) := by
  rw [sar, hlen]

theorem sarStep_long (start inc maxAF : ℚ) (hi lo hi1 hi2 : JSNum) (l1 l2 e v : ℚ)
    (s : SarState) (hL : s.isLong = true) (hep : s.ep = some e) (hsv : s.sarVal = some v)
    (hkeep : (sarStep start inc maxAF hi lo hi1 (some l1) hi2 (some l2) s).isLong = true) :
    (sarStep start inc maxAF hi lo hi1 (some l1) hi2 (some l2) s).sarVal =
      some (Min.min (Min.min (v + s.af * (e - v)) l1) l2) := by
  simp only [sarStep, hep, hsv, jsub_some, jmul_some, jadd_some, jmin_some] at hkeep ⊢
  rw [if_pos hL] at hkeep ⊢
  by_cases hflip : jlt lo (some (Min.min (Min.min (v + s.af * (e - v)) l1) l2)) = true
  · rw [if_pos hflip] at hkeep
    simp at hkeep
  · rw [if_neg hflip]
    by_cases hup : jgt hi (some e) = true
    · rw [if_pos hup]
    · rw [if_neg hup]

theorem sarStep_short (start inc maxAF : ℚ) (hi lo lo1 lo2 : JSNum) (g1 g2 e v : ℚ)
    (s : SarState) (hL : s.isLong = false) (hep : s.ep = some e) (hsv : s.sarVal = some v)
    (hkeep : (sarStep start inc maxAF hi lo (some g1) lo1 (some g2) lo2 s).isLong = false) :
    (sarStep start inc maxAF hi lo (some g1) lo1 (some g2) lo2 s).sarVal =
      some (Max.max (Max.max (v + s.af * (e - v)) g1) g2) := by
  simp only [sarStep, hep, hsv, jsub_some, jmul_some, jadd_some, jmax_some] at hkeep ⊢
  rw [if_neg (by rw [hL]; exact Bool.false_ne_true)] at hkeep ⊢
  by_cases hflip : jgt hi (some (Max.max (Max.max (v + s.af * (e - v)) g1) g2)) = true
  · rw [if_pos hflip] at hkeep
    simp at hkeep
  · rw [if_neg hflip]
    by_cases hdn : jlt lo (some e) = true
    · rw [if_pos hdn]
    · rw [if_neg hdn]

/-- C6 (counterexample to the spec sentence): SAR on `high = [10, 9.5, 9]`,
`low = [9, 9.2, 8]` with `start = inc = 0.02`, `maxAF = 0.2`.  Bar 2 flips
to the short regime and emits the prior extreme point `9.5`, which lies
strictly below `max(high[1], high[0]) = 10`: the clamp against the prior
two bars' opposite extreme is violated at the flip bar (the flip branch
emits the raw extreme point, and the initial phase never recorded
`high[0]`). -/
theorem C6_cex :
    ((sarGo (mkRat 1 50) (mkRat 1 50) (mkRat 1 5) [some 10, some (mkRat 19 2), some 9]
        [some 9, some (mkRat 46 5), some 8] 1 2
        (sarInit (mkRat 1 50) [some 9, some (mkRat 46 5), some 8])).get? 1).map
          (fun s => s.isLong) = some false ∧
    (sar [some 10, some (mkRat 19 2), some 9] [some 9, some (mkRat 46 5), some 8]
        (mkRat 1 50) (mkRat 1 50) (mkRat 1 5)).get? 2 = some (some (mkRat 19 2)) ∧
    jle (jmax (jget [some 10, some (mkRat 19 2), some 9] 1)
        (jget [some 10, some (mkRat 19 2), some 9] 0)) (some (mkRat 19 2)) = false :=
  ⟨by decide, by decide, by decide⟩

/-- C6 (amended): with finite equal-length `high`/`low` and `2 ≤ i`, let
`s1` and `s2` be the SAR loop states after bars `i-1` and `i`.  At bars
where the regime does not flip, the emitted SAR value obeys the clamp of
the spec sentence: if both states are long, `sar[i] ≤ min(low[i-1],
low[i-2])`; if both are short, `sar[i] ≥ max(high[i-1], high[i-2])`.
Unconditionally, the emitted value at bar `i` is `s2.sarVal`.  (At flip
bars the emitted value is the prior extreme point, which can violate the
clamp, see `C6_cex`.) -/
theorem C6_sar (high low : List JSNum) (start inc maxAF : ℚ)
    (hlh : low.length = high.length)
    (hfh : ∀ x ∈ high, x.isSome = true) (hfl : ∀ x ∈ low, x.isSome = true)
    (i : ℕ) (hi : 2 ≤ i) (s1 s2 : SarState)
    (h1 : (sarGo start inc maxAF high low 1 (high.length - 1)
      (sarInit start low)).get? (i - 2) = some s1)
    (h2 : (sarGo start inc maxAF high low 1 (high.length - 1)
      (sarInit start low)).get? (i - 1) = some s2) :
    (s1.isLong = true → s2.isLong = true →
      jle s2.sarVal (jmin (jget low (i - 1)) (jget low (i - 2))) = true) ∧
    (s1.isLong = false → s2.isLong = false →
      jle (jmax (jget high (i - 1)) (jget high (i - 2))) s2.sarVal = true) ∧
    (sar high low start inc maxAF).get? i = some s2.sarVal := by
  have hn : i < high.length := by
    have hk := get?_lt_length _ _ _ h2
    rw [sarGo_length] at hk
    omega
  have hlow0 : (jget low 0).isSome = true := jget_isSome low hfl 0 (by omega)
  have hfs0 : SarFin (sarInit start low) := ⟨hlow0, hlow0⟩
  rcases sarGo_pair start inc maxAF high low hfh hfl hlh (high.length - 1) 1
      (sarInit start low) (i - 1) s2 (by omega) hfs0 h2 with ⟨t1, hft1, heq, hlink⟩
  have hbar : 1 + (i - 1) = i := by omega
  rw [hbar] at heq
  have hif : (if 1 < i then i - 2 else i - 1) = i - 2 := if_pos (by omega)
  rw [hif] at heq
  have ht1s1 : t1 = s1 := by
    rcases hlink with ⟨hk0, h0⟩ | ⟨hk1, hrest⟩
    · omega
    · have hidx : (i : ℕ) - 1 - 1 = i - 2 := by omega
      rw [hidx, h1] at hrest
      exact (Option.some.inj hrest).symm
  subst ht1s1
  rcases Option.isSome_iff_exists.mp hft1.1 with ⟨e, he⟩
  rcases Option.isSome_iff_exists.mp hft1.2 with ⟨v, hv⟩
  rcases Option.isSome_iff_exists.mp (jget_isSome low hfl (i - 1) (by omega)) with ⟨l1, hl1⟩
  rcases Option.isSome_iff_exists.mp (jget_isSome low hfl (i - 2) (by omega)) with ⟨l2, hl2⟩
  rcases Option.isSome_iff_exists.mp (jget_isSome high hfh (i - 1) (by omega)) with ⟨g1, hg1⟩
  rcases Option.isSome_iff_exists.mp (jget_isSome high hfh (i - 2) (by omega)) with ⟨g2, hg2⟩
  rw [hl1, hl2, hg1, hg2] at heq
  refine ⟨?_, ?_, ?_⟩
  · intro hL1 hL2
    rw [heq] at hL2
    rw [heq, sarStep_long start inc maxAF (jget high i) (jget low i) (some g1) (some g2)
      l1 l2 e v t1 hL1 he hv hL2, hl1, hl2, jmin_some, jle_some]
    exact le_min (le_trans (min_le_left _ _) (min_le_right _ _)) (min_le_right _ _)
  · intro hL1 hL2
    rw [heq] at hL2
    rw [heq, sarStep_short start inc maxAF (jget high i) (jget low i) (some l1) (some l2)
      g1 g2 e v t1 hL1 he hv hL2, hg1, hg2, jmax_some, jle_some]
    exact max_le (le_trans (le_max_right _ _) (le_max_left _ _)) (le_max_right _ _)
  · rcases Nat.exists_eq_succ_of_ne_zero (n := high.length) (by omega) with ⟨n, hlen⟩
    rw [sar_cons high low start inc maxAF n hlen]
    have hi1 : i = (i - 1) + 1 := by omega
    rw [hi1, List.get?_cons_succ, List.get?_map]
    have hfuel : high.length - 1 = n := by omega
    rw [hfuel] at h2
    rw [h2]
    rfl

/-- Witness for C6: on `high = [2,3,4]`, `low = [1,2,3]` with defaults
`start = inc = 0.02`, `maxAF = 0.2`, both bar-1 and bar-2 states are long,
the bar-2 SAR value `1` obeys `1 ≤ min(low[1], low[0]) = 1`, and the
emitted output at index 2 is `1`. -/
theorem C6_sar_wit :
    jle (some 1) (jmin (jget [some 1, some 2, some 3] 1) (jget [some 1, some 2, some 3] 0))
        = true ∧
    (sar [some 2, some 3, some 4] [some 1, some 2, some 3] (mkRat 1 50) (mkRat 1 50)
      (mkRat 1 5)).get? 2 = some (some 1) := by
  have h := C6_sar [some 2, some 3, some 4] [some 1, some 2, some 3]
    (mkRat 1 50) (mkRat 1 50) (mkRat 1 5) (by decide) (by decide) (by decide) 2 (by decide)
    { af := mkRat 1 25, ep := some 3, isLong := true, sarVal := some 1 }
    { af := mkRat 3 50, ep := some 4, isLong := true, sarVal := some 1 }
    (by decide) (by decide)
  exact ⟨h.1 rfl rfl, h.2.2⟩

end ta

namespace ta

-- ============================================================
-- C8: no reversion from finite to NaN in the recursive family
-- ============================================================

theorem emaRun_all_some (m : ℚ) : ∀ (xs : List JSNum) (p : ℚ),
    (∀ x ∈ xs, x.isSome = true) → ∀ y ∈ emaRun m (some p) xs, y.isSome = true := by
  intro xs
  induction xs with
  | nil =>
    intro p _ y hy
    exact absurd hy (by simp [emaRun])
  | cons x rest ih =>
    intro p hall y hy
    rcases Option.isSome_iff_exists.mp (hall x (by simp)) with ⟨q, hq⟩
    subst hq
    simp only [emaRun, jsub_some, jmul_some, jadd_some] at hy
    rcases List.mem_cons.mp hy with h1 | h2
    · rw [h1]; rfl
    · exact ih ((q - p) * m + p) (fun z hz => hall z (by simp [hz])) y h2

theorem ema_all_some (source : List JSNum) (len : ℕ)
    (hall : ∀ x ∈ source, x.isSome = true) : ∀ y ∈ ema source len, y.isSome = true := by
  cases source with
  | nil => intro y hy; exact absurd hy (by simp [ema])
  | cons x xs =>
    intro y hy
    rcases Option.isSome_iff_exists.mp (hall x (by simp)) with ⟨q, hq⟩
    subst hq
    rw [ema] at hy
    rcases List.mem_cons.mp hy with h1 | h2
    · rw [h1]; rfl
    · exact emaRun_all_some _ xs q (fun z hz => hall z (by simp [hz])) y h2

theorem stUpper1_isSome (factor : ℚ) (hl2i : JSNum) (a : ℚ) (pc : JSNum) (s : STState)
    (hhl2 : hl2i.isSome = true) :
    (stUpper1 factor hl2i (some a) pc s).isSome = true := by
  rcases Option.isSome_iff_exists.mp hhl2 with ⟨hv, hev⟩
  subst hev
  rw [stUpper1]
  by_cases hg : (s.prevLower.isSome && s.prevUpper.isSome) = true
  · rw [if_pos hg]
    by_cases h2 : (jlt (jadd (some hv) (jmul (some factor) (some a))) s.prevUpper ||
        jgt pc s.prevUpper) = true
    · rw [if_pos h2]
      simp
    · rw [if_neg h2]
      exact (Bool.and_eq_true _ _ ▸ hg).2
  · rw [if_neg hg]
    simp

theorem stLower1_isSome (factor : ℚ) (hl2i : JSNum) (a : ℚ) (pc : JSNum) (s : STState)
    (hhl2 : hl2i.isSome = true) :
    (stLower1 factor hl2i (some a) pc s).isSome = true := by
  rcases Option.isSome_iff_exists.mp hhl2 with ⟨hv, hev⟩
  subst hev
  rw [stLower1]
  by_cases hg : (s.prevLower.isSome && s.prevUpper.isSome) = true
  · rw [if_pos hg]
    by_cases h2 : (jgt (jsub (some hv) (jmul (some factor) (some a))) s.prevLower ||
        jlt pc s.prevLower) = true
    · rw [if_pos h2]
      simp
    · rw [if_neg h2]
      exact (Bool.and_eq_true _ _ ▸ hg).1
  · rw [if_neg hg]
    simp

/-- C8 (counterexample to the spec sentence): `ema([1, NaN], 9)` emits the
finite value `1` at index 0 and `NaN` at the subsequent index 1: the EMA
recurrence propagates an input NaN into the output after a finite output,
so a member of the recursive family does revert from finite to NaN. -/
theorem C8_cex :
    (jget (ema [some 1, none] 9) 0).isSome = true ∧
    jget (ema [some 1, none] 9) 1 = none ∧
    (ema [some 1, none] 9).length = 2 :=
  ⟨by decide, by decide, by decide⟩

/-- C8 (amended): the no-reversion invariant holds for `rma` and `atr` on
every input (their recurrence holds the previous value on a NaN input),
and for `ema` and the SuperTrend value stream under NaN-free inputs: every
`ema` output on a NaN-free source is finite, and with finite equal-length
`high`/`low` a finite SuperTrend value at one index forces finite values at
all later in-range indices.  For `ema` (and hence the machines built on
its recurrence shape) the NaN-free hypothesis is necessary, see `C8_cex`. -/
theorem C8_recursive :
    (∀ (source : List JSNum) (len i j : ℕ), i ≤ j → j < (rma source len).length →
      (jget (rma source len) i).isSome = true → (jget (rma source len) j).isSome = true) ∧
    (∀ (high low close : List JSNum) (len i j : ℕ), i ≤ j →
      j < (atr high low close len).length →
      (jget (atr high low close len) i).isSome = true →
      (jget (atr high low close len) j).isSome = true) ∧
    (∀ (source : List JSNum) (len : ℕ), (∀ x ∈ source, x.isSome = true) →
      ∀ i, i < source.length → (jget (ema source len) i).isSome = true) ∧
    (∀ (high low close : List JSNum) (factor : ℚ) (atrPeriod : ℕ),
      low.length = high.length →
      (∀ x ∈ high, x.isSome = true) → (∀ x ∈ low, x.isSome = true) →
      ∀ i j, i ≤ j → j < high.length →
      (jget (supertrend high low close factor atrPeriod).1 i).isSome = true →
      (jget (supertrend high low close factor atrPeriod).1 j).isSome = true) := by
  refine ⟨?_, ?_, ?_, ?_⟩
  · exact fun source len i j hij hj h => rma_jget_mono source len i j hij hj h
  · intro high low close len i j hij hj h
    rw [atr] at hj h ⊢
    exact rma_jget_mono _ len i j hij hj h
  · intro source len hall i hi
    apply jget_isSome
    · exact ema_all_some source len hall
    · rw [ema_length]
      exact hi
  · intro high low close factor atrPeriod hlh hfh hfl i j hij hj hsome
    have hatrlen : (atr high low close atrPeriod).length = high.length := by
      rw [atr_length]
      omega
    have hfin : ∀ k, (jget (atr high low close atrPeriod) k).isSome = true →
        (jget (hl2Seq high low) k).isSome = true := by
      intro k hk
      rcases (jget_isSome_get? _ k).mp hk with ⟨q, hq⟩
      have hklt : k < (atr high low close atrPeriod).length := get?_lt_length _ k _ hq
      rw [hatrlen] at hklt
      rcases get?_some_of_all high hfh k hklt with ⟨hv, hhv⟩
      rcases get?_some_of_all low hfl k (by omega) with ⟨lv, hlv⟩
      have hkh : jget high k = some hv := by rw [jget, hhv]; rfl
      have hkl : jget low k = some lv := by rw [jget, hlv]; rfl
      rw [hl2Seq, jget_map_range _ _ _ hklt, hkh, hkl, jadd_some,
        jdiv_some_ne _ _ (by norm_num)]
      rfl
    have hmap : (supertrend high low close factor atrPeriod).1 =
        (supertrendRows high low close factor atrPeriod).map (fun r => r.value) := rfl
    have hrows : supertrendRows high low close factor atrPeriod =
        stGo factor (hl2Seq high low) (atr high low close atrPeriod) close 0
          high.length stInit := rfl
    rw [hmap] at hsome ⊢
    rcases (jget_isSome_get? _ i).mp hsome with ⟨q, hq⟩
    rw [List.get?_map] at hq
    cases hrowi : (supertrendRows high low close factor atrPeriod).get? i with
    | none =>
      rw [hrowi] at hq
      exact absurd hq (by simp)
    | some ri =>
      rw [hrowi, omap_some] at hq
      have hval : ri.value = some q := Option.some.inj hq
      rcases stGo_pair factor (hl2Seq high low) (atr high low close atrPeriod) close hfin
          high.length 0 stInit i ri (stInv_init _ _ _) (by rw [← hrows]; exact hrowi)
        with ⟨s1, hinv1, heqi, hnext1⟩
      have hz : 0 + i = i := by omega
      rw [hz] at heqi
      have hatri : (jget (atr high low close atrPeriod) i).isSome = true := by
        cases hA : jget (atr high low close atrPeriod) i with
        | none =>
          rw [hA, stStep_none] at heqi
          rw [heqi] at hval
          exact absurd hval (by simp)
        | some a => rfl
      have hatrj : (jget (atr high low close atrPeriod) j).isSome = true := by
        rw [atr] at hatri ⊢
        apply rma_jget_mono _ _ i j hij _ hatri
        rw [rma_length, tr_length]
        omega
      rcases Option.isSome_iff_exists.mp hatrj with ⟨aj, haj⟩
      cases hrowj : (supertrendRows high low close factor atrPeriod).get? j with
      | none =>
        have hlen := List.get?_eq_none.mp hrowj
        rw [supertrendRows_length] at hlen
        omega
      | some rj =>
        rcases stGo_pair factor (hl2Seq high low) (atr high low close atrPeriod) close hfin
            high.length 0 stInit j rj (stInv_init _ _ _) (by rw [← hrows]; exact hrowj)
          with ⟨s2, hinv2, heqj, hnext2⟩
        have hz2 : 0 + j = j := by omega
        rw [hz2, haj, stStep_some] at heqj
        have hhl2j : (jget (hl2Seq high low) j).isSome = true := by
          apply hfin
          rw [haj]
          rfl
        have hvj : rj.value.isSome = true := by
          rw [heqj]
          by_cases hd : stDirV (jget close j) s2
              (stUpper1 factor (jget (hl2Seq high low) j) (some aj)
                (if j = 0 then none else jget close (j - 1)) s2)
              (stLower1 factor (jget (hl2Seq high low) j) (some aj)
                (if j = 0 then none else jget close (j - 1)) s2) = -1
          · show (if stDirV (jget close j) s2
                (stUpper1 factor (jget (hl2Seq high low) j) (some aj)
                  (if j = 0 then none else jget close (j - 1)) s2)
                (stLower1 factor (jget (hl2Seq high low) j) (some aj)
                  (if j = 0 then none else jget close (j - 1)) s2) = -1
              then stLower1 factor (jget (hl2Seq high low) j) (some aj)
                (if j = 0 then none else jget close (j - 1)) s2
              else stUpper1 factor (jget (hl2Seq high low) j) (some aj)
                (if j = 0 then none else jget close (j - 1)) s2).isSome = true
            rw [if_pos hd]
            exact stLower1_isSome factor _ aj _ s2 hhl2j
          · show (if stDirV (jget close j) s2
                (stUpper1 factor (jget (hl2Seq high low) j) (some aj)
                  (if j = 0 then none else jget close (j - 1)) s2)
                (stLower1 factor (jget (hl2Seq high low) j) (some aj)
                  (if j = 0 then none else jget close (j - 1)) s2) = -1
              then stLower1 factor (jget (hl2Seq high low) j) (some aj)
                (if j = 0 then none else jget close (j - 1)) s2
              else stUpper1 factor (jget (hl2Seq high low) j) (some aj)
                (if j = 0 then none else jget close (j - 1)) s2).isSome = true
            rw [if_neg hd]
            exact stUpper1_isSome factor _ aj _ s2 hhl2j
        rcases Option.isSome_iff_exists.mp hvj with ⟨p, hp⟩
        apply (jget_isSome_get? _ j).mpr
        exact ⟨p, by rw [List.get?_map, hrowj, omap_some, hp]⟩

/-- Witness for C8: `rma([1,3,NaN,5], 2)` is finite at index 3 (finiteness
at index 1 propagates across the NaN input), `atr` likewise, every
`ema([1,2], 9)` output is finite, and the SuperTrend values of the C5
witness input stay finite from index 1 to index 2. -/
theorem C8_recursive_wit :
    (jget (rma [some 1, some 3, none, some 5] 2) 3).isSome = true ∧
    (jget (atr [some 1, some 2] [some 0, some 1] [some 1, some 2] 1) 1).isSome = true ∧
    (jget (ema [some 1, some 2] 9) 1).isSome = true ∧
    (jget (supertrend [some 2, some 3, some 10] [some 0, some 1, some 2]
      [some 1, some 2, some 9] 1 1).1 2).isSome = true :=
  ⟨C8_recursive.1 [some 1, some 3, none, some 5] 2 1 3 (by decide) (by decide) (by decide),
   C8_recursive.2.1 [some 1, some 2] [some 0, some 1] [some 1, some 2] 1 0 1 (by decide)
     (by decide) (by decide),
   C8_recursive.2.2.1 [some 1, some 2] 9 (by decide) 1 (by decide),
   C8_recursive.2.2.2 [some 2, some 3, some 10] [some 0, some 1, some 2]
     [some 1, some 2, some 9] 1 1 (by decide) (by decide) (by decide) 1 2 (by decide)
     (by decide) (by decide)⟩

end ta

namespace ta

-- ============================================================
-- C7: output lengths
-- ============================================================

theorem cumGo_length : ∀ (l : List JSNum) (acc : JSNum), (cumGo acc l).length = l.length := by
  intro l
  induction l with
  | nil => intro acc; rfl
  | cons x xs ih => intro acc; simp only [cumGo, List.length_cons, ih]

theorem barssinceGo_length : ∀ (l : List Bool) (count : JSNum),
    (barssinceGo count l).length = l.length := by
  intro l
  induction l with
  | nil => intro count; rfl
  | cons b rest ih => intro count; simp only [barssinceGo, List.length_cons, ih]

theorem sar_length (high low : List JSNum) (start inc maxAF : ℚ) :
    (sar high low start inc maxAF).length = high.length := by
  cases hlen : high.length with
  | zero =>
    rw [sar, hlen]
    rfl
  | succ n =>
    rw [sar_cons high low start inc maxAF n hlen, List.length_cons, List.length_map,
      sarGo_length]

end ta

namespace ta

/-- C7 (counterexample): `tr` on empty inputs returns the one-element
output `[NaN]` (its first element `high[0] - low[0]` is pushed
unconditionally), so its length is not the input length; and the `chikou`
sequence of `ichimoku` has length `max(n, displacement)`, not `n`, when
the close is shorter than the displacement. -/
theorem C7_cex :
    ¬ ((tr [] [] []).length = ([] : List JSNum).length) ∧
    ¬ ((ichimoku [some 1] [some 1] [some 1] 9 26 52 2).chikou.length =
        ([some 1] : List JSNum).length) :=
  ⟨by decide, by decide⟩

/-- C7 (amended): output lengths are determined by the inputs as follows.
The windowed, mapped and recursive families (`sma`, `ema`, `rma`, `wma`,
`swma`, `vwma`, `hma`, `alma`, `highest`, `lowest`, `macd`, `stoch`,
`cci`, `cmo`, `mfi`, `wpr`, `roc`, `mom`, `stdev`, `variance`, `bb`,
`bbw`, `kc`, `kcw`, `supertrend`, `sar`, `donchian`, `barssince`,
`valuewhen`, `crossover`, `crossunder`, `cross`, `rising`, `falling`,
`change`, `cum`, `vwap`, `linreg`, `correlation`, `percentrank`,
`median`, `pivothigh`, `pivotlow`, `highestbars`, `lowestbars`, `range`,
`max`, `min`, `cog`, `mode`) return exactly the primary input length on
every input.  The differencing family (`tr`, `atr`, `rsi`, `tsi`, `dmi`)
returns `n - 1 + 1` elements for primary length `n` — equal to `n` for
every non-empty input but `1` (not `0`) on the empty input.  Of the five
`ichimoku` sequences the first four have the primary length, while
`chikou` has `(n - displacement) + displacement` elements — equal to `n`
only when `n ≥ displacement`. -/
theorem C7_lengths :
    (∀ (source : List JSNum) (len : ℕ), (sma source len).length = source.length) ∧
    (∀ (source : List JSNum) (len : ℕ), (ema source len).length = source.length) ∧
    (∀ (source : List JSNum) (len : ℕ), (rma source len).length = source.length) ∧
    (∀ (source : List JSNum) (len : ℕ), (wma source len).length = source.length) ∧
    (∀ (source : List JSNum), (swma source).length = source.length) ∧
    (∀ (source volume : List JSNum) (len : ℕ),
      (vwma source len volume).length = source.length) ∧
    (∀ (source : List JSNum) (len : ℕ), (hma source len).length = source.length) ∧
    (∀ (E : ℚ → ℚ) (source : List JSNum) (len : ℕ) (offset sigma : ℚ),
      (alma E source len offset sigma).length = source.length) ∧
    (∀ (source : List JSNum) (len : ℕ), (highest source len).length = source.length) ∧
    (∀ (source : List JSNum) (len : ℕ), (lowest source len).length = source.length) ∧
    (∀ (source : List JSNum) (fastLen slowLen signalLen : ℕ),
      (macd source fastLen slowLen signalLen).1.length = source.length ∧
      (macd source fastLen slowLen signalLen).2.1.length = source.length ∧
      (macd source fastLen slowLen signalLen).2.2.length = source.length) ∧
    (∀ (close high low : List JSNum) (kPeriod kSmooth dSmooth : ℕ),
      (stoch close high low kPeriod kSmooth dSmooth).1.length = close.length ∧
      (stoch close high low kPeriod kSmooth dSmooth).2.length = close.length) ∧
    (∀ (high low close : List JSNum) (len : ℕ),
      (cci high low close len).length = high.length) ∧
    (∀ (source : List JSNum) (len : ℕ), (cmo source len).length = source.length) ∧
    (∀ (high low close volume : List JSNum) (len : ℕ),
      (mfi high low close volume len).length = close.length) ∧
    (∀ (high low close : List JSNum) (len : ℕ),
      (wpr high low close len).length = close.length) ∧
    (∀ (source : List JSNum) (len : ℕ), (roc source len).length = source.length) ∧
    (∀ (source : List JSNum) (len : ℕ), (mom source len).length = source.length) ∧
    (∀ (S : ℚ → ℚ) (source : List JSNum) (len : ℕ),
      (stdev S source len).length = source.length) ∧
    (∀ (source : List JSNum) (len : ℕ) (biased : Bool),
      (variance source len biased).length = source.length) ∧
    (∀ (S : ℚ → ℚ) (source : List JSNum) (len : ℕ) (mult : ℚ),
      (bb S source len mult).1.length = source.length ∧
      (bb S source len mult).2.1.length = source.length ∧
      (bb S source len mult).2.2.length = source.length) ∧
    (∀ (S : ℚ → ℚ) (source : List JSNum) (len : ℕ) (mult : ℚ),
      (bbw S source len mult).length = source.length) ∧
    (∀ (high low close : List JSNum) (len : ℕ) (mult : ℚ) (atrLen : ℕ),
      (kc high low close len mult atrLen).1.length = close.length ∧
      (kc high low close len mult atrLen).2.1.length = close.length ∧
      (kc high low close len mult atrLen).2.2.length = close.length) ∧
    (∀ (high low close : List JSNum) (len : ℕ) (mult : ℚ) (atrLen : ℕ),
      (kcw high low close len mult atrLen).length = close.length) ∧
    (∀ (high low close : List JSNum) (factor : ℚ) (atrPeriod : ℕ),
      (supertrend high low close factor atrPeriod).1.length = high.length ∧
      (supertrend high low close factor atrPeriod).2.length = high.length) ∧
    (∀ (high low : List JSNum) (start inc maxAF : ℚ),
      (sar high low start inc maxAF).length = high.length) ∧
    (∀ (h l : List JSNum) (len : ℕ), (donchian h l len).length = h.length) ∧
    (∀ (condition : List Bool), (barssince condition).length = condition.length) ∧
    (∀ (condition : List Bool) (source : List JSNum) (occurrence : ℕ),
      (valuewhen condition source occurrence).length = condition.length) ∧
    (∀ (s1 s2 : List JSNum), (crossover s1 s2).length = s1.length ∧
      (crossunder s1 s2).length = s1.length ∧ (cross s1 s2).length = s1.length) ∧
    (∀ (source : List JSNum) (len : ℕ), (rising source len).length = source.length ∧
      (falling source len).length = source.length) ∧
    (∀ (source : List JSNum) (len : ℕ), (change source len).length = source.length) ∧
    (∀ (source : List JSNum), (cum source).length = source.length) ∧
    (∀ (high low close volume : List JSNum),
      (vwap high low close volume).length = high.length) ∧
    (∀ (source : List JSNum) (len : ℕ) (offset : ℚ),
      (linreg source len offset).length = source.length) ∧
    (∀ (S : ℚ → ℚ) (s1 s2 : List JSNum) (len : ℕ),
      (correlation S s1 s2 len).length = s1.length) ∧
    (∀ (source : List JSNum) (len : ℕ), (percentrank source len).length = source.length) ∧
    (∀ (source : List JSNum) (len : ℕ), (median source len).length = source.length) ∧
    (∀ (source : List JSNum) (leftBars rightBars : ℕ),
      (pivothigh source leftBars rightBars).length = source.length ∧
      (pivotlow source leftBars rightBars).length = source.length) ∧
    (∀ (source : List JSNum) (len : ℕ),
      (highestbars source len).length = source.length ∧
      (lowestbars source len).length = source.length) ∧
    (∀ (high low : List JSNum), (range high low).length = high.length) ∧
    (∀ (a b : List JSNum), (max a b).length = a.length ∧ (min a b).length = a.length) ∧
    (∀ (source : List JSNum) (len : ℕ), (cog source len).length = source.length) ∧
    (∀ (source : List JSNum) (len : ℕ), (mode source len).length = source.length) ∧
    (∀ (high low close : List JSNum),
      (tr high low close).length = high.length - 1 + 1) ∧
    (∀ (high low close : List JSNum) (len : ℕ),
      (atr high low close len).length = high.length - 1 + 1) ∧
    (∀ (source : List JSNum) (len : ℕ),
      (rsi source len).length = source.length - 1 + 1) ∧
    (∀ (source : List JSNum) (shortLen longLen : ℕ),
      (tsi source shortLen longLen).length = source.length - 1 + 1) ∧
    (∀ (high low close : List JSNum) (len : ℕ),
      (dmi high low close len).1.length = high.length - 1 + 1 ∧
      (dmi high low close len).2.1.length = high.length - 1 + 1 ∧
      (dmi high low close len).2.2.length = high.length - 1 + 1) ∧
    (∀ (high low close : List JSNum) (cp bp lsp d : ℕ),
      (ichimoku high low close cp bp lsp d).tenkan.length = high.length ∧
      (ichimoku high low close cp bp lsp d).kijun.length = high.length ∧
      (ichimoku high low close cp bp lsp d).senkouA.length = high.length ∧
      (ichimoku high low close cp bp lsp d).senkouB.length = high.length ∧
      (ichimoku high low close cp bp lsp d).chikou.length = (close.length - d) + d) := by
  refine ⟨?_, ?_, ?_, ?_, ?_, ?_, ?_, ?_, ?_, ?_, ?_, ?_, ?_, ?_, ?_, ?_, ?_, ?_, ?_, ?_,
    ?_, ?_, ?_, ?_, ?_, ?_, ?_, ?_, ?_, ?_, ?_, ?_, ?_, ?_, ?_, ?_, ?_, ?_, ?_, ?_, ?_,
    ?_, ?_, ?_, ?_, ?_, ?_, ?_, ?_, ?_⟩
  · intro source len; simp [sma]
  · intro source len; exact ema_length source len
  · intro source len; exact rma_length source len
  · intro source len; simp [wma]
  · intro source; simp [swma]
  · intro source volume len; simp [vwma, sma]
  · intro source len; simp [hma, wma]
  · intro E source len offset sigma; simp [alma]
  · intro source len; simp [highest]
  · intro source len; simp [lowest]
  · intro source fastLen slowLen signalLen
    refine ⟨by simp [macd, ema_length], by simp [macd, ema_length], by simp [macd, ema_length]⟩
  · intro close high low kPeriod kSmooth dSmooth
    refine ⟨by simp [stoch, sma, stochRawK], by simp [stoch, sma, stochRawK]⟩
  · intro high low close len; simp [cci, tpSeq]
  · intro source len; simp [cmo]
  · intro high low close volume len; simp [mfi]
  · intro high low close len; simp [wpr]
  · intro source len; simp [roc]
  · intro source len; simp [mom]
  · intro S source len; simp [stdev]
  · intro source len biased; simp [variance]
  · intro S source len mult
    refine ⟨by simp [bb, sma], by simp [bb, sma], by simp [bb, sma]⟩
  · intro S source len mult; simp [bbw, bb, sma]
  · intro high low close len mult atrLen
    refine ⟨by simp [kc, ema_length], by simp [kc, ema_length], by simp [kc, ema_length]⟩
  · intro high low close len mult atrLen; simp [kcw, kc, ema_length]
  · intro high low close factor atrPeriod
    refine ⟨by simp [supertrend, supertrendRows_length], by simp [supertrend, supertrendRows_length]⟩
  · intro high low start inc maxAF; exact sar_length high low start inc maxAF
  · intro h l len; simp [donchian, highest]
  · intro condition; simp [barssince, barssinceGo_length]
  · intro condition source occurrence; simp [valuewhen]
  · intro s1 s2
    refine ⟨by simp [crossover], by simp [crossunder], by simp [cross, crossover]⟩
  · intro source len; refine ⟨by simp [rising], by simp [falling]⟩
  · intro source len; simp [change]
  · intro source; simp [cum, cumGo_length]
  · intro high low close volume; simp [vwap, cum, cumGo_length, tpSeq]
  · intro source len offset; simp [linreg]
  · intro S s1 s2 len; simp [correlation]
  · intro source len; simp [percentrank]
  · intro source len; simp [median]
  · intro source leftBars rightBars; refine ⟨by simp [pivothigh], by simp [pivotlow]⟩
  · intro source len; refine ⟨by simp [highestbars], by simp [lowestbars]⟩
  · intro high low; simp [range]
  · intro a b; refine ⟨by simp [max], by simp [min]⟩
  · intro source len; simp [cog]
  · intro source len; simp [mode]
  · intro high low close; exact tr_length high low close
  · intro high low close len; exact atr_length high low close len
  · intro source len; simp [rsi]
  · intro source shortLen longLen; simp [tsi, ema_length, tsiChanges]
  · intro high low close len
    refine ⟨by simp [dmi, rma_length, dmiPlusDM],
      by simp [dmi, rma_length, dmiMinusDM],
      by simp [dmi, rma_length, dmiPlusDM]⟩
  · intro high low close cp bp lsp d
    refine ⟨by simp [ichimoku, donchian, highest], by simp [ichimoku, donchian, highest],
      by simp [ichimoku, donchian, highest], by simp [ichimoku, donchian, highest],
      by simp [ichimoku]⟩

end ta

namespace ta

-- ============================================================
-- C2: warm-up shape of the windowed family
-- ============================================================

theorem jadd_isSome (a b : JSNum) (ha : a.isSome = true) (hb : b.isSome = true) :
    (jadd a b).isSome = true := by
  rcases Option.isSome_iff_exists.mp ha with ⟨x, hx⟩
  rcases Option.isSome_iff_exists.mp hb with ⟨y, hy⟩
  rw [hx, hy, jadd_some]
  rfl

theorem jsub_isSome (a b : JSNum) (ha : a.isSome = true) (hb : b.isSome = true) :
    (jsub a b).isSome = true := by
  rcases Option.isSome_iff_exists.mp ha with ⟨x, hx⟩
  rcases Option.isSome_iff_exists.mp hb with ⟨y, hy⟩
  rw [hx, hy, jsub_some]
  rfl

theorem jmul_isSome (a b : JSNum) (ha : a.isSome = true) (hb : b.isSome = true) :
    (jmul a b).isSome = true := by
  rcases Option.isSome_iff_exists.mp ha with ⟨x, hx⟩
  rcases Option.isSome_iff_exists.mp hb with ⟨y, hy⟩
  rw [hx, hy, jmul_some]
  rfl

theorem jabs_isSome (a : JSNum) (ha : a.isSome = true) : (jabs a).isSome = true := by
  rcases Option.isSome_iff_exists.mp ha with ⟨x, hx⟩
  rw [hx, jabs_some]
  rfl

theorem jdiv_isSome_ne (a b : JSNum) (ha : a.isSome = true) (q : ℚ) (hb : b = some q)
    (hq : q ≠ 0) : (jdiv a b).isSome = true := by
  rcases Option.isSome_iff_exists.mp ha with ⟨x, hx⟩
  rw [hx, hb, jdiv_some_ne x q hq]
  rfl

theorem foldl_qadd_nonneg (g : ℕ → ℚ) : ∀ (l : List ℕ) (acc : ℚ), 0 ≤ acc →
    (∀ j ∈ l, 0 ≤ g j) → 0 ≤ l.foldl (fun a j => qadd a (g j)) acc := by
  intro l
  induction l with
  | nil => intro acc h _; exact h
  | cons x xs ih =>
    intro acc h hall
    rw [List.foldl_cons]
    apply ih
    · rw [qadd_eq]
      have := hall x (by simp)
      linarith
    · exact fun j hj => hall j (by simp [hj])

theorem range_foldl_qadd_pos (g : ℕ → ℚ) (len : ℕ) (hlen : 1 ≤ len)
    (hg : ∀ j, j < len → 0 < g j) :
    0 < (List.range len).foldl (fun a j => qadd a (g j)) 0 := by
  cases len with
  | zero => omega
  | succ m =>
    rw [List.range_succ, List.foldl_append, List.foldl_cons, List.foldl_nil, qadd_eq]
    have h1 : (0 : ℚ) ≤ (List.range m).foldl (fun a j => qadd a (g j)) 0 := by
      apply foldl_qadd_nonneg
      · exact le_refl 0
      · intro j hj
        exact le_of_lt (hg j (by simp at hj; omega))
    have h2 : 0 < g m := hg m (by omega)
    linarith

theorem window_sum_isSome (source : List JSNum) (i : ℕ)
    (hall : ∀ x ∈ source, x.isSome = true) (hi : i < source.length) (len : ℕ) :
    ((List.range len).foldl (fun acc j => jadd acc (jget source (i - j)))
      (some 0)).isSome = true := by
  apply foldl_jadd_isSome
  · rfl
  · intro j _
    exact jget_isSome source hall (i - j) (by omega)

theorem sma_warm (source : List JSNum) (len : ℕ) (hlen : 1 ≤ len)
    (hall : ∀ x ∈ source, x.isSome = true) (i : ℕ) (hi : i < source.length) :
    (jget (sma source len) i).isSome = true ↔ len ≤ i + 1 := by
  rw [sma, jget_map_range _ _ _ hi, smaAt]
  by_cases hw : i + 1 < len
  · rw [if_pos hw]
    constructor
    · intro h
      exact absurd h (by simp)
    · intro h
      omega
  · rw [if_neg hw]
    constructor
    · intro _
      omega
    · intro _
      apply jdiv_isSome_ne _ _ (window_sum_isSome source i hall hi len) ((len : ℚ)) rfl
      exact Nat.cast_ne_zero.mpr (by omega)

theorem wma_warm (source : List JSNum) (len : ℕ) (hlen : 1 ≤ len)
    (hall : ∀ x ∈ source, x.isSome = true) (i : ℕ) (hi : i < source.length) :
    (jget (wma source len) i).isSome = true ↔ len ≤ i + 1 := by
  rw [wma, jget_map_range _ _ _ hi, wmaAt]
  by_cases hw : i + 1 < len
  · rw [if_pos hw]
    constructor
    · intro h
      exact absurd h (by simp)
    · intro h
      omega
  · rw [if_neg hw]
    constructor
    · intro _
      omega
    · intro _
      have hwsum : 0 < (List.range len).foldl
          (fun acc (j : ℕ) => qadd acc (qsub ((len : ℚ)) ((j : ℚ)))) 0 := by
        apply range_foldl_qadd_pos (fun j => qsub ((len : ℚ)) ((j : ℚ))) len hlen
        intro j hj
        rw [qsub_eq]
        have : (j : ℚ) < (len : ℚ) := by exact_mod_cast hj
        linarith
      apply jdiv_isSome_ne _ _ ?_ _ rfl (ne_of_gt hwsum)
      apply foldl_jadd_isSome
      · rfl
      · intro j _
        exact jmul_isSome _ _ (jget_isSome source hall (i - j) (by omega)) rfl

theorem highest_warm (source : List JSNum) (len : ℕ) (hlen : 1 ≤ len)
    (hall : ∀ x ∈ source, x.isSome = true) (i : ℕ) (hi : i < source.length) :
    (jget (highest source len) i).isSome = true ↔ len ≤ i + 1 := by
  rw [highest, jget_map_range _ _ _ hi]
  by_cases hw : i + 1 < len
  · rw [if_pos hw]
    constructor
    · intro h
      exact absurd h (by simp)
    · intro h
      omega
  · rw [if_neg hw]
    constructor
    · intro _
      omega
    · intro _
      apply qmaxList_isSome
      rcases Option.isSome_iff_exists.mp (jget_isSome source hall (i - 0) (by omega))
        with ⟨q, hq⟩
      intro hemp
      have hmem : q ∈ (List.range len).filterMap (fun j => jget source (i - j)) := by
        apply List.mem_filterMap.mpr
        exact ⟨0, by simp; omega, hq⟩
      rw [hemp] at hmem
      exact absurd hmem (by simp)

theorem lowest_warm (source : List JSNum) (len : ℕ) (hlen : 1 ≤ len)
    (hall : ∀ x ∈ source, x.isSome = true) (i : ℕ) (hi : i < source.length) :
    (jget (lowest source len) i).isSome = true ↔ len ≤ i + 1 := by
  rw [lowest, jget_map_range _ _ _ hi]
  by_cases hw : i + 1 < len
  · rw [if_pos hw]
    constructor
    · intro h
      exact absurd h (by simp)
    · intro h
      omega
  · rw [if_neg hw]
    constructor
    · intro _
      omega
    · intro _
      apply qminList_isSome
      rcases Option.isSome_iff_exists.mp (jget_isSome source hall (i - 0) (by omega))
        with ⟨q, hq⟩
      intro hemp
      have hmem : q ∈ (List.range len).filterMap (fun j => jget source (i - j)) := by
        apply List.mem_filterMap.mpr
        exact ⟨0, by simp; omega, hq⟩
      rw [hemp] at hmem
      exact absurd hmem (by simp)

theorem dev_warm (source : List JSNum) (len : ℕ) (hlen : 1 ≤ len)
    (hall : ∀ x ∈ source, x.isSome = true) (i : ℕ) (hi : i < source.length) :
    (jget (dev source len) i).isSome = true ↔ len ≤ i + 1 := by
  rw [dev, jget_map_range _ _ _ hi]
  by_cases hw : i + 1 < len
  · rw [if_pos hw]
    constructor
    · intro h
      exact absurd h (by simp)
    · intro h
      omega
  · rw [if_neg hw]
    constructor
    · intro _
      omega
    · intro _
      apply jdiv_isSome_ne _ _ ?_ ((len : ℚ)) rfl
        (Nat.cast_ne_zero.mpr (by omega))
      apply foldl_jadd_isSome
      · rfl
      · intro j _
        apply jabs_isSome
        apply jsub_isSome _ _ (jget_isSome source hall (i - j) (by omega))
        exact (sma_warm source len hlen hall i hi).mpr (by omega)

theorem stdev_warm (S : ℚ → ℚ) (source : List JSNum) (len : ℕ) (hlen : 1 ≤ len)
    (hall : ∀ x ∈ source, x.isSome = true) (i : ℕ) (hi : i < source.length) :
    (jget (stdev S source len) i).isSome = true ↔ len ≤ i + 1 := by
  rw [stdev, jget_map_range _ _ _ hi]
  by_cases hw : i + 1 < len
  · rw [if_pos hw]
    constructor
    · intro h
      exact absurd h (by simp)
    · intro h
      omega
  · rw [if_neg hw]
    constructor
    · intro _
      omega
    · intro _
      have hdv : (jdiv ((List.range len).foldl (fun acc j =>
          jadd acc (jmul (jsub (jget source (i - j)) (jget (sma source len) i))
            (jsub (jget source (i - j)) (jget (sma source len) i)))) (some 0))
          (some ((len : ℚ)))).isSome = true := by
        apply jdiv_isSome_ne _ _ ?_ ((len : ℚ)) rfl
          (Nat.cast_ne_zero.mpr (by omega))
        apply foldl_jadd_isSome
        · rfl
        · intro j _
          have hs := (sma_warm source len hlen hall i hi).mpr (by omega)
          exact jmul_isSome _ _
            (jsub_isSome _ _ (jget_isSome source hall (i - j) (by omega)) hs)
            (jsub_isSome _ _ (jget_isSome source hall (i - j) (by omega)) hs)
      rcases Option.isSome_iff_exists.mp hdv with ⟨q, hq⟩
      rw [hq, omap_some]
      rfl

theorem variance_warm (source : List JSNum) (len : ℕ) (biased : Bool) (hlen : 1 ≤ len)
    (hlen2 : biased = false → 2 ≤ len)
    (hall : ∀ x ∈ source, x.isSome = true) (i : ℕ) (hi : i < source.length) :
    (jget (variance source len biased) i).isSome = true ↔ len ≤ i + 1 := by
  rw [variance, jget_map_range _ _ _ hi]
  by_cases hw : i + 1 < len
  · rw [if_pos hw]
    constructor
    · intro h
      exact absurd h (by simp)
    · intro h
      omega
  · rw [if_neg hw]
    constructor
    · intro _
      omega
    · intro _
      apply jdiv_isSome_ne _ _ ?_ (if biased then ((len : ℚ)) else qsub ((len : ℚ)) 1) rfl ?_
      · apply foldl_jadd_isSome
        · rfl
        · intro j _
          have hs := (sma_warm source len hlen hall i hi).mpr (by omega)
          exact jmul_isSome _ _
            (jsub_isSome _ _ (jget_isSome source hall (i - j) (by omega)) hs)
            (jsub_isSome _ _ (jget_isSome source hall (i - j) (by omega)) hs)
      · cases biased with
        | true =>
          simp only [if_true]
          exact Nat.cast_ne_zero.mpr (by omega)
        | false =>
          have h2 := hlen2 rfl
          simp only [Bool.false_eq_true, if_false, qsub_eq]
          have : (2 : ℚ) ≤ (len : ℚ) := by exact_mod_cast h2
          intro hz
          nlinarith

end ta

namespace ta

theorem jneg_isSome (a : JSNum) (ha : a.isSome = true) : (jneg a).isSome = true := by
  rcases Option.isSome_iff_exists.mp ha with ⟨x, hx⟩
  rw [hx, jneg]
  rfl

theorem alma_warm (E : ℚ → ℚ) (source : List JSNum) (len : ℕ) (offset sigma : ℚ)
    (hlen : 1 ≤ len) (hE : ∀ q, 0 < E q)
    (hall : ∀ x ∈ source, x.isSome = true) (i : ℕ) (hi : i < source.length) :
    (jget (alma E source len offset sigma) i).isSome = true ↔ len ≤ i + 1 := by
  rw [alma, jget_map_range _ _ _ hi]
  by_cases hw : i + 1 < len
  · rw [if_pos hw]
    constructor
    · intro h
      exact absurd h (by simp)
    · intro h
      omega
  · rw [if_neg hw]
    constructor
    · intro _
      omega
    · intro _
      have hwsum : 0 < (almaWeights E len offset sigma).foldl (fun acc w => qadd acc w) 0 := by
        rw [almaWeights, List.foldl_map]
        apply range_foldl_qadd_pos _ len hlen
        intro j _
        exact hE _
      apply jdiv_isSome_ne _ _ ?_ _ rfl (ne_of_gt hwsum)
      apply foldl_jadd_isSome
      · rfl
      · intro j _
        exact jmul_isSome _ _ (jget_isSome source hall (i - j) (by omega)) rfl

theorem linregSumX_eq (len : ℕ) : linregSumX len = ((len : ℚ) * ((len : ℚ) - 1)) / 2 := by
  induction len with
  | zero =>
    rw [linregSumX]
    norm_num
  | succ m ih =>
    rw [linregSumX, List.range_succ, List.foldl_append, List.foldl_cons, List.foldl_nil,
      ← linregSumX, qadd_eq, ih]
    push_cast
    ring

theorem linregSumX2_eq (len : ℕ) :
    linregSumX2 len = ((len : ℚ) * ((len : ℚ) - 1) * (2 * (len : ℚ) - 1)) / 6 := by
  induction len with
  | zero =>
    rw [linregSumX2]
    norm_num
  | succ m ih =>
    rw [linregSumX2, List.range_succ, List.foldl_append, List.foldl_cons, List.foldl_nil,
      ← linregSumX2, qadd_eq, qmul_eq, ih]
    push_cast
    ring

theorem linreg_denom_pos (len : ℕ) (h2 : 2 ≤ len) :
    0 < qsub (qmul ((len : ℚ)) (linregSumX2 len)) (qmul (linregSumX len) (linregSumX len)) := by
  rw [qsub_eq, qmul_eq, qmul_eq, linregSumX_eq, linregSumX2_eq]
  have hx : (2 : ℚ) ≤ (len : ℚ) := by exact_mod_cast h2
  have key : (len : ℚ) * ((len : ℚ) * ((len : ℚ) - 1) * (2 * (len : ℚ) - 1) / 6) -
      ((len : ℚ) * ((len : ℚ) - 1) / 2) * ((len : ℚ) * ((len : ℚ) - 1) / 2) =
      (len : ℚ) * (len : ℚ) * ((len : ℚ) - 1) * ((len : ℚ) + 1) / 12 := by
    ring
  rw [key]
  apply div_pos ?_ (by norm_num)
  have h0 : (0 : ℚ) < (len : ℚ) := by linarith
  have h1 : (0 : ℚ) < (len : ℚ) - 1 := by linarith
  have hp : (0 : ℚ) < (len : ℚ) + 1 := by linarith
  nlinarith [mul_pos (mul_pos (mul_pos h0 h0) h1) hp]

theorem linreg_warm (source : List JSNum) (len : ℕ) (offset : ℚ) (hlen : 2 ≤ len)
    (hall : ∀ x ∈ source, x.isSome = true) (i : ℕ) (hi : i < source.length) :
    (jget (linreg source len offset) i).isSome = true ↔ len ≤ i + 1 := by
  rw [linreg, jget_map_range _ _ _ hi]
  by_cases hw : i + 1 < len
  · rw [if_pos hw]
    constructor
    · intro h
      exact absurd h (by simp)
    · intro h
      omega
  · rw [if_neg hw]
    constructor
    · intro _
      omega
    · intro _
      have hY : (linregSumY source len i).isSome = true := by
        rw [linregSumY]
        apply foldl_jadd_isSome
        · rfl
        · intro j _
          exact jget_isSome source hall _ (by omega)
      have hXY : (linregSumXY source len i).isSome = true := by
        rw [linregSumXY]
        apply foldl_jadd_isSome (fun j =>
          jmul (some ((j : ℚ))) (jget source (i - (len - 1 - j))))
        · rfl
        · intro j _
          exact jmul_isSome _ _ rfl (jget_isSome source hall _ (by omega))
      have hslope : (jdiv (jsub (jmul (some ((len : ℚ))) (linregSumXY source len i))
          (jmul (some (linregSumX len)) (linregSumY source len i)))
          (some (qsub (qmul ((len : ℚ)) (linregSumX2 len))
            (qmul (linregSumX len) (linregSumX len))))).isSome = true := by
        apply jdiv_isSome_ne _ _ ?_ _ rfl (ne_of_gt (linreg_denom_pos len hlen))
        exact jsub_isSome _ _ (jmul_isSome _ _ rfl hXY) (jmul_isSome _ _ rfl hY)
      apply jadd_isSome
      · apply jdiv_isSome_ne _ _ ?_ ((len : ℚ)) rfl (Nat.cast_ne_zero.mpr (by omega))
        exact jsub_isSome _ _ hY (jmul_isSome _ _ hslope rfl)
      · exact jmul_isSome _ _ hslope rfl

theorem percentrank_warm (source : List JSNum) (len : ℕ) (hlen : 2 ≤ len)
    (hall : ∀ x ∈ source, x.isSome = true) (i : ℕ) (hi : i < source.length) :
    (jget (percentrank source len) i).isSome = true ↔ len ≤ i + 1 := by
  rw [percentrank, jget_map_range _ _ _ hi]
  by_cases hw : i + 1 < len
  · rw [if_pos hw]
    constructor
    · intro h
      exact absurd h (by simp)
    · intro h
      omega
  · rw [if_neg hw]
    constructor
    · intro _
      omega
    · intro _
      apply jmul_isSome _ _ ?_ (by rfl)
      apply jdiv_isSome_ne _ _ (by rfl) (qsub ((len : ℚ)) 1) rfl
      rw [qsub_eq]
      have : (2 : ℚ) ≤ (len : ℚ) := by exact_mod_cast hlen
      intro hz
      nlinarith

theorem cog_warm (source : List JSNum) (len : ℕ) (hlen : 1 ≤ len)
    (hall : ∀ x ∈ source, x.isSome = true) (i : ℕ) (hi : i < source.length) :
    (jget (cog source len) i).isSome = true ↔ len ≤ i + 1 := by
  rw [cog, jget_map_range _ _ _ hi]
  by_cases hw : i + 1 < len
  · rw [if_pos hw]
    constructor
    · intro h
      exact absurd h (by simp)
    · intro h
      omega
  · rw [if_neg hw]
    constructor
    · intro _
      omega
    · intro _
      rcases Option.isSome_iff_exists.mp (window_sum_isSome source i hall hi len) with ⟨s, hs⟩
      rw [hs]
      by_cases hz : jeq (some s) (some 0) = true
      · rw [if_pos hz]
        rfl
      · rw [if_neg hz]
        apply jdiv_isSome_ne _ _ ?_ s rfl
        · intro h0
          exact hz ((jeq_some s 0).mpr h0)
        · apply jneg_isSome
          apply foldl_jadd_isSome (fun j =>
            jmul (jget source (i - j)) (some (((j + 1 : ℕ) : ℚ))))
          · rfl
          · intro j _
            exact jmul_isSome _ _ (jget_isSome source hall _ (by omega)) rfl

theorem median_warm (source : List JSNum) (len : ℕ) (hlen : 1 ≤ len)
    (hall : ∀ x ∈ source, x.isSome = true) (i : ℕ) (hi : i < source.length) :
    (jget (median source len) i).isSome = true ↔ len ≤ i + 1 := by
  rw [median, jget_map_range _ _ _ hi]
  by_cases hw : i + 1 < len
  · rw [if_pos hw]
    constructor
    · intro h
      exact absurd h (by simp)
    · intro h
      omega
  · rw [if_neg hw]
    constructor
    · intro _
      omega
    · intro _
      have hguard : (((List.range len).map (fun j => jget source (i - j))).all
          (fun v => v.isSome)) = true := by
        apply List.all_eq_true.mpr
        intro v hv
        rcases List.mem_map.mp hv with ⟨j, _, hj⟩
        rw [← hj]
        exact jget_isSome source hall _ (by omega)
      rw [if_pos hguard]
      by_cases hpar : len % 2 = 0
      · rw [if_pos hpar]
        apply jdiv_isSome_ne _ _ ?_ 2 rfl (by norm_num)
        exact jadd_isSome _ _ rfl rfl
      · rw [if_neg hpar]
        rfl

end ta

namespace ta

theorem dedupKeys_subset : ∀ (l seen : List JSNum) (v : JSNum),
    v ∈ dedupKeys seen l → v ∈ l := by
  intro l
  induction l with
  | nil =>
    intro seen v hv
    exact absurd hv (by simp [dedupKeys])
  | cons x xs ih =>
    intro seen v hv
    rw [dedupKeys] at hv
    by_cases hx : x ∈ seen
    · rw [if_pos hx] at hv
      exact List.mem_cons.mpr (Or.inr (ih seen v hv))
    · rw [if_neg hx] at hv
      rcases List.mem_cons.mp hv with h1 | h2
      · exact List.mem_cons.mpr (Or.inl h1)
      · exact List.mem_cons.mpr (Or.inr (ih (x :: seen) v h2))

theorem dedupKeys_ne_nil (x : JSNum) (xs : List JSNum) :
    dedupKeys [] (x :: xs) ≠ [] := by
  rw [dedupKeys, if_neg (by simp)]
  exact List.cons_ne_nil _ _

theorem mode_fold_some (window : List JSNum) : ∀ (l : List JSNum),
    (∀ v ∈ l, v.isSome = true ∧ 0 < window.count v) →
    ∀ acc : ℕ × JSNum, (acc.2.isSome = true ∨ (acc.1 = 0 ∧ l ≠ [])) →
    ((l.foldl (fun acc v =>
      if acc.1 < window.count v then (window.count v, v) else acc) acc).2).isSome = true := by
  intro l
  induction l with
  | nil =>
    intro _ acc hacc
    rcases hacc with h1 | ⟨_, h2⟩
    · exact h1
    · exact absurd rfl h2
  | cons v vs ih =>
    intro h acc hacc
    rw [List.foldl_cons]
    by_cases hc : acc.1 < window.count v
    · rw [if_pos hc]
      exact ih (fun w hw => h w (by simp [hw])) _ (Or.inl (h v (by simp)).1)
    · rw [if_neg hc]
      rcases hacc with h1 | ⟨h2, _⟩
      · exact ih (fun w hw => h w (by simp [hw])) acc (Or.inl h1)
      · exact absurd ((h v (by simp)).2) (by rw [h2] at hc; exact hc)

theorem mode_warm (source : List JSNum) (len : ℕ) (hlen : 1 ≤ len)
    (hall : ∀ x ∈ source, x.isSome = true) (i : ℕ) (hi : i < source.length) :
    (jget (mode source len) i).isSome = true ↔ len ≤ i + 1 := by
  rw [mode, jget_map_range _ _ _ hi]
  by_cases hw : i + 1 < len
  · rw [if_pos hw]
    constructor
    · intro h
      exact absurd h (by simp)
    · intro h
      omega
  · rw [if_neg hw]
    constructor
    · intro _
      omega
    · intro _
      apply mode_fold_some
      · intro v hv
        have hmem : v ∈ (List.range len).map (fun j => jget source (i - j)) :=
          dedupKeys_subset _ [] v hv
        constructor
        · rcases List.mem_map.mp hmem with ⟨j, _, hj⟩
          rw [← hj]
          exact jget_isSome source hall _ (by omega)
        · exact List.count_pos_iff.mpr hmem
      · refine Or.inr ⟨rfl, ?_⟩
        cases hlist : (List.range len).map (fun j => jget source (i - j)) with
        | nil =>
          have : len = 0 := by
            have := congrArg List.length hlist
            simpa using this
          omega
        | cons x xs =>
          exact dedupKeys_ne_nil x xs

theorem cmoSums_fold (source : List JSNum) (i : ℕ) : ∀ (l : List ℕ),
    (∀ j ∈ l, (jsub (jget source (i - j)) (jget source (i - j - 1))).isSome = true) →
    ∀ acc : JSNum × JSNum, acc.1.isSome = true → acc.2.isSome = true →
    (l.foldl (fun acc j =>
      if jgt (jsub (jget source (i - j)) (jget source (i - j - 1))) (some 0)
      then (jadd acc.1 (jsub (jget source (i - j)) (jget source (i - j - 1))), acc.2)
      else (acc.1, jsub acc.2 (jsub (jget source (i - j)) (jget source (i - j - 1)))))
      acc).1.isSome = true ∧
    (l.foldl (fun acc j =>
      if jgt (jsub (jget source (i - j)) (jget source (i - j - 1))) (some 0)
      then (jadd acc.1 (jsub (jget source (i - j)) (jget source (i - j - 1))), acc.2)
      else (acc.1, jsub acc.2 (jsub (jget source (i - j)) (jget source (i - j - 1)))))
      acc).2.isSome = true := by
  intro l
  induction l with
  | nil =>
    intro _ acc h1 h2
    exact ⟨h1, h2⟩
  | cons j js ih =>
    intro h acc h1 h2
    rw [List.foldl_cons]
    by_cases hc : jgt (jsub (jget source (i - j)) (jget source (i - j - 1))) (some 0) = true
    · rw [if_pos hc]
      exact ih (fun k hk => h k (by simp [hk])) _
        (jadd_isSome _ _ h1 (h j (by simp))) h2
    · rw [if_neg hc]
      exact ih (fun k hk => h k (by simp [hk])) _
        h1 (jsub_isSome _ _ h2 (h j (by simp)))

theorem cmoSums_isSome (source : List JSNum) (len i : ℕ)
    (hall : ∀ x ∈ source, x.isSome = true) (hi : i < source.length) :
    (cmoSums source len i).1.isSome = true ∧ (cmoSums source len i).2.isSome = true := by
  rw [cmoSums]
  apply cmoSums_fold source i (List.range len) ?_ (some 0, some 0) rfl rfl
  intro j _
  exact jsub_isSome _ _ (jget_isSome source hall _ (by omega))
    (jget_isSome source hall _ (by omega))

theorem cmo_warm (source : List JSNum) (len : ℕ) (hlen : 1 ≤ len)
    (hall : ∀ x ∈ source, x.isSome = true) (i : ℕ) (hi : i < source.length) :
    (jget (cmo source len) i).isSome = true ↔ len ≤ i := by
  rw [cmo, jget_map_range _ _ _ hi]
  by_cases hw : i < len
  · rw [if_pos hw]
    constructor
    · intro h
      exact absurd h (by simp)
    · intro h
      omega
  · rw [if_neg hw]
    constructor
    · intro _
      omega
    · intro _
      rcases cmoSums_isSome source len i hall hi with ⟨h1, h2⟩
      rcases Option.isSome_iff_exists.mp h1 with ⟨a, ha⟩
      rcases Option.isSome_iff_exists.mp h2 with ⟨b, hb⟩
      rw [ha, hb]
      by_cases hz : jeq (jadd (some a) (some b)) (some 0) = true
      · rw [if_pos hz]
        rfl
      · rw [if_neg hz]
        rw [jadd_some] at hz ⊢
        apply jmul_isSome _ _ ?_ (by rfl)
        apply jdiv_isSome_ne _ _ (by rw [jsub_some]; rfl) (a + b) rfl
        intro h0
        exact hz ((jeq_some _ _).mpr h0)

theorem jget_nonneg (l : List JSNum) (h : ∀ x ∈ l, ∃ q, x = some q ∧ 0 ≤ q) (k : ℕ)
    (hk : k < l.length) : ∃ q, jget l k = some q ∧ 0 ≤ q := by
  rw [jget_lt l k hk]
  exact h _ (l.get_mem _ _)

theorem mfiFlow_nonneg (high low close volume : List JSNum)
    (hh : ∀ x ∈ high, ∃ q, x = some q ∧ 0 ≤ q)
    (hl : ∀ x ∈ low, ∃ q, x = some q ∧ 0 ≤ q)
    (hc : ∀ x ∈ close, ∃ q, x = some q ∧ 0 ≤ q)
    (hv : ∀ x ∈ volume, ∃ q, x = some q ∧ 0 ≤ q)
    (hlh : high.length = close.length) (hll : low.length = close.length)
    (hlv : volume.length = close.length) (k : ℕ) (hk : k < close.length) :
    ∃ q, jget (mfiFlow high low close volume) k = some q ∧ 0 ≤ q := by
  rcases jget_nonneg high hh k (by omega) with ⟨qh, hqh, hqh0⟩
  rcases jget_nonneg low hl k (by omega) with ⟨ql, hql, hql0⟩
  rcases jget_nonneg close hc k (by omega) with ⟨qc, hqc, hqc0⟩
  rcases jget_nonneg volume hv k (by omega) with ⟨qv, hqv, hqv0⟩
  rw [mfiFlow, jget_map_range _ _ _ (by rw [tpSeq]; simp; omega), tpSeq,
    jget_map_range _ _ _ (by omega), hqh, hql, hqc, hqv, jadd_some, jadd_some,
    jdiv_some_ne _ _ (by norm_num), jmul_some]
  refine ⟨_, rfl, ?_⟩
  have h3 : (0 : ℚ) ≤ (qh + ql + qc) / 3 := by positivity
  exact mul_nonneg h3 hqv0

theorem mfiSums_fold (high low close volume : List JSNum) (i : ℕ) : ∀ (l : List ℕ),
    (∀ j ∈ l, ∃ q, jget (mfiFlow high low close volume) (i - j) = some q ∧ 0 ≤ q) →
    ∀ acc : JSNum × JSNum,
    (∃ a, acc.1 = some a ∧ 0 ≤ a) → (∃ b, acc.2 = some b ∧ 0 ≤ b) →
    (∃ a, (l.foldl (fun acc j =>
      if jgt (jget (tpSeq high low close) (i - j)) (jget (tpSeq high low close) (i - j - 1))
      then (jadd acc.1 (jget (mfiFlow high low close volume) (i - j)), acc.2)
      else (acc.1, jadd acc.2 (jget (mfiFlow high low close volume) (i - j)))) acc).1 =
        some a ∧ 0 ≤ a) ∧
    (∃ b, (l.foldl (fun acc j =>
      if jgt (jget (tpSeq high low close) (i - j)) (jget (tpSeq high low close) (i - j - 1))
      then (jadd acc.1 (jget (mfiFlow high low close volume) (i - j)), acc.2)
      else (acc.1, jadd acc.2 (jget (mfiFlow high low close volume) (i - j)))) acc).2 =
        some b ∧ 0 ≤ b) := by
  intro l
  induction l with
  | nil =>
    intro _ acc h1 h2
    exact ⟨h1, h2⟩
  | cons j js ih =>
    intro h acc h1 h2
    rw [List.foldl_cons]
    rcases h j (by simp) with ⟨q, hq, hq0⟩
    rcases h1 with ⟨a, ha, ha0⟩
    rcases h2 with ⟨b, hb, hb0⟩
    by_cases hc : jgt (jget (tpSeq high low close) (i - j))
        (jget (tpSeq high low close) (i - j - 1)) = true
    · rw [if_pos hc]
      apply ih (fun k hk => h k (by simp [hk]))
      · exact ⟨a + q, by rw [ha, hq, jadd_some], by linarith⟩
      · exact ⟨b, hb, hb0⟩
    · rw [if_neg hc]
      apply ih (fun k hk => h k (by simp [hk]))
      · exact ⟨a, ha, ha0⟩
      · exact ⟨b + q, by rw [hb, hq, jadd_some], by linarith⟩

theorem mfi_warm (high low close volume : List JSNum) (len : ℕ) (hlen : 1 ≤ len)
    (hh : ∀ x ∈ high, ∃ q, x = some q ∧ 0 ≤ q)
    (hl : ∀ x ∈ low, ∃ q, x = some q ∧ 0 ≤ q)
    (hc : ∀ x ∈ close, ∃ q, x = some q ∧ 0 ≤ q)
    (hv : ∀ x ∈ volume, ∃ q, x = some q ∧ 0 ≤ q)
    (hlh : high.length = close.length) (hll : low.length = close.length)
    (hlv : volume.length = close.length) (i : ℕ) (hi : i < close.length) :
    (jget (mfi high low close volume len) i).isSome = true ↔ len ≤ i := by
  rw [mfi, jget_map_range _ _ _ hi]
  by_cases hw : i < len
  · rw [if_pos hw]
    constructor
    · intro h
      exact absurd h (by simp)
    · intro h
      omega
  · rw [if_neg hw]
    constructor
    · intro _
      omega
    · intro _
      have hsums := mfiSums_fold high low close volume i (List.range len)
        (fun j _ => mfiFlow_nonneg high low close volume hh hl hc hv hlh hll hlv
          (i - j) (by omega))
        (some 0, some 0) ⟨0, rfl, le_refl 0⟩ ⟨0, rfl, le_refl 0⟩
      rw [← mfiSums] at hsums
      rcases hsums with ⟨⟨a, ha, ha0⟩, ⟨b, hb, hb0⟩⟩
      rw [ha, hb]
      by_cases hz : jeq (some b) (some 0) = true
      · rw [if_pos hz]
        rfl
      · rw [if_neg hz]
        have hbne : b ≠ 0 := fun h0 => hz ((jeq_some _ _).mpr h0)
        have hbpos : 0 < b := lt_of_le_of_ne hb0 (Ne.symm hbne)
        rw [jdiv_some_ne a b hbne, jadd_some, jdiv_some_ne _ _ ?_, jsub_some]
        · rfl
        · have : 0 ≤ a / b := div_nonneg ha0 hb0
          intro h0
          nlinarith

theorem corr_fold_isSome (s1 s2 : List JSNum) (i : ℕ) (m1 m2 : JSNum)
    (hm1 : m1.isSome = true) (hm2 : m2.isSome = true) : ∀ (l : List ℕ),
    (∀ j ∈ l, (jget s1 (i - j)).isSome = true ∧ (jget s2 (i - j)).isSome = true) →
    ∀ acc : JSNum × JSNum × JSNum, acc.1.isSome = true → acc.2.1.isSome = true →
      acc.2.2.isSome = true →
    (l.foldl (fun acc (j : ℕ) =>
      (jadd acc.1 (jmul (jsub (jget s1 (i - j)) m1) (jsub (jget s2 (i - j)) m2)),
       jadd acc.2.1 (jmul (jsub (jget s1 (i - j)) m1) (jsub (jget s1 (i - j)) m1)),
       jadd acc.2.2 (jmul (jsub (jget s2 (i - j)) m2) (jsub (jget s2 (i - j)) m2))))
      acc).1.isSome = true ∧
    (l.foldl (fun acc (j : ℕ) =>
      (jadd acc.1 (jmul (jsub (jget s1 (i - j)) m1) (jsub (jget s2 (i - j)) m2)),
       jadd acc.2.1 (jmul (jsub (jget s1 (i - j)) m1) (jsub (jget s1 (i - j)) m1)),
       jadd acc.2.2 (jmul (jsub (jget s2 (i - j)) m2) (jsub (jget s2 (i - j)) m2))))
      acc).2.1.isSome = true ∧
    (l.foldl (fun acc (j : ℕ) =>
      (jadd acc.1 (jmul (jsub (jget s1 (i - j)) m1) (jsub (jget s2 (i - j)) m2)),
       jadd acc.2.1 (jmul (jsub (jget s1 (i - j)) m1) (jsub (jget s1 (i - j)) m1)),
       jadd acc.2.2 (jmul (jsub (jget s2 (i - j)) m2) (jsub (jget s2 (i - j)) m2))))
      acc).2.2.isSome = true := by
  intro l
  induction l with
  | nil =>
    intro _ acc h1 h2 h3
    exact ⟨h1, h2, h3⟩
  | cons j js ih =>
    intro h acc h1 h2 h3
    rw [List.foldl_cons]
    rcases h j (by simp) with ⟨hj1, hj2⟩
    exact ih (fun k hk => h k (by simp [hk])) _
      (jadd_isSome _ _ h1 (jmul_isSome _ _ (jsub_isSome _ _ hj1 hm1) (jsub_isSome _ _ hj2 hm2)))
      (jadd_isSome _ _ h2 (jmul_isSome _ _ (jsub_isSome _ _ hj1 hm1) (jsub_isSome _ _ hj1 hm1)))
      (jadd_isSome _ _ h3 (jmul_isSome _ _ (jsub_isSome _ _ hj2 hm2) (jsub_isSome _ _ hj2 hm2)))

theorem corrSums_isSome (s1 s2 : List JSNum) (len i : ℕ) (hlen : 1 ≤ len)
    (hall1 : ∀ x ∈ s1, x.isSome = true) (hall2 : ∀ x ∈ s2, x.isSome = true)
    (hi1 : i < s1.length) (hi2 : i < s2.length) :
    (corrSums s1 s2 len i).1.isSome = true ∧ (corrSums s1 s2 len i).2.1.isSome = true ∧
    (corrSums s1 s2 len i).2.2.isSome = true := by
  simp only [corrSums]
  apply corr_fold_isSome s1 s2 i _ _ ?_ ?_ (List.range len) ?_ (some 0, some 0, some 0)
    rfl rfl rfl
  · exact jdiv_isSome_ne _ _ (window_sum_isSome s1 i hall1 hi1 len) ((len : ℚ)) rfl
      (Nat.cast_ne_zero.mpr (by omega))
  · exact jdiv_isSome_ne _ _ (window_sum_isSome s2 i hall2 hi2 len) ((len : ℚ)) rfl
      (Nat.cast_ne_zero.mpr (by omega))
  · intro j _
    exact ⟨jget_isSome s1 hall1 _ (by omega), jget_isSome s2 hall2 _ (by omega)⟩

theorem correlation_warm (S : ℚ → ℚ) (s1 s2 : List JSNum) (len : ℕ) (hlen : 1 ≤ len)
    (hall1 : ∀ x ∈ s1, x.isSome = true) (hall2 : ∀ x ∈ s2, x.isSome = true)
    (hlen2 : s2.length = s1.length) (i : ℕ) (hi : i < s1.length) :
    (i + 1 < len → jget (correlation S s1 s2 len) i = none) ∧
    (len ≤ i + 1 →
      jeq (Option.map S (jmul (corrSums s1 s2 len i).2.1 (corrSums s1 s2 len i).2.2))
        (some 0) = false →
      (jget (correlation S s1 s2 len) i).isSome = true) := by
  rw [correlation, jget_map_range _ _ _ hi]
  constructor
  · intro hw
    rw [if_pos hw]
  · intro hw hden
    rw [if_neg (by omega), if_neg (by rw [hden]; exact Bool.false_ne_true)]
    rcases corrSums_isSome s1 s2 len i hlen hall1 hall2 hi (by omega) with ⟨h1, h2, h3⟩
    rcases Option.isSome_iff_exists.mp h2 with ⟨d1, hd1⟩
    rcases Option.isSome_iff_exists.mp h3 with ⟨d2, hd2⟩
    rw [hd1, hd2, jmul_some, omap_some] at hden
    rw [hd1, hd2, jmul_some, omap_some]
    apply jdiv_isSome_ne _ _ h1 (S (d1 * d2)) rfl
    intro h0
    rw [h0] at hden
    exact absurd ((jeq_some (0 : ℚ) 0).mpr rfl) (by rw [hden]; exact Bool.false_ne_true)

end ta

namespace ta

/-- C2 (counterexample to the spec sentence): the warm-up of `cmo` is
`length` bars, not `length - 1` — `cmo([0,1,2], 1)` is NaN at index 0
although the claim allows no NaN there.  Further members break the claim
even outside the warm-up: with `length = 1`, `percentrank`, the unbiased
`variance` and `linreg` divide by `length - 1 = 0` and are NaN at every
position, and `correlation` is NaN past the warm-up whenever its
denominator is zero (constant windows). -/
theorem C2_cex :
    jget (cmo [some 0, some 1, some 2] 1) 0 = none ∧
    jget (percentrank [some 1] 1) 0 = none ∧
    jget (variance [some 1] 1 false) 0 = none ∧
    jget (linreg [some 1] 1 0) 0 = none ∧
    jget (correlation (fun q => q) [some 1, some 1] [some 1, some 1] 2) 1 = none :=
  ⟨by decide, by decide, by decide, by decide, by decide⟩

/-- C2 (amended): on NaN-free inputs, the output length equals the input
length and the NaN prefix is exactly the warm-up, as follows.  For `sma`,
`wma`, `alma` (with a positive exponential model), `highest`, `lowest`,
`stdev`, `dev`, `variance` (unbiased only for `length ≥ 2`), `median`,
`mode`, `cog`, and for `linreg` and `percentrank` with `length ≥ 2`, an
output position is finite exactly when `length ≤ i + 1`: the first
`length - 1` positions are NaN and no later one is.  For `cmo` and `mfi`
(the latter on nonnegative inputs) the warm-up is one bar longer: finite
exactly when `length ≤ i`.  For `correlation` the first `length - 1`
positions are NaN and a later position is finite whenever the computed
denominator is nonzero.  The concrete scenario
`sma([1,2,3,4,5], 3) = [NaN, NaN, 2, 3, 4]` holds. -/
theorem C2_windowed :
    sma [some 1, some 2, some 3, some 4, some 5] 3 =
      [none, none, some 2, some 3, some 4] ∧
    (∀ (source : List JSNum) (len : ℕ), 1 ≤ len → (∀ x ∈ source, x.isSome = true) →
      (sma source len).length = source.length ∧
      ∀ i, i < source.length → ((jget (sma source len) i).isSome = true ↔ len ≤ i + 1)) ∧
    (∀ (source : List JSNum) (len : ℕ), 1 ≤ len → (∀ x ∈ source, x.isSome = true) →
      (wma source len).length = source.length ∧
      ∀ i, i < source.length → ((jget (wma source len) i).isSome = true ↔ len ≤ i + 1)) ∧
    (∀ (E : ℚ → ℚ) (source : List JSNum) (len : ℕ) (offset sigma : ℚ), 1 ≤ len →
      (∀ q, 0 < E q) → (∀ x ∈ source, x.isSome = true) →
      (alma E source len offset sigma).length = source.length ∧
      ∀ i, i < source.length →
        ((jget (alma E source len offset sigma) i).isSome = true ↔ len ≤ i + 1)) ∧
    (∀ (source : List JSNum) (len : ℕ), 1 ≤ len → (∀ x ∈ source, x.isSome = true) →
      (highest source len).length = source.length ∧
      (lowest source len).length = source.length ∧
      ∀ i, i < source.length →
        (((jget (highest source len) i).isSome = true ↔ len ≤ i + 1) ∧
         ((jget (lowest source len) i).isSome = true ↔ len ≤ i + 1))) ∧
    (∀ (S : ℚ → ℚ) (source : List JSNum) (len : ℕ), 1 ≤ len →
      (∀ x ∈ source, x.isSome = true) →
      (stdev S source len).length = source.length ∧
      ∀ i, i < source.length →
        ((jget (stdev S source len) i).isSome = true ↔ len ≤ i + 1)) ∧
    (∀ (source : List JSNum) (len : ℕ), 1 ≤ len → (∀ x ∈ source, x.isSome = true) →
      (dev source len).length = source.length ∧
      ∀ i, i < source.length → ((jget (dev source len) i).isSome = true ↔ len ≤ i + 1)) ∧
    (∀ (source : List JSNum) (len : ℕ) (biased : Bool), 1 ≤ len →
      (biased = false → 2 ≤ len) → (∀ x ∈ source, x.isSome = true) →
      (variance source len biased).length = source.length ∧
      ∀ i, i < source.length →
        ((jget (variance source len biased) i).isSome = true ↔ len ≤ i + 1)) ∧
    (∀ (source : List JSNum) (len : ℕ), 1 ≤ len → (∀ x ∈ source, x.isSome = true) →
      (median source len).length = source.length ∧
      ∀ i, i < source.length →
        ((jget (median source len) i).isSome = true ↔ len ≤ i + 1)) ∧
    (∀ (source : List JSNum) (len : ℕ), 1 ≤ len → (∀ x ∈ source, x.isSome = true) →
      (mode source len).length = source.length ∧
      ∀ i, i < source.length → ((jget (mode source len) i).isSome = true ↔ len ≤ i + 1)) ∧
    (∀ (source : List JSNum) (len : ℕ), 1 ≤ len → (∀ x ∈ source, x.isSome = true) →
      (cog source len).length = source.length ∧
      ∀ i, i < source.length → ((jget (cog source len) i).isSome = true ↔ len ≤ i + 1)) ∧
    (∀ (source : List JSNum) (len : ℕ) (offset : ℚ), 2 ≤ len →
      (∀ x ∈ source, x.isSome = true) →
      (linreg source len offset).length = source.length ∧
      ∀ i, i < source.length →
        ((jget (linreg source len offset) i).isSome = true ↔ len ≤ i + 1)) ∧
    (∀ (source : List JSNum) (len : ℕ), 2 ≤ len → (∀ x ∈ source, x.isSome = true) →
      (percentrank source len).length = source.length ∧
      ∀ i, i < source.length →
        ((jget (percentrank source len) i).isSome = true ↔ len ≤ i + 1)) ∧
    (∀ (S : ℚ → ℚ) (s1 s2 : List JSNum) (len : ℕ), 1 ≤ len →
      (∀ x ∈ s1, x.isSome = true) → (∀ x ∈ s2, x.isSome = true) →
      s2.length = s1.length →
      (correlation S s1 s2 len).length = s1.length ∧
      ∀ i, i < s1.length →
        ((i + 1 < len → jget (correlation S s1 s2 len) i = none) ∧
         (len ≤ i + 1 →
          jeq (Option.map S (jmul (corrSums s1 s2 len i).2.1 (corrSums s1 s2 len i).2.2))
            (some 0) = false →
          (jget (correlation S s1 s2 len) i).isSome = true))) ∧
    (∀ (source : List JSNum) (len : ℕ), 1 ≤ len → (∀ x ∈ source, x.isSome = true) →
      (cmo source len).length = source.length ∧
      ∀ i, i < source.length → ((jget (cmo source len) i).isSome = true ↔ len ≤ i)) ∧
    (∀ (high low close volume : List JSNum) (len : ℕ), 1 ≤ len →
      (∀ x ∈ high, ∃ q, x = some q ∧ 0 ≤ q) → (∀ x ∈ low, ∃ q, x = some q ∧ 0 ≤ q) →
      (∀ x ∈ close, ∃ q, x = some q ∧ 0 ≤ q) → (∀ x ∈ volume, ∃ q, x = some q ∧ 0 ≤ q) →
      high.length = close.length → low.length = close.length →
      volume.length = close.length →
      (mfi high low close volume len).length = close.length ∧
      ∀ i, i < close.length →
        ((jget (mfi high low close volume len) i).isSome = true ↔ len ≤ i)) := by
  refine ⟨by decide, ?_, ?_, ?_, ?_, ?_, ?_, ?_, ?_, ?_, ?_, ?_, ?_, ?_, ?_, ?_⟩
  · intro source len hlen hall
    exact ⟨by simp [sma], fun i hi => sma_warm source len hlen hall i hi⟩
  · intro source len hlen hall
    exact ⟨by simp [wma], fun i hi => wma_warm source len hlen hall i hi⟩
  · intro E source len offset sigma hlen hE hall
    exact ⟨by simp [alma], fun i hi => alma_warm E source len offset sigma hlen hE hall i hi⟩
  · intro source len hlen hall
    exact ⟨by simp [highest], by simp [lowest], fun i hi =>
      ⟨highest_warm source len hlen hall i hi, lowest_warm source len hlen hall i hi⟩⟩
  · intro S source len hlen hall
    exact ⟨by simp [stdev], fun i hi => stdev_warm S source len hlen hall i hi⟩
  · intro source len hlen hall
    exact ⟨by simp [dev], fun i hi => dev_warm source len hlen hall i hi⟩
  · intro source len biased hlen hlen2 hall
    exact ⟨by simp [variance], fun i hi =>
      variance_warm source len biased hlen hlen2 hall i hi⟩
  · intro source len hlen hall
    exact ⟨by simp [median], fun i hi => median_warm source len hlen hall i hi⟩
  · intro source len hlen hall
    exact ⟨by simp [mode], fun i hi => mode_warm source len hlen hall i hi⟩
  · intro source len hlen hall
    exact ⟨by simp [cog], fun i hi => cog_warm source len hlen hall i hi⟩
  · intro source len offset hlen hall
    exact ⟨by simp [linreg], fun i hi => linreg_warm source len offset hlen hall i hi⟩
  · intro source len hlen hall
    exact ⟨by simp [percentrank], fun i hi => percentrank_warm source len hlen hall i hi⟩
  · intro S s1 s2 len hlen hall1 hall2 hlen2
    exact ⟨by simp [correlation], fun i hi =>
      correlation_warm S s1 s2 len hlen hall1 hall2 hlen2 i hi⟩
  · intro source len hlen hall
    exact ⟨by simp [cmo], fun i hi => cmo_warm source len hlen hall i hi⟩
  · intro high low close volume len hlen hh hl hc hv hlh hll hlv
    exact ⟨by simp [mfi], fun i hi =>
      mfi_warm high low close volume len hlen hh hl hc hv hlh hll hlv i hi⟩

/-- Witness for C2: the `sma` scenario, plus concrete finite outputs right
after the warm-up for `sma`, `cmo`, `mfi`, `linreg`, `alma` and
`correlation` on small finite inputs. -/
theorem C2_windowed_wit :
    sma [some 1, some 2, some 3, some 4, some 5] 3 =
      [none, none, some 2, some 3, some 4] ∧
    (jget (sma [some 1, some 2, some 3, some 4, some 5] 3) 4).isSome = true ∧
    (jget (cmo [some 0, some 1, some 2] 1) 1).isSome = true ∧
    (jget (mfi [some 2, some 2] [some 1, some 1] [some 1, some 2] [some 1, some 1] 1)
      1).isSome = true ∧
    (jget (linreg [some 1, some 2] 2 0) 1).isSome = true ∧
    (jget (alma (fun _ => 1) [some 1, some 2] 2 0 1) 1).isSome = true ∧
    (jget (correlation (fun q => q) [some 1, some 2] [some 1, some 3] 2) 1).isSome = true := by
  obtain ⟨hsc, hsma, hwma, halma, hext, hstdev, hdev, hvar, hmed, hmode, hcog, hlin,
    hpr, hcorr, hcmo, hmfi⟩ := C2_windowed
  refine ⟨hsc, ?_, ?_, ?_, ?_, ?_, ?_⟩
  · exact ((hsma [some 1, some 2, some 3, some 4, some 5] 3 (by decide) (by decide)).2
      4 (by decide)).mpr (by decide)
  · exact ((hcmo [some 0, some 1, some 2] 1 (by decide) (by decide)).2 1 (by decide)).mpr
      (by decide)
  · exact ((hmfi [some 2, some 2] [some 1, some 1] [some 1, some 2] [some 1, some 1] 1
      (by decide) (by decide) (by decide) (by decide) (by decide) (by decide) (by decide)
      (by decide)).2 1 (by decide)).mpr (by decide)
  · exact ((hlin [some 1, some 2] 2 0 (by decide) (by decide)).2 1 (by decide)).mpr
      (by decide)
  · exact ((halma (fun _ => 1) [some 1, some 2] 2 0 1 (by decide) (fun q => by norm_num)
      (by decide)).2 1 (by decide)).mpr (by decide)
  · exact ((hcorr (fun q => q) [some 1, some 2] [some 1, some 3] 2 (by decide) (by decide)
      (by decide) (by decide)).2 1 (by decide)).2 (by decide) (by decide)

end ta
